import Mathlib

/-!
# Participant mock (`participant-mock/main.go`): payment lifecycle and ledger

Shallow embedding of the participant service.

* Go maps with string keys are association lists (`GoMap`): a read returns the
  first binding of the key, a write overwrites that binding in place or appends
  a new one.  Writing a key never duplicates it.
* `*Payment` pointers are identified with the `byPaymentID` key the payment is
  stored under; a mutation through the pointer is a write at that key.
* `int64` values are integers; the balance arithmetic of `appendEntry` wraps
  with `wrap64` (two's complement), as Go's `-=` and `+=` on `int64` do.
* `time.Now()` is an input `now` of the handler (one reading per invocation);
  `newID()` is an input `newId` of `handleSend`.
* Every handler is executed atomically (one handler at a time), except in the
  section on interleaved webhook handlers, where each critical section of `st.mu`
  is a step of its own.
-/

namespace Participant

/-! ## Go maps -/

/-- A Go `map[string]β`. -/
abbrev GoMap (β : Type) := List (String × β)

namespace GoMap

/-- The lookup `v, ok := m[key]`. -/
def read {β : Type} : GoMap β → String → Option β
  | [], _ => none
  | (k, v) :: m, key => if k = key then some v else read m key

/-- The assignment `m[key] = v`. -/
def write {β : Type} : GoMap β → String → β → GoMap β
  | [], key, v => [(key, v)]
  | (k, x) :: m, key, v => if k = key then (k, v) :: m else (k, x) :: write m key v

/-- The test `_, ok := m[key]`. -/
def has {β : Type} (m : GoMap β) (key : String) : Bool :=
  (read m key).isSome

/-- The keys of the map, in insertion order. -/
def keys {β : Type} (m : GoMap β) : List String :=
  m.map Prod.fst

end GoMap

/-! ## Data model -/

/-- Wall-clock readings (`time.Now().UTC()`), as nanoseconds. -/
abbrev Time := Nat

/-- Two's-complement wrap of an integer into the `int64` range. -/
def wrap64 (x : Int) : Int :=
  (x + 9223372036854775808) % 18446744073709551616 - 9223372036854775808

/-- The values an `int64` can hold. -/
def isInt64 (x : Int) : Prop :=
  -9223372036854775808 ≤ x ∧ x < 9223372036854775808

instance (x : Int) : Decidable (isInt64 x) := by
  unfold isInt64; exact inferInstance

structure SendRequest where
  TxID : String
  Amount : Int
  ReceiverKey : String
  Description : String
  ClientRef : String
deriving DecidableEq, Repr

structure SendAccepted where
  PaymentID : String
  Status : String
deriving DecidableEq, Repr

structure ProviderSendResponse where
  ProviderPaymentID : String
  Status : String
deriving DecidableEq, Repr

structure Payment where
  PaymentID : String
  ProviderPaymentID : String
  IdempotencyKey : String
  Amount : Int
  Status : String
  CreatedAt : Time
  UpdatedAt : Time
deriving DecidableEq, Repr

structure WebhookEvent where
  EventID : String
  ProviderPaymentID : String
  Typ : String
  OccurredAt : String
  CorrelationID : String
deriving DecidableEq, Repr

structure LedgerLine where
  Account : String
  Direction : String
  Amount : Int
deriving DecidableEq, Repr

structure LedgerEntry where
  PostingID : String
  PaymentID : String
  OccurredAt : Time
  Kind : String
  Lines : List LedgerLine
deriving DecidableEq, Repr

structure Store where
  byPaymentID : GoMap Payment
  byIdempotencyKey : GoMap String
  byProviderID : GoMap String
  byCorrelationID : GoMap String
  seenEventIDs : GoMap Unit
  ledgerEntries : List LedgerEntry
  ledgerByPosting : GoMap Unit
  balances : GoMap Int
deriving DecidableEq, Repr

/-- The store `main` starts with: every map and the entry log empty. -/
def Store.empty : Store :=
  { byPaymentID := [], byIdempotencyKey := [], byProviderID := [], byCorrelationID := [],
    seenEventIDs := [], ledgerEntries := [], ledgerByPosting := [], balances := [] }

/-! ## Ledger -/

/-- The loop body of `appendEntry`: one line applied to the balances map. -/
def applyLine (bal : GoMap Int) (line : LedgerLine) : GoMap Int :=
  if line.Direction = "DEBIT" then
    bal.write line.Account (wrap64 (((bal.read line.Account).getD 0) - line.Amount))
  else
    bal.write line.Account (wrap64 (((bal.read line.Account).getD 0) + line.Amount))

/-- The function `appendEntry`: a no-op when the posting id is recorded, otherwise
record it, append the entry and apply its lines to the balances. -/
def appendEntry (st : Store) (entry : LedgerEntry) : Store :=
  if st.ledgerByPosting.has entry.PostingID then st
  else
    { st with
      ledgerByPosting := st.ledgerByPosting.write entry.PostingID ()
      ledgerEntries := st.ledgerEntries ++ [entry]
      balances := entry.Lines.foldl applyLine st.balances }

/-- The entry built by `addLedgerHold`. -/
def holdEntry (paymentID : String) (amount : Int) (now : Time) : LedgerEntry :=
  { PostingID := paymentID ++ ":HOLD", PaymentID := paymentID, OccurredAt := now, Kind := "HOLD",
    Lines := [⟨"CUSTOMER_AVAILABLE", "DEBIT", amount⟩, ⟨"CUSTOMER_HELD", "CREDIT", amount⟩] }

/-- The entry built by `addLedgerSettle`. -/
def settleEntry (paymentID : String) (amount : Int) (now : Time) : LedgerEntry :=
  { PostingID := paymentID ++ ":SETTLE", PaymentID := paymentID, OccurredAt := now,
    Kind := "SETTLE",
    Lines := [⟨"CUSTOMER_HELD", "DEBIT", amount⟩, ⟨"PIX_CLEARING", "CREDIT", amount⟩] }

/-- The entry built by `addLedgerRelease`. -/
def releaseEntry (paymentID : String) (amount : Int) (now : Time) : LedgerEntry :=
  { PostingID := paymentID ++ ":RELEASE", PaymentID := paymentID, OccurredAt := now,
    Kind := "RELEASE",
    Lines := [⟨"CUSTOMER_HELD", "DEBIT", amount⟩, ⟨"CUSTOMER_AVAILABLE", "CREDIT", amount⟩] }

def addLedgerHold (st : Store) (paymentID : String) (amount : Int) (now : Time) : Store :=
  appendEntry st (holdEntry paymentID amount now)

def addLedgerSettle (st : Store) (paymentID : String) (amount : Int) (now : Time) : Store :=
  appendEntry st (settleEntry paymentID amount now)

def addLedgerRelease (st : Store) (paymentID : String) (amount : Int) (now : Time) : Store :=
  appendEntry st (releaseEntry paymentID amount now)

def normalizeStatus (s : String) : String :=
  if s = "PENDING" then "PENDING"
  else if s = "CONFIRMED" then "CONFIRMED"
  else if s = "REJECTED" then "REJECTED"
  else ""

/-! ## Handlers -/

/-- What `handleSend` reads from the HTTP request: the method, the
`Idempotency-Key` header (empty when absent) and the decoded JSON body
(`none` when decoding fails). -/
structure SendHttp where
  Method : String
  IdempotencyKey : String
  Body : Option SendRequest
deriving DecidableEq, Repr

/-- What `handleSend` answers: `http.Error` with a status code, `writeJSON` with a
status code and a body, or the run-time panic of dereferencing a nil `*Payment`. -/
inductive SendResponse where
  | error (code : Nat) (msg : String)
  | json (code : Nat) (body : SendAccepted)
  | nilDeref
deriving DecidableEq, Repr

/-- The outcome of one `handleSend`: the store afterwards, the response, and the
arguments of the `go callProvider(cfg, st, p, req)` it started, if any (the payment
by its id). -/
structure SendResult where
  store : Store
  response : SendResponse
  spawned : Option (String × SendRequest)
deriving DecidableEq, Repr

/-- The handler `handleSend`. -/
def handleSend (st : Store) (r : SendHttp) (newId : String) (now : Time) : SendResult :=
  if r.Method ≠ "POST" then ⟨st, .error 405 "method not allowed", none⟩
  else
    let idem := r.IdempotencyKey
    if idem = "" then ⟨st, .error 400 "missing Idempotency-Key", none⟩
    else
      match r.Body with
      | none => ⟨st, .error 400 "invalid json", none⟩
      | some req =>
        if req.TxID = "" ∨ req.Amount ≤ 0 ∨ req.ReceiverKey = "" then
          ⟨st, .error 400 "invalid request", none⟩
        else
          match st.byIdempotencyKey.read idem with
          | some existingID =>
            match st.byPaymentID.read existingID with
            | none => ⟨st, .nilDeref, none⟩
            | some p => ⟨st, .json 202 ⟨p.PaymentID, p.Status⟩, none⟩
          | none =>
            let paymentID := newId
            let p : Payment :=
              { PaymentID := paymentID, ProviderPaymentID := "", IdempotencyKey := idem,
                Amount := req.Amount, Status := "CREATED", CreatedAt := now, UpdatedAt := now }
            let st1 : Store :=
              { st with
                byPaymentID := st.byPaymentID.write paymentID p
                byIdempotencyKey := st.byIdempotencyKey.write idem paymentID
                byCorrelationID := st.byCorrelationID.write paymentID paymentID }
            let st2 := addLedgerHold st1 paymentID req.Amount now
            ⟨st2, .json 202 ⟨paymentID, p.Status⟩, some (paymentID, req)⟩

/-- What `client.Do` and the decoding of the reply give `callProvider`: a transport
error (`err != nil`, which includes the client timeout), or a response with its status
code and decoded body (zero-valued fields when the body does not carry them). -/
inductive ProviderReply where
  | transportError
  | response (code : Nat) (body : ProviderSendResponse)
deriving DecidableEq, Repr

/-- The function `callProvider` for the payment stored under `pid`, given what the
provider call returned.  The status code of a response is not inspected. -/
def callProvider (st : Store) (pid : String) (reply : ProviderReply) (now : Time) : Store :=
  match reply with
  | .transportError => st
  | .response _ provResp =>
    match st.byPaymentID.read pid with
    | none => st
    | some p =>
      if provResp.ProviderPaymentID ≠ "" then
        { st with
          byPaymentID := st.byPaymentID.write pid
            { p with ProviderPaymentID := provResp.ProviderPaymentID,
                     Status := "PENDING", UpdatedAt := now }
          byProviderID := st.byProviderID.write provResp.ProviderPaymentID p.PaymentID }
      else
        { st with
          byPaymentID := st.byPaymentID.write pid
            { p with Status := "PENDING", UpdatedAt := now } }

/-- The `switch finalType` of `applyWebhook`: the posting made for payment `p`. -/
def postFor (st : Store) (p : Payment) (finalType : String) (now : Time) : Store :=
  if finalType = "CONFIRMED" then addLedgerSettle st p.PaymentID p.Amount now
  else if finalType = "REJECTED" then addLedgerRelease st p.PaymentID p.Amount now
  else st

/-- The function `applyWebhook` for the payment stored under `pid`. -/
def applyWebhook (st : Store) (pid : String) (eventType : String) (now : Time) : Store :=
  match st.byPaymentID.read pid with
  | none => st
  | some p =>
    if normalizeStatus eventType = "" then st
    else if p.Status = "CONFIRMED" ∨ p.Status = "REJECTED" then st
    else
      { postFor st p (normalizeStatus eventType) now with
        byPaymentID := (postFor st p (normalizeStatus eventType) now).byPaymentID.write pid
          { p with Status := normalizeStatus eventType, UpdatedAt := now } }

/-- One index lookup of `handleWebhook`: `p = st.byPaymentID[pid]` when the key is
non-empty and indexed; `none` stands for `p == nil`. -/
def lookupPayment (st : Store) (index : GoMap String) (key : String) : Option String :=
  if key ≠ "" then
    match index.read key with
    | some pid => if st.byPaymentID.has pid then some pid else none
    | none => none
  else none

/-- The payment resolution of `handleWebhook`: by `provider_payment_id` first, by
`correlation_id` when that gave nil. -/
def resolvePayment (st : Store) (ev : WebhookEvent) : Option String :=
  match lookupPayment st st.byProviderID ev.ProviderPaymentID with
  | some pid => some pid
  | none => lookupPayment st st.byCorrelationID ev.CorrelationID

/-- The statement `st.seenEventIDs[ev.EventID] = struct{}{}` of `handleWebhook`. -/
def markSeen (st : Store) (eventID : String) : Store :=
  { st with seenEventIDs := st.seenEventIDs.write eventID () }

/-- What `handleWebhook` reads from the HTTP request. -/
structure WebhookHttp where
  Method : String
  Body : Option WebhookEvent
deriving DecidableEq, Repr

/-- The handler `handleWebhook`: the store afterwards and the status code. -/
def handleWebhook (st : Store) (r : WebhookHttp) (now : Time) : Store × Nat :=
  if r.Method ≠ "POST" then (st, 405)
  else
    match r.Body with
    | none => (st, 400)
    | some ev =>
      if st.seenEventIDs.has ev.EventID then (st, 204)
      else
        let st1 := markSeen st ev.EventID
        match resolvePayment st1 ev with
        | none => (st1, 204)
        | some pid => (applyWebhook st1 pid ev.Typ now, 204)

/-! ## Runs -/

/-- A `POST /pix/send` with key `idem` and decoded body `req`. -/
def submit (st : Store) (idem : String) (req : SendRequest) (newId : String) (now : Time) :
    SendResult :=
  handleSend st ⟨"POST", idem, some req⟩ newId now

/-- A `POST /webhooks/pix` carrying the event `ev`: the store afterwards. -/
def deliver (st : Store) (ev : WebhookEvent) (now : Time) : Store :=
  (handleWebhook st ⟨"POST", some ev⟩ now).1

/-- Deliveries one after the other, each with its clock reading. -/
def deliverAll (st : Store) (evs : List (WebhookEvent × Time)) : Store :=
  evs.foldl (fun s e => deliver s e.1 e.2) st

/-- The stores the service can be in: start from the empty store and run handlers.
`newID()` returns an id that is not a payment id yet; `callProvider` runs for a
payment that `handleSend` created. -/
inductive Reachable : Store → Prop where
  | init : Reachable Store.empty
  | send (st : Store) (r : SendHttp) (newId : String) (now : Time) :
      Reachable st → st.byPaymentID.read newId = none →
      Reachable (handleSend st r newId now).store
  | providerReply (st : Store) (pid : String) (reply : ProviderReply) (now : Time) :
      Reachable st → st.byPaymentID.has pid = true →
      Reachable (callProvider st pid reply now)
  | webhook (st : Store) (r : WebhookHttp) (now : Time) :
      Reachable st → Reachable (handleWebhook st r now).1

/-! ## Store invariants and ledger observations -/

/-- Every payment is stored under its own `PaymentID`: the only write to
`byPaymentID` is `st.byPaymentID[paymentID] = p` with `p.PaymentID = paymentID`. -/
def KeysConsistent (st : Store) : Prop :=
  ∀ kv ∈ st.byPaymentID, kv.2.PaymentID = kv.1

instance (st : Store) : Decidable (KeysConsistent st) := by
  unfold KeysConsistent; exact inferInstance

/-- Every payment id held by `byIdempotencyKey` is a key of `byPaymentID`. -/
def IdemIndexed (st : Store) : Prop :=
  ∀ kv ∈ st.byIdempotencyKey, st.byPaymentID.has kv.2 = true

instance (st : Store) : Decidable (IdemIndexed st) := by
  unfold IdemIndexed; exact inferInstance

/-- A ledger entry without its timestamp. -/
def eraseTime (e : LedgerEntry) : LedgerEntry :=
  { e with OccurredAt := 0 }

/-- The validation `req.TxID == "" || req.Amount <= 0 || req.ReceiverKey == ""`
of `handleSend`, negated. -/
def validBody (req : SendRequest) : Prop :=
  ¬ (req.TxID = "" ∨ req.Amount ≤ 0 ∨ req.ReceiverKey = "")

instance (req : SendRequest) : Decidable (validBody req) := by
  unfold validBody; exact inferInstance

/-! ## Concrete stores and events -/

/-- A valid order body of amount 1000. -/
def sampleRequest : SendRequest :=
  { TxID := "tx1", Amount := 1000, ReceiverKey := "key@bank", Description := "", ClientRef := "" }

/-- The store after one accepted submission with key `k1`, payment id `p1`. -/
def storeCreated : Store :=
  (submit Store.empty "k1" sampleRequest "p1" 1).store

/-- A `CONFIRMED` event for `p1`, by correlation id. -/
def confirmEvent : WebhookEvent :=
  { EventID := "e1", ProviderPaymentID := "", Typ := "CONFIRMED", OccurredAt := "",
    CorrelationID := "p1" }

/-- A `REJECTED` event for `p1`, by correlation id. -/
def rejectEvent : WebhookEvent :=
  { EventID := "e2", ProviderPaymentID := "", Typ := "REJECTED", OccurredAt := "",
    CorrelationID := "p1" }

/-- A `PENDING` event for `p1`, by correlation id. -/
def pendingEvent : WebhookEvent :=
  { EventID := "e0", ProviderPaymentID := "", Typ := "PENDING", OccurredAt := "",
    CorrelationID := "p1" }

/-- The store after `p1` was confirmed by webhook. -/
def storeConfirmed : Store :=
  deliver storeCreated confirmEvent 2

/-! ## Sequences of requests -/

/-- Successive `POST /pix/send` calls carrying the same `Idempotency-Key`, each with
its body, the id `newID()` would return and its clock reading: the final store and
the responses in order. -/
def submitAll (st : Store) (idem : String) :
    List (Option SendRequest × String × Time) → Store × List SendResponse
  | [] => (st, [])
  | c :: rest =>
    ((submitAll (handleSend st ⟨"POST", idem, c.1⟩ c.2.1 c.2.2).store idem rest).1,
      (handleSend st ⟨"POST", idem, c.1⟩ c.2.1 c.2.2).response ::
        (submitAll (handleSend st ⟨"POST", idem, c.1⟩ c.2.1 c.2.2).store idem rest).2)

/-- An id `newID()` may return in store `st`, one that was never used: not a payment
id, its HOLD posting id not recorded, and carried by no ledger entry. -/
def FreshID (st : Store) (id : String) : Prop :=
  st.byPaymentID.read id = none ∧ st.ledgerByPosting.has (id ++ ":HOLD") = false ∧
  ∀ e ∈ st.ledgerEntries, e.PaymentID ≠ id

/-- No payment of the store was submitted under `idem`: the key is not indexed and no
stored payment carries it. -/
def KeyUnknown (st : Store) (idem : String) : Prop :=
  st.byIdempotencyKey.read idem = none ∧ ∀ kv ∈ st.byPaymentID, kv.2.IdempotencyKey ≠ idem

instance (st : Store) (idem : String) : Decidable (KeyUnknown st idem) := by
  unfold KeyUnknown; exact inferInstance

instance (st : Store) (id : String) : Decidable (FreshID st id) := by
  unfold FreshID; exact inferInstance

/-- Submission idempotency of a run of same-key calls from `st`: one payment `p` was
added, under the id `pid` that the key is indexed to, and it is the only stored payment
carrying the key; one entry was appended, the HOLD of `p`, and it is the only HOLD entry
carrying `pid`; and every call answered 202 with `pid`. -/
def SubmissionIdempotent (st : Store) (idem : String)
    (calls : List (Option SendRequest × String × Time)) : Prop :=
  ∃ pid p t,
    (submitAll st idem calls).1.byIdempotencyKey.read idem = some pid ∧
    (submitAll st idem calls).1.byPaymentID = st.byPaymentID ++ [(pid, p)] ∧
    p.PaymentID = pid ∧ p.IdempotencyKey = idem ∧
    ((submitAll st idem calls).1.byPaymentID.filter
      (fun kv => decide (kv.2.IdempotencyKey = idem))).length = 1 ∧
    (submitAll st idem calls).1.ledgerEntries = st.ledgerEntries ++ [holdEntry pid p.Amount t] ∧
    ((submitAll st idem calls).1.ledgerEntries.filter
      (fun e => decide (e.PaymentID = pid ∧ e.Kind = "HOLD"))).length = 1 ∧
    ∀ r ∈ (submitAll st idem calls).2, ∃ status, r = SendResponse.json 202 ⟨pid, status⟩

/-- The asynchronous work that follows a submission: the commit of a provider reply
by `callProvider`, or a webhook request. -/
inductive Async where
  | providerReply (pid : String) (reply : ProviderReply) (now : Time)
  | webhook (r : WebhookHttp) (now : Time)
deriving DecidableEq, Repr

/-- One asynchronous step. -/
def Async.apply (st : Store) : Async → Store
  | .providerReply pid reply now => callProvider st pid reply now
  | .webhook r now => (handleWebhook st r now).1

/-- Asynchronous steps one after the other. -/
def runAsync (st : Store) (l : List Async) : Store :=
  l.foldl Async.apply st

/-- A provider reply `202 {provider_payment_id: pp1, status: PENDING}`. -/
def acceptedReply : ProviderReply :=
  .response 202 ⟨"pp1", "PENDING"⟩

/-- The sample order with an empty `txid`. -/
def invalidRequest : SendRequest :=
  { sampleRequest with TxID := "" }

/-- A second `CONFIRMED` event for `p1`: the payload of `confirmEvent` under a fresh
event id. -/
def confirmEventDup : WebhookEvent :=
  { confirmEvent with EventID := "e3" }

/-! ## Ledger laws -/

/-- Sum of the amounts of the DEBIT lines of an entry. -/
def debitSum (e : LedgerEntry) : Int :=
  ((e.Lines.filter (fun l => l.Direction = "DEBIT")).map LedgerLine.Amount).sum

/-- Sum of the amounts of the CREDIT lines of an entry. -/
def creditSum (e : LedgerEntry) : Int :=
  ((e.Lines.filter (fun l => l.Direction = "CREDIT")).map LedgerLine.Amount).sum

/-- Sum of the balances over all accounts of the map. -/
def balanceSum (bal : GoMap Int) : Int :=
  (bal.map Prod.snd).sum

/-- The balance of an account; an account absent from the map counts as 0. -/
def balanceOf (st : Store) (acct : String) : Int :=
  (st.balances.read acct).getD 0

/-- The spec's fold, one line: on the running balance of `acct`, with exact integers, a
DEBIT subtracts the amount and a CREDIT adds it. -/
def replayLine (acct : String) (b : Int) (l : LedgerLine) : Int :=
  if l.Account = acct then
    if l.Direction = "DEBIT" then b - l.Amount
    else if l.Direction = "CREDIT" then b + l.Amount
    else b
  else b

/-- The spec's fold of the entry log: the balance of `acct` replayed from zero over
the posted entries, with exact integers. -/
def replay (entries : List LedgerEntry) (acct : String) : Int :=
  entries.foldl (fun b e => e.Lines.foldl (replayLine acct) b) 0

/-- The entries the service posts: the HOLD, SETTLE and RELEASE templates. -/
def IsTemplate (e : LedgerEntry) : Prop :=
  ∃ pid amt now, e = holdEntry pid amt now ∨ e = settleEntry pid amt now ∨
    e = releaseEntry pid amt now

/-- The effect of one handler on the ledger: nothing, or one template entry with an
unrecorded posting id appended and applied to the balances. -/
def LedgerStep (s t : Store) : Prop :=
  (t.ledgerEntries = s.ledgerEntries ∧ t.balances = s.balances ∧
    t.ledgerByPosting = s.ledgerByPosting) ∨
  ∃ e, IsTemplate e ∧ s.ledgerByPosting.has e.PostingID = false ∧
    t.ledgerEntries = s.ledgerEntries ++ [e] ∧
    t.balances = e.Lines.foldl applyLine s.balances ∧
    t.ledgerByPosting = s.ledgerByPosting.write e.PostingID ()

/-- The ledger laws that hold with `int64` balances: every entry has equal DEBIT and
CREDIT sums, the balances sum to a multiple of `2^64`, and every balance is the exact
replay of the log wrapped into `int64`. -/
def LedgerLaws (st : Store) : Prop :=
  (∀ e ∈ st.ledgerEntries, debitSum e = creditSum e) ∧
  balanceSum st.balances % 18446744073709551616 = 0 ∧
  ∀ acct, balanceOf st acct = wrap64 (replay st.ledgerEntries acct)

/-- An order of amount `2^62`. -/
def bigRequest : SendRequest :=
  { sampleRequest with Amount := 4611686018427387904 }

/-- The store after two accepted submissions of amount `2^62` each. -/
def storeOverflow : Store :=
  (submit (submit Store.empty "k1" bigRequest "p1" 1).store "k2" bigRequest "p2" 2).store

/-- The shape of the ledger in the stores the service builds: every entry is a
template, the balances map has no repeated account, and every account of a posted line
has a balance. -/
def LedgerShape (st : Store) : Prop :=
  (∀ e ∈ st.ledgerEntries, IsTemplate e) ∧ st.balances.keys.Nodup ∧
  ∀ e ∈ st.ledgerEntries, ∀ l ∈ e.Lines, l.Account ∈ st.balances.keys

/-! ## Posting ids -/

/-- Every posted entry has its posting id recorded, and no two entries of the log share
a posting id. -/
def PostingInv (st : Store) : Prop :=
  (∀ e ∈ st.ledgerEntries, st.ledgerByPosting.has e.PostingID = true) ∧
  (st.ledgerEntries.map LedgerEntry.PostingID).Nodup

/-- The entries of the log that carry payment id `pid` and kind `kind`. -/
def entriesOf (st : Store) (pid kind : String) : List LedgerEntry :=
  st.ledgerEntries.filter (fun e => decide (e.PaymentID = pid ∧ e.Kind = kind))

/-! ## Runs from the empty store -/

/-- One step of the service: a `/pix/send` request, the commit of a provider reply by
the `callProvider` of payment `pid`, or a `/webhooks/pix` request. -/
inductive Action where
  | send (r : SendHttp) (newId : String) (now : Time)
  | providerReply (pid : String) (reply : ProviderReply) (now : Time)
  | webhook (r : WebhookHttp) (now : Time)
deriving DecidableEq, Repr

/-- The store after one step. -/
def Action.apply (st : Store) : Action → Store
  | .send r newId now => (handleSend st r newId now).store
  | .providerReply pid reply now => callProvider st pid reply now
  | .webhook r now => (handleWebhook st r now).1

/-- The store after a run of steps from `st`. -/
def run (st : Store) (l : List Action) : Store :=
  l.foldl Action.apply st

/-- How many provider replies a run commits for payment `pid`. -/
def repliesFor (l : List Action) (pid : String) : Nat :=
  (l.filter (fun a =>
    match a with
    | .providerReply q _ _ => decide (q = pid)
    | _ => false)).length

/-- The net effect on `acct` of the lines of the entries that carry payment id `pid`:
CREDIT lines add, DEBIT lines subtract. -/
def netOf (st : Store) (pid acct : String) : Int :=
  replay (st.ledgerEntries.filter (fun e => decide (e.PaymentID = pid))) acct

/-- A run in which `p1` is rejected by webhook before its provider reply is committed,
and a `CONFIRMED` webhook follows the commit. -/
def runRejectThenConfirm : List Action :=
  [.send ⟨"POST", "k1", some sampleRequest⟩ "p1" 1,
   .webhook ⟨"POST", some rejectEvent⟩ 2,
   .providerReply "p1" acceptedReply 3,
   .webhook ⟨"POST", some confirmEvent⟩ 4]

/-- A run in which `p1` is confirmed by webhook before its provider reply is committed,
and a `REJECTED` webhook follows the commit. -/
def runConfirmThenReject : List Action :=
  [.send ⟨"POST", "k1", some sampleRequest⟩ "p1" 1,
   .webhook ⟨"POST", some confirmEvent⟩ 2,
   .providerReply "p1" acceptedReply 3,
   .webhook ⟨"POST", some rejectEvent⟩ 4]

/-- The provider's answer for scenario `http500`: status 500 and a plain-text body, which
decodes to no `provider_payment_id`. -/
def http500Reply : ProviderReply :=
  .response 500 ⟨"", ""⟩

/-! ## Index consistency for webhook resolution -/

/-- The two webhook indexes resolve: the empty string is not a key of `byProviderID`
or `byCorrelationID` (the handlers write non-empty keys only), and every payment id
they hold is a key of `byPaymentID`. -/
def IndexesResolve (st : Store) : Prop :=
  st.byProviderID.read "" = none ∧ st.byCorrelationID.read "" = none ∧
  (∀ kv ∈ st.byProviderID, st.byPaymentID.has kv.2 = true) ∧
  (∀ kv ∈ st.byCorrelationID, st.byPaymentID.has kv.2 = true)

instance (st : Store) : Decidable (IndexesResolve st) := by
  unfold IndexesResolve; exact inferInstance

/-- A `CONFIRMED` event for `p1` that carries the provider payment id `pp1` and a
correlation id that is not indexed. -/
def confirmEventByProvider : WebhookEvent :=
  { EventID := "e7", ProviderPaymentID := "pp1", Typ := "CONFIRMED", OccurredAt := "",
    CorrelationID := "unknown" }

/-- The store after the provider reply for `p1` was committed. -/
def storePending : Store :=
  callProvider storeCreated "p1" acceptedReply 2

/-! ## Interleaved webhook handlers

`handleWebhook` and `applyWebhook` take `st.mu` four times: for the event-id dedup and
the payment resolution, for reading `p.Status`, inside `appendEntry` for the posting,
and for writing `p.Status`. Between two critical sections a goroutine touches only its
own variables. A goroutine serving one request is a `WebhookThread`; one `step` runs
its next critical section, and a schedule says which goroutine steps next. -/

/-- The point a goroutine serving one `POST /webhooks/pix` has reached: before the
dedup and resolution, before the read of `p.Status` in `applyWebhook`, before the
`switch finalType` (the posting), before the write of `p.Status`, or returned. -/
inductive WebhookPC where
  | start (ev : WebhookEvent)
  | readStatus (pid : String) (eventType : String)
  | post (pid : String) (finalType : String)
  | writeStatus (pid : String) (finalType : String)
  | done
deriving DecidableEq, Repr

/-- A goroutine serving one webhook request, with its clock reading. -/
structure WebhookThread where
  pc : WebhookPC
  now : Time
deriving DecidableEq, Repr

/-- The critical section of `applyWebhook` that writes the status: `p.Status = finalType`
and `p.UpdatedAt = time.Now()` on the payment stored under `pid`. -/
def writeStatus (st : Store) (pid finalType : String) (now : Time) : Store :=
  match st.byPaymentID.read pid with
  | none => st
  | some p =>
    { st with
      byPaymentID := st.byPaymentID.write pid { p with Status := finalType, UpdatedAt := now } }

/-- The next critical section of a goroutine, run on the shared store. The checks
`finalType == ""` and `current == "CONFIRMED" || current == "REJECTED"` use the status
read in `readStatus`; `post` and `writeStatus` do not read the status again. -/
def WebhookThread.step (st : Store) : WebhookThread → Store × WebhookThread
  | ⟨.start ev, now⟩ =>
    if st.seenEventIDs.has ev.EventID then (st, ⟨.done, now⟩)
    else
      match resolvePayment (markSeen st ev.EventID) ev with
      | none => (markSeen st ev.EventID, ⟨.done, now⟩)
      | some pid => (markSeen st ev.EventID, ⟨.readStatus pid ev.Typ, now⟩)
  | ⟨.readStatus pid eventType, now⟩ =>
    match st.byPaymentID.read pid with
    | none => (st, ⟨.done, now⟩)
    | some p =>
      if normalizeStatus eventType = "" then (st, ⟨.done, now⟩)
      else if p.Status = "CONFIRMED" ∨ p.Status = "REJECTED" then (st, ⟨.done, now⟩)
      else (st, ⟨.post pid (normalizeStatus eventType), now⟩)
  | ⟨.post pid finalType, now⟩ =>
    match st.byPaymentID.read pid with
    | none => (st, ⟨.done, now⟩)
    | some p => (postFor st p finalType now, ⟨.writeStatus pid finalType, now⟩)
  | ⟨.writeStatus pid finalType, now⟩ => (writeStatus st pid finalType now, ⟨.done, now⟩)
  | ⟨.done, now⟩ => (st, ⟨.done, now⟩)

/-- A goroutine run alone until it returns: its four critical sections in a row. -/
def WebhookThread.runAlone (st : Store) (t : WebhookThread) : Store :=
  let r1 := t.step st
  let r2 := r1.2.step r1.1
  let r3 := r2.2.step r2.1
  (r3.2.step r3.1).1

/-- The goroutines run under a schedule: each number names the goroutine that runs its
next critical section. -/
def runSchedule (st : Store) (ts : List WebhookThread) : List Nat → Store × List WebhookThread
  | [] => (st, ts)
  | i :: rest =>
    match ts.get? i with
    | none => runSchedule st ts rest
    | some t => runSchedule (t.step st).1 (ts.set i (t.step st).2) rest

/-- Two goroutines, one serving the `CONFIRMED` event and one the `REJECTED` event of
`p1`. -/
def racingThreads : List WebhookThread :=
  [⟨.start confirmEvent, 5⟩, ⟨.start rejectEvent, 6⟩]

/-- A schedule that alternates between the two goroutines. -/
def alternating : List Nat := [0, 1, 0, 1, 0, 1, 0, 1]

/-! ## Index consistency -/

/-- The indexes agree with the payments: every payment id held by `byIdempotencyKey`,
`byProviderID` or `byCorrelationID` is a key of `byPaymentID`; `byCorrelationID` maps
every payment id to itself; and `byIdempotencyKey` maps the `IdempotencyKey` of every
payment to its `PaymentID`. -/
def IndexConsistent (st : Store) : Prop :=
  (∀ kv ∈ st.byIdempotencyKey, st.byPaymentID.has kv.2 = true) ∧
  (∀ kv ∈ st.byProviderID, st.byPaymentID.has kv.2 = true) ∧
  (∀ kv ∈ st.byCorrelationID, st.byPaymentID.has kv.2 = true) ∧
  (∀ kv ∈ st.byPaymentID, st.byCorrelationID.read kv.1 = some kv.1) ∧
  (∀ kv ∈ st.byPaymentID, st.byIdempotencyKey.read kv.2.IdempotencyKey = some kv.2.PaymentID)

/-- A `CONFIRMED` event that names its payment by provider payment id only. -/
def providerOnlyEvent : WebhookEvent :=
  { EventID := "e9", ProviderPaymentID := "pp1", Typ := "CONFIRMED", OccurredAt := "",
    CorrelationID := "" }

end Participant

/-!
# Mock provider (`mock-provider/main.go`): order intake and finalization

Shallow embedding of the provider service, with the conventions of the participant
model.  A `float64` value is the rational it denotes, so the comparisons of `float64`
values are the comparisons of rationals; the one `float64` subtraction of the service,
`r -= cfg.PHTTP500` in `pickScenario`, is rounded to the nearest `float64`, ties to
even (`f64Sub`).  The draws, the ids of `newID()` and the clock reading are inputs of
the handlers; the `time.Sleep` calls have no effect on the store and are left out; the
`go finalizeLater(...)` a handler starts is part of its result.
-/

namespace Provider

open Participant (GoMap)

/-- Wall-clock readings (`time.Now().UTC()`), as nanoseconds. -/
abbrev Time := Nat

structure Config where
  Port : String
  WebhookURL : String
  FailureMode : String
  PTimeout : ℚ
  PHTTP500 : ℚ
  PDuplicateEvent : ℚ
  POutOfOrderEvent : ℚ
  MinLatencyMS : Int
  MaxLatencyMS : Int
  FinalizeMinMS : Int
  FinalizeMaxMS : Int
deriving DecidableEq, Repr

structure SendRequest where
  IdempotencyKey : String
  TxID : String
  Amount : Int
  ReceiverKey : String
  Description : String
  ClientRef : String
deriving DecidableEq, Repr

structure SendResponse where
  ProviderPaymentID : String
  Status : String
deriving DecidableEq, Repr

structure Payment where
  ProviderPaymentID : String
  IdempotencyKey : String
  TxID : String
  Amount : Int
  ReceiverKey : String
  Description : String
  ClientRef : String
  Status : String
  CreatedAt : Time
  UpdatedAt : Time
deriving DecidableEq, Repr

structure WebhookEvent where
  EventID : String
  ProviderPaymentID : String
  Typ : String
  OccurredAt : Time
  CorrelationID : String
deriving DecidableEq, Repr

structure Store where
  byID : GoMap Payment
  byIdemKey : GoMap String
deriving DecidableEq, Repr

/-! ## `float64` arithmetic -/

/-- Rounding of a rational to the nearest integer, ties to the even one. -/
def roundHalfEven (y : ℚ) : ℤ :=
  if y - ⌊y⌋ < 1 / 2 then ⌊y⌋
  else if 1 / 2 < y - ⌊y⌋ then ⌊y⌋ + 1
  else if ⌊y⌋ % 2 = 0 then ⌊y⌋ else ⌊y⌋ + 1

/-- The exponent of the unit in the last place of `float64` at the magnitude of `x`:
53 significant bits in the binade of `x`, and `2^-1074` below the normal range. -/
def ulpExp (x : ℚ) : ℤ :=
  max (Int.log 2 |x|) (-1022) - 52

/-- Rounding of a rational to the nearest `float64`, ties to even (the IEEE 754 default
mode Go uses), for results in the finite range. -/
def roundF64 (x : ℚ) : ℚ :=
  (roundHalfEven (x / (2 : ℚ) ^ ulpExp x) : ℚ) * (2 : ℚ) ^ ulpExp x

/-- The `float64` subtraction `a - b`: the exact difference, rounded. -/
def f64Sub (a b : ℚ) : ℚ :=
  roundF64 (a - b)

/-- The rationals a finite `float64` can hold: an integer of magnitude below `2^53`
times a power of two between `2^-1074` and `2^971`. -/
def IsF64 (p : ℚ) : Prop :=
  ∃ m e : ℤ, |m| < 2 ^ 53 ∧ -1074 ≤ e ∧ e ≤ 971 ∧ p = (m : ℚ) * (2 : ℚ) ^ e

/-- The values `mrand.Float64()` returns: the multiples of `2^-53` in `[0, 1)`. -/
def IsDraw (r : ℚ) : Prop :=
  ∃ k : ℕ, k < 2 ^ 53 ∧ r = (k : ℚ) / 2 ^ 53

/-- The function `pickScenario`; `r` is the value of `mrand.Float64()` and `coin` the
value of `mrand.Intn(2)`. -/
def pickScenario (cfg : Config) (r : ℚ) (coin : Nat) : String :=
  if cfg.FailureMode = "off" then "success"
  else if r < cfg.PHTTP500 then "http500"
  else if f64Sub r cfg.PHTTP500 < cfg.PTimeout then
    if coin = 0 then "timeout_then_confirm" else "timeout_then_reject"
  else "accept_then_confirm"

/-- What `handleSend` reads from the HTTP request: the method, the headers
`X-Correlation-Id` and `X-Mock-Scenario` (empty when absent) and the decoded JSON body
(`none` when decoding fails). -/
structure SendHttp where
  Method : String
  CorrelationID : String
  Scenario : String
  Body : Option SendRequest
deriving DecidableEq, Repr

/-- The values one `handleSend` draws: the id `newID()` gives when the correlation
header is absent, the draws of `pickScenario`, the id `newID()` gives for the payment,
and the clock reading. -/
structure SendDraws where
  newCorrelationID : String
  scenarioDraw : ℚ
  coin : Nat
  newProviderID : String
  now : Time
deriving DecidableEq, Repr

/-- What `handleSend` answers: `http.Error` with a status code, `writeJSON` with a
status code and a body, or the run-time panic of dereferencing a nil `*Payment`. -/
inductive Response where
  | error (code : Nat) (msg : String)
  | json (code : Nat) (body : SendResponse)
  | nilDeref
deriving DecidableEq, Repr

/-- The arguments of a `go finalizeLater(cfg, st, providerID, correlationID, finalType)`. -/
structure Finalize where
  providerID : String
  correlationID : String
  finalType : String
deriving DecidableEq, Repr

/-- The outcome of one `handleSend`: the store afterwards, the response, and the
`finalizeLater` it started, if any. -/
structure SendResult where
  store : Store
  response : Response
  finalize : Option Finalize
deriving DecidableEq, Repr

/-- The scenario `handleSend` uses: the `X-Mock-Scenario` header, or `pickScenario`
when the header is empty. -/
def scenarioFor (cfg : Config) (r : SendHttp) (d : SendDraws) : String :=
  if r.Scenario = "" then pickScenario cfg d.scenarioDraw d.coin else r.Scenario

/-- The `switch scenario` of `handleSend`: the response and the finalization started. -/
def answerFor (scenario providerID correlationID : String) : Response × Option Finalize :=
  if scenario = "http500" then (.error 500 "temporary provider error", none)
  else if scenario = "timeout_then_confirm" then
    (.error 504 "gateway timeout", some ⟨providerID, correlationID, "CONFIRMED"⟩)
  else if scenario = "timeout_then_reject" then
    (.error 504 "gateway timeout", some ⟨providerID, correlationID, "REJECTED"⟩)
  else if scenario = "accept_then_reject" then
    (.json 202 ⟨providerID, "PENDING"⟩, some ⟨providerID, correlationID, "REJECTED"⟩)
  else if scenario = "accept_then_confirm" then
    (.json 202 ⟨providerID, "PENDING"⟩, some ⟨providerID, correlationID, "CONFIRMED"⟩)
  else if scenario = "success" then
    (.json 202 ⟨providerID, "PENDING"⟩, some ⟨providerID, correlationID, "CONFIRMED"⟩)
  else
    (.json 202 ⟨providerID, "PENDING"⟩, some ⟨providerID, correlationID, "CONFIRMED"⟩)

/-- The handler `handleSend` of the provider. -/
def handleSend (cfg : Config) (st : Store) (r : SendHttp) (d : SendDraws) : SendResult :=
  if r.Method ≠ "POST" then ⟨st, .error 405 "method not allowed", none⟩
  else
    let correlationID := if r.CorrelationID = "" then d.newCorrelationID else r.CorrelationID
    match r.Body with
    | none => ⟨st, .error 400 "invalid json", none⟩
    | some req =>
      if req.IdempotencyKey = "" then ⟨st, .error 400 "idempotency_key is required", none⟩
      else
        let scenario := scenarioFor cfg r d
        match st.byIdemKey.read req.IdempotencyKey with
        | some existingID =>
          match st.byID.read existingID with
          | none => ⟨st, .nilDeref, none⟩
          | some p => ⟨st, .json 200 ⟨p.ProviderPaymentID, p.Status⟩, none⟩
        | none =>
          let providerID := d.newProviderID
          let payment : Payment :=
            { ProviderPaymentID := providerID, IdempotencyKey := req.IdempotencyKey,
              TxID := req.TxID, Amount := req.Amount, ReceiverKey := req.ReceiverKey,
              Description := req.Description, ClientRef := req.ClientRef,
              Status := "PENDING", CreatedAt := d.now, UpdatedAt := d.now }
          let st1 : Store :=
            { byID := st.byID.write providerID payment
              byIdemKey := st.byIdemKey.write req.IdempotencyKey providerID }
          ⟨st1, (answerFor scenario providerID correlationID).1,
            (answerFor scenario providerID correlationID).2⟩

/-- The values one `finalizeLater` draws: the ids `newID()` gives for the pending
event, the final event and the duplicate, the draws compared with `PDuplicateEvent` and
`POutOfOrderEvent`, and the clock reading. -/
structure FinalizeDraws where
  pendingID : String
  finalID : String
  dupID : String
  dupDraw : ℚ
  orderDraw : ℚ
  now : Time
deriving DecidableEq, Repr

/-- The function `finalizeLater`: the store afterwards and the events handed to
`sendWebhook`, in order. -/
def finalizeLater (cfg : Config) (st : Store) (providerID correlationID finalType : String)
    (d : FinalizeDraws) : Store × List WebhookEvent :=
  match st.byID.read providerID with
  | none => (st, [])
  | some p =>
    let st1 : Store :=
      { st with byID := st.byID.write providerID { p with Status := finalType, UpdatedAt := d.now } }
    let pending : WebhookEvent :=
      { EventID := d.pendingID, ProviderPaymentID := providerID, Typ := "PENDING",
        OccurredAt := d.now, CorrelationID := correlationID }
    let final : WebhookEvent :=
      { EventID := d.finalID, ProviderPaymentID := providerID, Typ := finalType,
        OccurredAt := d.now, CorrelationID := correlationID }
    let dup := decide (d.dupDraw < cfg.PDuplicateEvent)
    let outOfOrder := decide (d.orderDraw < cfg.POutOfOrderEvent)
    (st1,
      (if outOfOrder then [final, pending] else [pending, final]) ++
      (if dup then [{ final with EventID := d.dupID }] else []))

/-! ## Concrete configuration and stores -/

/-- The default configuration of `readConfig`; the probabilities are the `float64`
values of the literals `0.10`, `0.05`, `0.15` and `0.10`. -/
def defaultConfig : Config :=
  { Port := "8080", WebhookURL := "http://host.docker.internal:8081/webhooks/pix",
    FailureMode := "probabilistic",
    PTimeout := 3602879701896397 / 36028797018963968,
    PHTTP500 := 3602879701896397 / 72057594037927936,
    PDuplicateEvent := 5404319552844595 / 36028797018963968,
    POutOfOrderEvent := 3602879701896397 / 36028797018963968,
    MinLatencyMS := 50, MaxLatencyMS := 350, FinalizeMinMS := 400, FinalizeMaxMS := 1500 }

/-- The provider store after one order with key `k1` was taken in as `pp1`. -/
def storeOne : Store :=
  { byID := [("pp1", ⟨"pp1", "k1", "tx1", 1000, "key@bank", "", "", "PENDING", 1, 1⟩)],
    byIdemKey := [("k1", "pp1")] }

/-- An order with key `k1`. -/
def orderK1 : SendRequest :=
  { IdempotencyKey := "k1", TxID := "tx1", Amount := 1000, ReceiverKey := "key@bank",
    Description := "", ClientRef := "" }

/-- The draws of one `handleSend`: scenario draw `3/4`, coin 0, new ids `c9` and `pp2`. -/
def sampleDraws : SendDraws :=
  { newCorrelationID := "c9", scenarioDraw := 3 / 4, coin := 0, newProviderID := "pp2", now := 5 }

/-- The draws of one `finalizeLater`: both fault draws at `1/16`, below the default
`PDuplicateEvent` and `POutOfOrderEvent`. -/
def sampleFinalizeDraws : FinalizeDraws :=
  { pendingID := "e1", finalID := "e2", dupID := "e3", dupDraw := 1 / 16, orderDraw := 1 / 16,
    now := 9 }

/-- A configuration with `PHTTP500 = 1/2` and `PTimeout = 1/2`. -/
def halfHalfConfig : Config :=
  { defaultConfig with PHTTP500 := 1 / 2, PTimeout := 1 / 2 }

/-- The probability that a uniform draw from `[0, 1)` lies in `[a, b)`: the length of
the part of `[a, b)` inside `[0, 1)`. -/
def uniformProb (a b : ℚ) : ℚ :=
  max 0 (min b 1 - max a 0)

/-- A configuration with `PHTTP500 = 0.1` and `PTimeout = 0.5046602879796196`, as
`float64` values. -/
def roundingConfig : Config :=
  { defaultConfig with
    PHTTP500 := 3602879701896397 / 36028797018963968,
    PTimeout := 1136393942446851 / 2251799813685248 }

/-- The draw `0.6046602879796196`, the multiple `5446295695261503 / 2^53` of `2^-53`. -/
def roundingDraw : ℚ := 5446295695261503 / 9007199254740992

end Provider

namespace Participant

/-! ## Go map facts -/

namespace GoMap

theorem read_write {β : Type} (m : GoMap β) (k k2 : String) (v : β) :
    (m.write k v).read k2 = if k = k2 then some v else m.read k2 := by
  induction m with
  | nil => simp [write, read]
  | cons hd tl ih =>
    obtain ⟨a, x⟩ := hd
    by_cases h : a = k
    · subst h
      by_cases h2 : a = k2 <;> simp [write, read, h2]
    · by_cases h2 : a = k2
      · subst h2
        have h3 : ¬ k = a := fun e => h e.symm
        simp [write, read, h, h3]
      · simp [write, read, h, h2, ih]

theorem read_write_same {β : Type} (m : GoMap β) (k : String) (v : β) :
    (m.write k v).read k = some v := by
  simp [read_write]

theorem read_write_other {β : Type} (m : GoMap β) (k k2 : String) (v : β) (h : k ≠ k2) :
    (m.write k v).read k2 = m.read k2 := by
  simp [read_write, h]

theorem has_write {β : Type} (m : GoMap β) (k k2 : String) (v : β) :
    (m.write k v).has k2 = (decide (k = k2) || m.has k2) := by
  unfold has
  rw [read_write]
  by_cases h : k = k2 <;> simp [h]

theorem has_write_same {β : Type} (m : GoMap β) (k : String) (v : β) :
    (m.write k v).has k = true := by
  simp [has_write]

theorem has_write_of_has {β : Type} (m : GoMap β) (k k2 : String) (v : β)
    (h : m.has k = true) : (m.write k v).has k2 = m.has k2 := by
  rw [has_write]
  by_cases h2 : k = k2
  · subst h2; simp [h]
  · simp [h2]

theorem write_of_read_none {β : Type} (m : GoMap β) (k : String) (v : β)
    (h : m.read k = none) : m.write k v = m ++ [(k, v)] := by
  induction m with
  | nil => simp [write]
  | cons hd tl ih =>
    obtain ⟨a, x⟩ := hd
    by_cases h2 : a = k
    · simp [read, h2] at h
    · simp [read, h2] at h
      simp [write, h2, ih h]

theorem keys_write_of_has {β : Type} (m : GoMap β) (k : String) (v : β)
    (h : m.has k = true) : (m.write k v).keys = m.keys := by
  induction m with
  | nil => simp [has, read] at h
  | cons hd tl ih =>
    obtain ⟨a, x⟩ := hd
    by_cases h2 : a = k
    · simp [write, keys, h2]
    · have h3 : has tl k = true := by simpa [has, read, h2] using h
      have := ih h3
      simp only [keys] at this
      simp [write, keys, h2, this]

theorem read_eq_none_iff {β : Type} (m : GoMap β) (k : String) :
    m.read k = none ↔ k ∉ m.keys := by
  induction m with
  | nil => simp [read, keys]
  | cons hd tl ih =>
    obtain ⟨a, x⟩ := hd
    by_cases h2 : a = k
    · simp [read, keys, h2]
    · have h3 : ¬ k = a := fun e => h2 e.symm
      simp only [keys] at ih
      simp [read, keys, h2, h3, ih]

theorem mem_of_read {β : Type} (m : GoMap β) (k : String) (v : β)
    (h : m.read k = some v) : (k, v) ∈ m := by
  induction m with
  | nil => simp [read] at h
  | cons hd tl ih =>
    obtain ⟨a, x⟩ := hd
    by_cases h2 : a = k
    · simp [read, h2] at h
      simp [h2, h]
    · simp [read, h2] at h
      simp [ih h]

end GoMap

/-! ## Frame facts of the ledger functions -/

@[simp] theorem appendEntry_byPaymentID (st : Store) (e : LedgerEntry) :
    (appendEntry st e).byPaymentID = st.byPaymentID := by
  unfold appendEntry; split <;> rfl

@[simp] theorem appendEntry_byIdempotencyKey (st : Store) (e : LedgerEntry) :
    (appendEntry st e).byIdempotencyKey = st.byIdempotencyKey := by
  unfold appendEntry; split <;> rfl

@[simp] theorem appendEntry_byProviderID (st : Store) (e : LedgerEntry) :
    (appendEntry st e).byProviderID = st.byProviderID := by
  unfold appendEntry; split <;> rfl

@[simp] theorem appendEntry_byCorrelationID (st : Store) (e : LedgerEntry) :
    (appendEntry st e).byCorrelationID = st.byCorrelationID := by
  unfold appendEntry; split <;> rfl

@[simp] theorem appendEntry_seenEventIDs (st : Store) (e : LedgerEntry) :
    (appendEntry st e).seenEventIDs = st.seenEventIDs := by
  unfold appendEntry; split <;> rfl

@[simp] theorem postFor_byPaymentID (st : Store) (p : Payment) (ft : String) (now : Time) :
    (postFor st p ft now).byPaymentID = st.byPaymentID := by
  unfold postFor addLedgerSettle addLedgerRelease; split_ifs <;> simp

@[simp] theorem postFor_byIdempotencyKey (st : Store) (p : Payment) (ft : String) (now : Time) :
    (postFor st p ft now).byIdempotencyKey = st.byIdempotencyKey := by
  unfold postFor addLedgerSettle addLedgerRelease; split_ifs <;> simp

@[simp] theorem postFor_byProviderID (st : Store) (p : Payment) (ft : String) (now : Time) :
    (postFor st p ft now).byProviderID = st.byProviderID := by
  unfold postFor addLedgerSettle addLedgerRelease; split_ifs <;> simp

@[simp] theorem postFor_byCorrelationID (st : Store) (p : Payment) (ft : String) (now : Time) :
    (postFor st p ft now).byCorrelationID = st.byCorrelationID := by
  unfold postFor addLedgerSettle addLedgerRelease; split_ifs <;> simp

@[simp] theorem postFor_seenEventIDs (st : Store) (p : Payment) (ft : String) (now : Time) :
    (postFor st p ft now).seenEventIDs = st.seenEventIDs := by
  unfold postFor addLedgerSettle addLedgerRelease; split_ifs <;> simp

theorem postFor_pending (st : Store) (p : Payment) (now : Time) :
    postFor st p "PENDING" now = st := by
  simp [postFor]

theorem applyWebhook_eq (st : Store) (pid ty : String) (now : Time) (p : Payment)
    (hp : st.byPaymentID.read pid = some p) (hty : normalizeStatus ty ≠ "")
    (hc : ¬ (p.Status = "CONFIRMED" ∨ p.Status = "REJECTED")) :
    applyWebhook st pid ty now =
      { postFor st p (normalizeStatus ty) now with
        byPaymentID := st.byPaymentID.write pid
          { p with Status := normalizeStatus ty, UpdatedAt := now } } := by
  simp only [applyWebhook, hp, hty, hc, if_false, postFor_byPaymentID]

theorem applyWebhook_terminal (st : Store) (pid ty : String) (now : Time) (p : Payment)
    (hp : st.byPaymentID.read pid = some p)
    (hc : p.Status = "CONFIRMED" ∨ p.Status = "REJECTED") :
    applyWebhook st pid ty now = st := by
  simp only [applyWebhook, hp, hc, if_true, ite_self]

theorem applyWebhook_unknown (st : Store) (pid ty : String) (now : Time)
    (hty : normalizeStatus ty = "") : applyWebhook st pid ty now = st := by
  simp only [applyWebhook, hty, if_true]
  split <;> rfl

theorem applyWebhook_missing (st : Store) (pid ty : String) (now : Time)
    (hp : st.byPaymentID.read pid = none) : applyWebhook st pid ty now = st := by
  simp only [applyWebhook, hp]

/-- The three ways `applyWebhook` can go. -/
theorem applyWebhook_cases (st : Store) (pid ty : String) (now : Time) :
    applyWebhook st pid ty now = st ∨
    ∃ p, st.byPaymentID.read pid = some p ∧ normalizeStatus ty ≠ "" ∧
      ¬ (p.Status = "CONFIRMED" ∨ p.Status = "REJECTED") ∧
      applyWebhook st pid ty now =
        { postFor st p (normalizeStatus ty) now with
          byPaymentID := st.byPaymentID.write pid
            { p with Status := normalizeStatus ty, UpdatedAt := now } } := by
  cases hp : st.byPaymentID.read pid with
  | none => exact Or.inl (applyWebhook_missing st pid ty now hp)
  | some p =>
    by_cases hty : normalizeStatus ty = ""
    · exact Or.inl (applyWebhook_unknown st pid ty now hty)
    · by_cases hc : p.Status = "CONFIRMED" ∨ p.Status = "REJECTED"
      · exact Or.inl (applyWebhook_terminal st pid ty now p hp hc)
      · exact Or.inr ⟨p, rfl, hty, hc, applyWebhook_eq st pid ty now p hp hty hc⟩

@[simp] theorem applyWebhook_seenEventIDs (st : Store) (pid ty : String) (now : Time) :
    (applyWebhook st pid ty now).seenEventIDs = st.seenEventIDs := by
  rcases applyWebhook_cases st pid ty now with h | ⟨p, _, _, _, h⟩ <;> rw [h]
  simp

@[simp] theorem applyWebhook_byIdempotencyKey (st : Store) (pid ty : String) (now : Time) :
    (applyWebhook st pid ty now).byIdempotencyKey = st.byIdempotencyKey := by
  rcases applyWebhook_cases st pid ty now with h | ⟨p, _, _, _, h⟩ <;> rw [h]
  simp

@[simp] theorem applyWebhook_byProviderID (st : Store) (pid ty : String) (now : Time) :
    (applyWebhook st pid ty now).byProviderID = st.byProviderID := by
  rcases applyWebhook_cases st pid ty now with h | ⟨p, _, _, _, h⟩ <;> rw [h]
  simp

@[simp] theorem applyWebhook_byCorrelationID (st : Store) (pid ty : String) (now : Time) :
    (applyWebhook st pid ty now).byCorrelationID = st.byCorrelationID := by
  rcases applyWebhook_cases st pid ty now with h | ⟨p, _, _, _, h⟩ <;> rw [h]
  simp


/-! ## Webhook delivery -/

@[simp] theorem markSeen_byPaymentID (s : Store) (i : String) :
    (markSeen s i).byPaymentID = s.byPaymentID := rfl

@[simp] theorem markSeen_byIdempotencyKey (s : Store) (i : String) :
    (markSeen s i).byIdempotencyKey = s.byIdempotencyKey := rfl

@[simp] theorem markSeen_byProviderID (s : Store) (i : String) :
    (markSeen s i).byProviderID = s.byProviderID := rfl

@[simp] theorem markSeen_byCorrelationID (s : Store) (i : String) :
    (markSeen s i).byCorrelationID = s.byCorrelationID := rfl

@[simp] theorem markSeen_ledgerEntries (s : Store) (i : String) :
    (markSeen s i).ledgerEntries = s.ledgerEntries := rfl

@[simp] theorem markSeen_ledgerByPosting (s : Store) (i : String) :
    (markSeen s i).ledgerByPosting = s.ledgerByPosting := rfl

@[simp] theorem markSeen_balances (s : Store) (i : String) :
    (markSeen s i).balances = s.balances := rfl

@[simp] theorem markSeen_seenEventIDs (s : Store) (i : String) :
    (markSeen s i).seenEventIDs = s.seenEventIDs.write i () := rfl

theorem resolvePayment_congr (s t : Store) (ev : WebhookEvent)
    (h1 : t.byPaymentID = s.byPaymentID) (h2 : t.byProviderID = s.byProviderID)
    (h3 : t.byCorrelationID = s.byCorrelationID) :
    resolvePayment t ev = resolvePayment s ev := by
  simp only [resolvePayment, lookupPayment, h1, h2, h3]

theorem deliver_seen (s : Store) (ev : WebhookEvent) (now : Time)
    (h : s.seenEventIDs.has ev.EventID = true) : deliver s ev now = s := by
  simp [deliver, handleWebhook, h]

theorem deliver_unseen (s : Store) (ev : WebhookEvent) (now : Time)
    (h : s.seenEventIDs.has ev.EventID = false) :
    deliver s ev now =
      match resolvePayment s ev with
      | none => (markSeen s ev.EventID)
      | some pid =>
        applyWebhook (markSeen s ev.EventID) pid ev.Typ now := by
  have hr : resolvePayment (markSeen s ev.EventID) ev
      = resolvePayment s ev := resolvePayment_congr _ _ _ rfl rfl rfl
  simp only [deliver, handleWebhook, h, hr]
  simp only [ne_eq, not_true_eq_false, if_false, Bool.false_eq_true]
  cases resolvePayment s ev <;> rfl

theorem deliver_seenEventIDs (s : Store) (ev : WebhookEvent) (now : Time) :
    (deliver s ev now).seenEventIDs.has ev.EventID = true := by
  cases h : s.seenEventIDs.has ev.EventID with
  | true => rw [deliver_seen s ev now h]; exact h
  | false =>
    rw [deliver_unseen s ev now h]
    cases resolvePayment s ev with
    | none => simp [GoMap.has_write_same]
    | some pid => simp [GoMap.has_write_same]

/-- C8. Webhook idempotency by event id: delivering an event twice in a row through
`handleWebhook` gives the store that delivering it once gives, and delivering an event
whose `event_id` is already in the seen set leaves the whole store unchanged. -/
theorem webhook_idempotent_by_event_id (s : Store) (e : WebhookEvent) (t1 t2 : Time) :
    (handleWebhook (handleWebhook s ⟨"POST", some e⟩ t1).1 ⟨"POST", some e⟩ t2).1
        = (handleWebhook s ⟨"POST", some e⟩ t1).1
    ∧ (s.seenEventIDs.has e.EventID = true → (handleWebhook s ⟨"POST", some e⟩ t1).1 = s) := by
  constructor
  · exact deliver_seen _ e t2 (deliver_seenEventIDs s e t1)
  · intro h
    exact deliver_seen s e t1 h


/-- C8 at a concrete store: the `CONFIRMED` event for `p1` was delivered once and its id
is seen; delivering it again changes nothing. -/
theorem webhook_idempotent_by_event_id_witness :
    storeConfirmed.seenEventIDs.has confirmEvent.EventID = true
    ∧ (handleWebhook storeConfirmed ⟨"POST", some confirmEvent⟩ 3).1 = storeConfirmed :=
  ⟨(by decide), (webhook_idempotent_by_event_id storeConfirmed confirmEvent 3 4).2 (by decide)⟩

/-! ## Terminal absorption -/

theorem handleWebhook_store (s : Store) (r : WebhookHttp) (now : Time) :
    (handleWebhook s r now).1 = s ∨ ∃ ev, r.Body = some ev ∧ (handleWebhook s r now).1 = deliver s ev now := by
  obtain ⟨m, b⟩ := r
  by_cases hm : m = "POST"
  · subst hm
    cases b with
    | none => left; simp [handleWebhook]
    | some ev => right; exact ⟨ev, rfl, rfl⟩
  · left; simp [handleWebhook, hm]

theorem appendEntry_ledgerEntries (st : Store) (e : LedgerEntry) :
    (appendEntry st e).ledgerEntries =
      if st.ledgerByPosting.has e.PostingID then st.ledgerEntries else st.ledgerEntries ++ [e] := by
  unfold appendEntry; split <;> rfl

theorem postFor_ledgerEntries (st : Store) (p : Payment) (ft : String) (now : Time) :
    ∃ added, (postFor st p ft now).ledgerEntries = st.ledgerEntries ++ added ∧
      ∀ e ∈ added, e.PaymentID = p.PaymentID := by
  unfold postFor addLedgerSettle addLedgerRelease
  split_ifs with h1 h2
  · rw [appendEntry_ledgerEntries]
    split_ifs
    · exact ⟨[], by simp⟩
    · exact ⟨[settleEntry p.PaymentID p.Amount now], rfl, by simp [settleEntry]⟩
  · rw [appendEntry_ledgerEntries]
    split_ifs
    · exact ⟨[], by simp⟩
    · exact ⟨[releaseEntry p.PaymentID p.Amount now], rfl, by simp [releaseEntry]⟩
  · exact ⟨[], by simp⟩

/-- A delivery either leaves payments and ledger alone, or applies the event to one
non-terminal payment `q` stored under `pid2`. -/
theorem deliver_effect (s : Store) (ev : WebhookEvent) (now : Time) :
    ((deliver s ev now).byPaymentID = s.byPaymentID ∧
      (deliver s ev now).ledgerEntries = s.ledgerEntries ∧
      (deliver s ev now).balances = s.balances ∧
      (deliver s ev now).ledgerByPosting = s.ledgerByPosting) ∨
    ∃ pid2 q, s.byPaymentID.read pid2 = some q ∧
      ¬ (q.Status = "CONFIRMED" ∨ q.Status = "REJECTED") ∧
      normalizeStatus ev.Typ ≠ "" ∧
      deliver s ev now =
        { postFor (markSeen s ev.EventID) q
            (normalizeStatus ev.Typ) now with
          byPaymentID := s.byPaymentID.write pid2
            { q with Status := normalizeStatus ev.Typ, UpdatedAt := now } } := by
  cases h : s.seenEventIDs.has ev.EventID with
  | true => left; rw [deliver_seen s ev now h]; simp
  | false =>
    rw [deliver_unseen s ev now h]
    cases resolvePayment s ev with
    | none => left; simp
    | some pid2 =>
      simp only
      rcases applyWebhook_cases (markSeen s ev.EventID)
        pid2 ev.Typ now with h1 | ⟨q, hq, hty, hc, h1⟩
      · left; rw [h1]; simp
      · right; exact ⟨pid2, q, hq, hc, hty, h1⟩

/-- C2. Terminal absorption under webhooks: when the payment stored under `pid` is
`CONFIRMED` or `REJECTED`, no webhook request (any method, body, event type, event id,
provider and correlation keys) changes that payment, and every ledger entry the
request appends carries another payment id. -/
theorem terminal_absorbing_under_webhooks (s : Store) (r : WebhookHttp) (now : Time)
    (pid : String) (p : Payment) (hkeys : KeysConsistent s)
    (hp : s.byPaymentID.read pid = some p)
    (hterm : p.Status = "CONFIRMED" ∨ p.Status = "REJECTED") :
    (handleWebhook s r now).1.byPaymentID.read pid = some p ∧
    ∃ added, (handleWebhook s r now).1.ledgerEntries = s.ledgerEntries ++ added ∧
      ∀ e ∈ added, e.PaymentID ≠ p.PaymentID := by
  rcases handleWebhook_store s r now with h | ⟨ev, _, h⟩
  · rw [h]; exact ⟨hp, [], by simp⟩
  · rw [h]
    rcases deliver_effect s ev now with ⟨h1, h2, _, _⟩ | ⟨pid2, q, hq, hc, _, h1⟩
    · rw [h1, h2]; exact ⟨hp, [], by simp⟩
    · have hne : pid2 ≠ pid := by
        intro e
        subst e
        rw [hp] at hq
        cases hq
        exact hc hterm
      have hqid : q.PaymentID = pid2 := hkeys (pid2, q) (GoMap.mem_of_read _ _ _ hq)
      have hpid : p.PaymentID = pid := hkeys (pid, p) (GoMap.mem_of_read _ _ _ hp)
      rw [h1]
      refine ⟨?_, ?_⟩
      · simp only
        rw [GoMap.read_write_other _ _ _ _ hne]
        exact hp
      · obtain ⟨added, ha, hall⟩ := postFor_ledgerEntries
          (markSeen s ev.EventID) q
            (normalizeStatus ev.Typ) now
        refine ⟨added, ha, ?_⟩
        intro e he
        rw [hall e he, hqid, hpid]
        exact hne

/-- C2 at a concrete store: `p1` is `CONFIRMED`; a `REJECTED` event for it changes
neither the payment nor the entries of `p1`. -/
theorem terminal_absorbing_under_webhooks_witness :
    KeysConsistent storeConfirmed ∧
    (∃ p, storeConfirmed.byPaymentID.read "p1" = some p ∧ p.Status = "CONFIRMED" ∧
      (handleWebhook storeConfirmed ⟨"POST", some rejectEvent⟩ 3).1.byPaymentID.read "p1"
        = some p) :=
  ⟨(by decide), ⟨⟨"p1", "", "k1", 1000, "CONFIRMED", 1, 2⟩, (by decide), rfl,
    (terminal_absorbing_under_webhooks storeConfirmed ⟨"POST", some rejectEvent⟩ 3 "p1" _
      (by decide) (by decide) (Or.inl rfl)).1⟩⟩


/-! ## Submission -/

theorem read_of_idemIndexed (s : Store) (idem pid : String) (h : IdemIndexed s)
    (hi : s.byIdempotencyKey.read idem = some pid) :
    ∃ p, s.byPaymentID.read pid = some p := by
  have := h (idem, pid) (GoMap.mem_of_read _ _ _ hi)
  simp only [GoMap.has] at this
  exact Option.isSome_iff_exists.mp this

theorem handleSend_replay (s : Store) (idem : String) (req : SendRequest) (newId : String)
    (now : Time) (pid : String) (p : Payment) (hk : idem ≠ "") (hv : validBody req)
    (hi : s.byIdempotencyKey.read idem = some pid) (hp : s.byPaymentID.read pid = some p) :
    handleSend s ⟨"POST", idem, some req⟩ newId now
      = ⟨s, .json 202 ⟨p.PaymentID, p.Status⟩, none⟩ := by
  unfold validBody at hv
  simp [handleSend, hk, hv, hi, hp]

theorem handleSend_create (s : Store) (idem : String) (req : SendRequest) (newId : String)
    (now : Time) (hk : idem ≠ "") (hv : validBody req)
    (hi : s.byIdempotencyKey.read idem = none) :
    handleSend s ⟨"POST", idem, some req⟩ newId now
      = ⟨addLedgerHold
          { s with
            byPaymentID := s.byPaymentID.write newId
              ⟨newId, "", idem, req.Amount, "CREATED", now, now⟩
            byIdempotencyKey := s.byIdempotencyKey.write idem newId
            byCorrelationID := s.byCorrelationID.write newId newId }
          newId req.Amount now,
        .json 202 ⟨newId, "CREATED"⟩, some (newId, req)⟩ := by
  unfold validBody at hv
  simp [handleSend, hk, hv, hi]

theorem handleSend_invalid (s : Store) (idem : String) (req : SendRequest) (newId : String)
    (now : Time) (hk : idem ≠ "") (hv : ¬ validBody req) :
    handleSend s ⟨"POST", idem, some req⟩ newId now
      = ⟨s, .error 400 "invalid request", none⟩ := by
  unfold validBody at hv
  simp only [not_not] at hv
  simp [handleSend, hk, hv]

/-- C5. Idempotency replay is a no-op on state: when the `Idempotency-Key` is indexed
to an existing payment, `handleSend` with that key and a valid body answers 202 with
that payment's `payment_id` and status, returns the store as it was (payments, indexes,
ledger entries, balances) and starts no `callProvider`. -/
theorem send_replay_is_noop (s : Store) (idem : String) (req : SendRequest) (newId : String)
    (now : Time) (pid : String) (p : Payment) (hk : idem ≠ "") (hv : validBody req)
    (hi : s.byIdempotencyKey.read idem = some pid) (hp : s.byPaymentID.read pid = some p) :
    handleSend s ⟨"POST", idem, some req⟩ newId now
      = ⟨s, .json 202 ⟨p.PaymentID, p.Status⟩, none⟩ :=
  handleSend_replay s idem req newId now pid p hk hv hi hp

/-- C5 at a concrete store: replaying key `k1` on the store that holds `p1`. -/
theorem send_replay_is_noop_witness :
    handleSend storeCreated ⟨"POST", "k1", some sampleRequest⟩ "p2" 7
      = ⟨storeCreated, .json 202 ⟨"p1", "CREATED"⟩, none⟩ :=
  send_replay_is_noop storeCreated "k1" sampleRequest "p2" 7 "p1"
    ⟨"p1", "", "k1", 1000, "CREATED", 1, 1⟩ (by decide) (by decide) (by decide) (by decide)

/-- C7. Submission validation: a decodable `POST` is answered 400 exactly when the
`Idempotency-Key` header is empty, or `txid` is empty, or `amount <= 0`, or
`receiver_key` is empty; a call answered 400 returns the store unchanged and starts no
provider call; every other call is answered 202. -/
theorem send_validation (s : Store) (idem : String) (req : SendRequest) (newId : String)
    (now : Time) (hidx : IdemIndexed s) :
    ((∃ msg, (handleSend s ⟨"POST", idem, some req⟩ newId now).response = .error 400 msg)
      ↔ (idem = "" ∨ req.TxID = "" ∨ req.Amount ≤ 0 ∨ req.ReceiverKey = "")) ∧
    ((∃ msg, (handleSend s ⟨"POST", idem, some req⟩ newId now).response = .error 400 msg)
      → (handleSend s ⟨"POST", idem, some req⟩ newId now).store = s ∧
        (handleSend s ⟨"POST", idem, some req⟩ newId now).spawned = none) ∧
    (¬ (idem = "" ∨ req.TxID = "" ∨ req.Amount ≤ 0 ∨ req.ReceiverKey = "")
      → ∃ body, (handleSend s ⟨"POST", idem, some req⟩ newId now).response = .json 202 body) := by
  by_cases hk : idem = ""
  · subst hk
    simp [handleSend]
  · by_cases hv : validBody req
    · have hv2 : ¬ (req.TxID = "" ∨ req.Amount ≤ 0 ∨ req.ReceiverKey = "") := hv
      have hall : ¬ (idem = "" ∨ req.TxID = "" ∨ req.Amount ≤ 0 ∨ req.ReceiverKey = "") := by
        rintro (h | h)
        · exact hk h
        · exact hv2 h
      cases hi : s.byIdempotencyKey.read idem with
      | none =>
        rw [handleSend_create s idem req newId now hk hv hi]
        simp [hall]
      | some pid =>
        obtain ⟨p, hp⟩ := read_of_idemIndexed s idem pid hidx hi
        rw [handleSend_replay s idem req newId now pid p hk hv hi hp]
        simp [hall]
    · have hv2 : req.TxID = "" ∨ req.Amount ≤ 0 ∨ req.ReceiverKey = "" := by
        unfold validBody at hv
        exact not_not.mp hv
      rw [handleSend_invalid s idem req newId now hk hv]
      simp [hv2]

/-- C7 at a concrete store: an empty `txid` is answered 400 and nothing changes. -/
theorem send_validation_witness :
    IdemIndexed storeCreated ∧
    (handleSend storeCreated ⟨"POST", "k9", some invalidRequest⟩ "p2" 7).store = storeCreated :=
  ⟨(by decide),
    ((send_validation storeCreated "k9" invalidRequest "p2" 7 (by decide)).2.1
      ((send_validation storeCreated "k9" invalidRequest "p2" 7 (by decide)).1.mpr
        (Or.inr (Or.inl rfl)))).1⟩


/-! ## Same-key submissions -/

theorem submitAll_replays (s : Store) (idem pid : String) (p : Payment) (hk : idem ≠ "")
    (hi : s.byIdempotencyKey.read idem = some pid) (hp : s.byPaymentID.read pid = some p)
    (calls : List (Option SendRequest × String × Time))
    (hvalid : ∀ c ∈ calls, ∃ req, c.1 = some req ∧ validBody req) :
    (submitAll s idem calls).1 = s ∧
    ∀ r ∈ (submitAll s idem calls).2, r = SendResponse.json 202 ⟨p.PaymentID, p.Status⟩ := by
  induction calls with
  | nil => simp [submitAll]
  | cons c rest ih =>
    obtain ⟨req, hc, hv⟩ := hvalid c (List.mem_cons_self _ _)
    have hrest : ∀ c ∈ rest, ∃ req, c.1 = some req ∧ validBody req :=
      fun d hd => hvalid d (List.mem_cons_of_mem _ hd)
    have h1 := handleSend_replay s idem req c.2.1 c.2.2 pid p hk hv hi hp
    obtain ⟨ih1, ih2⟩ := ih hrest
    simp only [submitAll, hc, h1]
    refine ⟨ih1, ?_⟩
    intro r hr
    rcases List.mem_cons.mp hr with h | h
    · exact h
    · exact ih2 r h

/-- C4 fails as stated: one call whose body has an empty `txid`, from the empty store
with key `k1` unknown and `p1` fresh, is answered 400 and no payment exists. -/
theorem submission_idempotency_fails_on_invalid_body :
    ("k1" ≠ "" ∧ KeyUnknown Store.empty "k1" ∧ FreshID Store.empty "p1") ∧
    (submitAll Store.empty "k1" [(some invalidRequest, "p1", 1)])
      = (Store.empty, [SendResponse.error 400 "invalid request"]) ∧
    ¬ SubmissionIdempotent Store.empty "k1" [(some invalidRequest, "p1", 1)] := by
  refine ⟨by decide, by decide, ?_⟩
  rintro ⟨pid, p, t, h, _⟩
  have hs : (submitAll Store.empty "k1" [(some invalidRequest, "p1", 1)]).1 = Store.empty := by
    decide
  rw [hs] at h
  simp [Store.empty, GoMap.read] at h

/-- C4, amended. Submission idempotency: for every non-empty sequence of `POST` calls
that carry the same non-empty `Idempotency-Key` with arbitrary bodies that pass the
validation, from a store in which the key is unknown, the resulting store holds exactly
one payment for the key and exactly one HOLD entry for it, and every call answers 202
with that payment's id. -/
theorem submission_idempotency_valid_bodies (s : Store) (idem : String)
    (calls : List (Option SendRequest × String × Time)) (hk : idem ≠ "")
    (hunknown : KeyUnknown s idem) (hne : calls ≠ [])
    (hfresh : ∀ c ∈ calls, FreshID s c.2.1)
    (hvalid : ∀ c ∈ calls, ∃ req, c.1 = some req ∧ validBody req) :
    SubmissionIdempotent s idem calls := by
  obtain ⟨hunk, hclean⟩ := hunknown
  cases calls with
  | nil => exact absurd rfl hne
  | cons c rest =>
    obtain ⟨req, hc, hv⟩ := hvalid c (List.mem_cons_self _ _)
    obtain ⟨hf1, hf2, hf3⟩ := hfresh c (List.mem_cons_self _ _)
    have hrest : ∀ c ∈ rest, ∃ req, c.1 = some req ∧ validBody req :=
      fun d hd => hvalid d (List.mem_cons_of_mem _ hd)
    have h1 := handleSend_create s idem req c.2.1 c.2.2 hk hv hunk
    have hpost : (GoMap.has s.ledgerByPosting (c.2.1 ++ ":HOLD")) = false := hf2
    have hi : (handleSend s ⟨"POST", idem, some req⟩ c.2.1 c.2.2).store.byIdempotencyKey.read idem
        = some c.2.1 := by
      rw [h1]; simp [addLedgerHold, GoMap.read_write_same]
    have hp : (handleSend s ⟨"POST", idem, some req⟩ c.2.1 c.2.2).store.byPaymentID.read c.2.1
        = some ⟨c.2.1, "", idem, req.Amount, "CREATED", c.2.2, c.2.2⟩ := by
      rw [h1]; simp [addLedgerHold, GoMap.read_write_same]
    have hpay : (handleSend s ⟨"POST", idem, some req⟩ c.2.1 c.2.2).store.byPaymentID
        = s.byPaymentID ++ [(c.2.1, ⟨c.2.1, "", idem, req.Amount, "CREATED", c.2.2, c.2.2⟩)] := by
      rw [h1]; simp [addLedgerHold, GoMap.write_of_read_none _ _ _ hf1]
    have hled : (handleSend s ⟨"POST", idem, some req⟩ c.2.1 c.2.2).store.ledgerEntries
        = s.ledgerEntries ++ [holdEntry c.2.1 req.Amount c.2.2] := by
      rw [h1]; simp [addLedgerHold, appendEntry_ledgerEntries, holdEntry, hpost]
    have hcount1 : (s.byPaymentID.filter (fun kv => decide (kv.2.IdempotencyKey = idem))) = [] := by
      rw [List.filter_eq_nil_iff]
      intro kv hkv
      simpa using hclean kv hkv
    have hcount2 : (s.ledgerEntries.filter
        (fun e => decide (e.PaymentID = c.2.1 ∧ e.Kind = "HOLD"))) = [] := by
      rw [List.filter_eq_nil_iff]
      intro e he
      have := hf3 e he
      simp [this]
    obtain ⟨r1, r2⟩ := submitAll_replays _ idem c.2.1 _ hk hi hp rest hrest
    refine ⟨c.2.1, ⟨c.2.1, "", idem, req.Amount, "CREATED", c.2.2, c.2.2⟩, c.2.2, ?_, ?_, rfl, rfl,
      ?_, ?_, ?_, ?_⟩
    · simp only [submitAll, hc]
      rw [r1]; exact hi
    · simp only [submitAll, hc]
      rw [r1]; exact hpay
    · simp only [submitAll, hc]
      rw [r1, hpay, List.filter_append, hcount1]
      simp
    · simp only [submitAll, hc]
      rw [r1]; exact hled
    · simp only [submitAll, hc]
      rw [r1, hled, List.filter_append, hcount2]
      simp [holdEntry]
    · intro r hr
      simp only [submitAll, hc] at hr
      rcases List.mem_cons.mp hr with h | h
      · rw [h, h1]; exact ⟨"CREATED", rfl⟩
      · exact ⟨"CREATED", r2 r h⟩

/-- C4 amended, at a concrete run: key `k1` submitted twice with different valid
bodies from the empty store. -/
theorem submission_idempotency_valid_bodies_witness :
    SubmissionIdempotent Store.empty "k1"
      [(some sampleRequest, "p1", 1), (some { sampleRequest with Amount := 5 }, "p2", 2)] :=
  submission_idempotency_valid_bodies Store.empty "k1" _ (by decide) (by decide) (by simp)
    (by decide) (by decide)


/-! ## Replays after asynchronous steps -/

@[simp] theorem callProvider_byIdempotencyKey (st : Store) (pid : String) (reply : ProviderReply)
    (now : Time) : (callProvider st pid reply now).byIdempotencyKey = st.byIdempotencyKey := by
  unfold callProvider
  split
  · rfl
  · split
    · rfl
    · split <;> rfl

theorem callProvider_keeps_payment (st : Store) (pid : String) (reply : ProviderReply)
    (now : Time) (k : String) (q : Payment) (hq : st.byPaymentID.read k = some q) :
    ∃ q2, (callProvider st pid reply now).byPaymentID.read k = some q2 ∧
      q2.PaymentID = q.PaymentID ∧ q2.Amount = q.Amount ∧
      q2.IdempotencyKey = q.IdempotencyKey := by
  unfold callProvider
  split
  · exact ⟨q, hq, rfl, rfl, rfl⟩
  · split
    · exact ⟨q, hq, rfl, rfl, rfl⟩
    · rename_i p hp
      by_cases hk : pid = k
      · subst hk
        rw [hq] at hp
        cases hp
        split <;> simp [GoMap.read_write_same]
      · split <;> simp [GoMap.read_write_other _ _ _ _ hk, hq]

theorem deliver_keeps_payment (s : Store) (ev : WebhookEvent) (now : Time) (k : String)
    (q : Payment) (hq : s.byPaymentID.read k = some q) :
    ∃ q2, (deliver s ev now).byPaymentID.read k = some q2 ∧
      q2.PaymentID = q.PaymentID ∧ q2.Amount = q.Amount ∧
      q2.IdempotencyKey = q.IdempotencyKey := by
  rcases deliver_effect s ev now with ⟨h1, _⟩ | ⟨pid2, p, hp, _, _, h1⟩
  · rw [h1]; exact ⟨q, hq, rfl, rfl, rfl⟩
  · rw [h1]
    by_cases hk : pid2 = k
    · subst hk
      rw [hq] at hp
      cases hp
      simp [GoMap.read_write_same]
    · simp [GoMap.read_write_other _ _ _ _ hk, hq]

theorem deliver_byIdempotencyKey (s : Store) (ev : WebhookEvent) (now : Time) :
    (deliver s ev now).byIdempotencyKey = s.byIdempotencyKey := by
  cases h : s.seenEventIDs.has ev.EventID with
  | true => rw [deliver_seen s ev now h]
  | false =>
    rw [deliver_unseen s ev now h]
    cases resolvePayment s ev <;> simp

theorem async_keeps (st : Store) (a : Async) (k : String) (q : Payment)
    (hq : st.byPaymentID.read k = some q) :
    (a.apply st).byIdempotencyKey = st.byIdempotencyKey ∧
    ∃ q2, (a.apply st).byPaymentID.read k = some q2 ∧ q2.PaymentID = q.PaymentID ∧
      q2.Amount = q.Amount ∧ q2.IdempotencyKey = q.IdempotencyKey := by
  cases a with
  | providerReply pid reply now =>
    exact ⟨callProvider_byIdempotencyKey _ _ _ _, callProvider_keeps_payment _ _ _ _ _ _ hq⟩
  | webhook r now =>
    simp only [Async.apply]
    rcases handleWebhook_store st r now with h | ⟨ev, _, h⟩
    · rw [h]; exact ⟨rfl, q, hq, rfl, rfl, rfl⟩
    · rw [h]; exact ⟨deliver_byIdempotencyKey _ _ _, deliver_keeps_payment _ _ _ _ _ hq⟩

theorem runAsync_keeps (l : List Async) (st : Store) (k : String) (q : Payment)
    (hq : st.byPaymentID.read k = some q) :
    (runAsync st l).byIdempotencyKey = st.byIdempotencyKey ∧
    ∃ q2, (runAsync st l).byPaymentID.read k = some q2 ∧ q2.PaymentID = q.PaymentID ∧
      q2.Amount = q.Amount ∧ q2.IdempotencyKey = q.IdempotencyKey := by
  induction l generalizing st q with
  | nil => exact ⟨rfl, q, hq, rfl, rfl, rfl⟩
  | cons a rest ih =>
    obtain ⟨h1, q1, hq1, e1, e2, e3⟩ := async_keeps st a k q hq
    obtain ⟨h2, q2, hq2, f1, f2, f3⟩ := ih (a.apply st) q1 hq1
    simp only [runAsync, List.foldl_cons] at h2 hq2 ⊢
    exact ⟨h2.trans h1, q2, hq2, f1.trans e1, f2.trans e2, f3.trans e3⟩

/-- C6 fails as stated: after the provider reply for `p1` is committed, replaying key
`k1` answers status `PENDING`, while the first response carried `CREATED`. -/
theorem replay_body_differs_after_provider_reply :
    (submit Store.empty "k1" sampleRequest "p1" 1).response
      = SendResponse.json 202 ⟨"p1", "CREATED"⟩ ∧
    (submit (runAsync (submit Store.empty "k1" sampleRequest "p1" 1).store
        [Async.providerReply "p1" acceptedReply 2]) "k1" sampleRequest "p2" 3).response
      = SendResponse.json 202 ⟨"p1", "PENDING"⟩ ∧
    (submit (runAsync (submit Store.empty "k1" sampleRequest "p1" 1).store
        [Async.providerReply "p1" acceptedReply 2]) "k1" sampleRequest "p2" 3).response
      ≠ (submit Store.empty "k1" sampleRequest "p1" 1).response := by
  decide

/-- C6, amended. The first accepted `handleSend` for key `k` answers
`{payment_id, status = CREATED}`, and in every store reached afterwards by provider-reply
commits and webhook requests, `handleSend` with key `k` and a valid body answers 202
with the same `payment_id` and with the status the payment has in that store. -/
theorem replay_returns_current_status (s : Store) (k : String) (req req2 : SendRequest)
    (newId newId2 : String) (now now2 : Time) (l : List Async) (hk : k ≠ "")
    (hv : validBody req) (hv2 : validBody req2) (hunknown : s.byIdempotencyKey.read k = none) :
    (submit s k req newId now).response = SendResponse.json 202 ⟨newId, "CREATED"⟩ ∧
    ∃ q, (runAsync (submit s k req newId now).store l).byPaymentID.read newId = some q ∧
      (submit (runAsync (submit s k req newId now).store l) k req2 newId2 now2).response
        = SendResponse.json 202 ⟨newId, q.Status⟩ := by
  have h1 := handleSend_create s k req newId now hk hv hunknown
  have hi : (submit s k req newId now).store.byIdempotencyKey.read k = some newId := by
    unfold submit; rw [h1]; simp [addLedgerHold, GoMap.read_write_same]
  have hp : (submit s k req newId now).store.byPaymentID.read newId
      = some ⟨newId, "", k, req.Amount, "CREATED", now, now⟩ := by
    unfold submit; rw [h1]; simp [addLedgerHold, GoMap.read_write_same]
  obtain ⟨e1, q, hq, e2, _, _⟩ := runAsync_keeps l _ newId _ hp
  refine ⟨by unfold submit; rw [h1], q, hq, ?_⟩
  have hi2 : (runAsync (submit s k req newId now).store l).byIdempotencyKey.read k
      = some newId := by rw [e1]; exact hi
  have := handleSend_replay _ k req2 newId2 now2 newId q hk hv2 hi2 hq
  unfold submit at this ⊢
  rw [this]
  simp only at e2
  rw [e2]

/-- C6 amended, at a concrete run: provider reply, then a `CONFIRMED` webhook. -/
theorem replay_returns_current_status_witness :
    ∃ q, (runAsync (submit Store.empty "k1" sampleRequest "p1" 1).store
        [Async.providerReply "p1" acceptedReply 2,
         Async.webhook ⟨"POST", some confirmEvent⟩ 3]).byPaymentID.read "p1" = some q ∧
      (submit (runAsync (submit Store.empty "k1" sampleRequest "p1" 1).store
        [Async.providerReply "p1" acceptedReply 2,
         Async.webhook ⟨"POST", some confirmEvent⟩ 3]) "k1" sampleRequest "p2" 4).response
        = SendResponse.json 202 ⟨"p1", q.Status⟩ :=
  (replay_returns_current_status Store.empty "k1" sampleRequest sampleRequest "p1" "p2" 1 4
    [Async.providerReply "p1" acceptedReply 2, Async.webhook ⟨"POST", some confirmEvent⟩ 3]
    (by decide) (by decide) (by decide) (by decide)).2

/-! ## The status write of `callProvider` -/

/-- C3, the code at the failing input: `p1` is `CONFIRMED` by a webhook that arrived
before the provider reply; the commit of the reply by `callProvider` writes `PENDING`
over it, and a later `REJECTED` webhook then posts a RELEASE after the SETTLE. -/
theorem provider_reply_overwrites_terminal_status :
    Reachable storeConfirmed ∧
    (storeConfirmed.byPaymentID.read "p1").map Payment.Status = some "CONFIRMED" ∧
    ((callProvider storeConfirmed "p1" acceptedReply 3).byPaymentID.read "p1").map Payment.Status
      = some "PENDING" ∧
    ((deliver (callProvider storeConfirmed "p1" acceptedReply 3) rejectEvent 4).byPaymentID.read
        "p1").map Payment.Status = some "REJECTED" ∧
    (deliver (callProvider storeConfirmed "p1" acceptedReply 3) rejectEvent 4).ledgerEntries.map
        LedgerEntry.Kind = ["HOLD", "SETTLE", "RELEASE"] :=
  ⟨Reachable.webhook storeCreated ⟨"POST", some confirmEvent⟩ 2
      (Reachable.send Store.empty ⟨"POST", "k1", some sampleRequest⟩ "p1" 1 Reachable.init rfl),
    (by decide), (by decide), (by decide), (by decide)⟩


/-! ## Permutation convergence -/

theorem resolvePayment_of_has (s t : Store) (ev : WebhookEvent)
    (h1 : ∀ k, t.byPaymentID.has k = s.byPaymentID.has k)
    (h2 : t.byProviderID = s.byProviderID) (h3 : t.byCorrelationID = s.byCorrelationID) :
    resolvePayment t ev = resolvePayment s ev := by
  simp only [resolvePayment, lookupPayment, h1, h2, h3]

/-- The posting of `applyWebhook` depends on the store through the ledger only, and on
the clock through the timestamp of the entry only. -/
theorem postFor_view (s t : Store) (p p2 : Payment) (F : String) (n1 n2 : Time)
    (h1 : t.ledgerEntries = s.ledgerEntries) (h2 : t.ledgerByPosting = s.ledgerByPosting)
    (h3 : t.balances = s.balances) (h4 : p2.PaymentID = p.PaymentID)
    (h5 : p2.Amount = p.Amount) :
    (postFor t p2 F n1).ledgerEntries.map eraseTime
        = (postFor s p F n2).ledgerEntries.map eraseTime ∧
    (postFor t p2 F n1).balances = (postFor s p F n2).balances := by
  simp only [postFor, addLedgerSettle, addLedgerRelease, appendEntry, settleEntry, releaseEntry,
    h1, h2, h3, h4, h5]
  split_ifs <;> simp [eraseTime, h1, h3]

/-- Deliveries addressed to a payment that is already final change neither payments
nor ledger. -/
theorem deliverAll_terminal (l : List (WebhookEvent × Time)) (s : Store) (pid : String)
    (p : Payment) (hp : s.byPaymentID.read pid = some p)
    (hterm : p.Status = "CONFIRMED" ∨ p.Status = "REJECTED")
    (hres : ∀ e ∈ l, resolvePayment s e.1 = some pid) :
    (deliverAll s l).byPaymentID = s.byPaymentID ∧
    (deliverAll s l).ledgerEntries = s.ledgerEntries ∧
    (deliverAll s l).balances = s.balances := by
  induction l generalizing s with
  | nil => exact ⟨rfl, rfl, rfl⟩
  | cons c rest ih =>
    have hc := hres c (List.mem_cons_self _ _)
    have hstep : (deliver s c.1 c.2).byPaymentID = s.byPaymentID ∧
        (deliver s c.1 c.2).ledgerEntries = s.ledgerEntries ∧
        (deliver s c.1 c.2).balances = s.balances ∧
        (deliver s c.1 c.2).byProviderID = s.byProviderID ∧
        (deliver s c.1 c.2).byCorrelationID = s.byCorrelationID := by
      cases h : s.seenEventIDs.has c.1.EventID with
      | true => rw [deliver_seen s c.1 c.2 h]; simp
      | false =>
        rw [deliver_unseen s c.1 c.2 h, hc]
        simp only
        rw [applyWebhook_terminal (markSeen s c.1.EventID) pid c.1.Typ c.2 p hp hterm]
        simp
    obtain ⟨g1, g2, g3, g4, g5⟩ := hstep
    have hres2 : ∀ e ∈ rest, resolvePayment (deliver s c.1 c.2) e.1 = some pid := by
      intro e he
      rw [resolvePayment_congr s _ e.1 g1 g4 g5]
      exact hres e (List.mem_cons_of_mem _ he)
    obtain ⟨i1, i2, i3⟩ := ih (deliver s c.1 c.2) (by rw [g1]; exact hp) hres2
    simp only [deliverAll, List.foldl_cons] at i1 i2 i3 ⊢
    exact ⟨i1.trans g1, i2.trans g2, i3.trans g3⟩

/-- Events of type `PENDING` or `F` with distinct unseen ids, all addressed to a
payment that is not final yet, at least one of them of type `F`: whatever the order,
the payment ends in `F` and the ledger is the one after the single posting for `F`. -/
theorem deliverAll_converges (F : String) (hF : F = "CONFIRMED" ∨ F = "REJECTED")
    (pid : String) (l : List (WebhookEvent × Time)) (s : Store) (p : Payment)
    (hp : s.byPaymentID.read pid = some p)
    (hst : p.Status = "CREATED" ∨ p.Status = "PENDING")
    (hres : ∀ e ∈ l, resolvePayment s e.1 = some pid)
    (hty : ∀ e ∈ l, e.1.Typ = "PENDING" ∨ e.1.Typ = F)
    (hnodup : (l.map (fun e => e.1.EventID)).Nodup)
    (hunseen : ∀ e ∈ l, s.seenEventIDs.has e.1.EventID = false)
    (hex : ∃ e ∈ l, e.1.Typ = F) :
    ((deliverAll s l).byPaymentID.read pid).map Payment.Status = some F ∧
    (deliverAll s l).ledgerEntries.map eraseTime
      = (postFor s p F 0).ledgerEntries.map eraseTime ∧
    (deliverAll s l).balances = (postFor s p F 0).balances := by
  have hFne : F ≠ "PENDING" := by rcases hF with h | h <;> simp [h]
  have hFn : normalizeStatus F = F := by rcases hF with h | h <;> simp [h, normalizeStatus]
  induction l generalizing s p with
  | nil => obtain ⟨e, he, _⟩ := hex; simp at he
  | cons c rest ih =>
    have hc := hres c (List.mem_cons_self _ _)
    have hu := hunseen c (List.mem_cons_self _ _)
    have hnt : ¬ (p.Status = "CONFIRMED" ∨ p.Status = "REJECTED") := by
      rcases hst with h | h <;> simp [h]
    have hhas : s.byPaymentID.has pid = true := by simp [GoMap.has, hp]
    simp only [List.map_cons, List.nodup_cons, List.mem_map, not_exists, not_and] at hnodup
    obtain ⟨hhead, hnd⟩ := hnodup
    have htyc := hty c (List.mem_cons_self _ _)
    have hnorm : normalizeStatus c.1.Typ = c.1.Typ := by
      rcases htyc with h | h
      · simp [h, normalizeStatus]
      · rw [h]; exact hFn
    have hnz : normalizeStatus c.1.Typ ≠ "" := by
      rw [hnorm]
      rcases htyc with h | h
      · simp [h]
      · rw [h]; rcases hF with h2 | h2 <;> simp [h2]
    have hd : deliver s c.1 c.2 =
        { postFor (markSeen s c.1.EventID) p c.1.Typ c.2 with
          byPaymentID := s.byPaymentID.write pid { p with Status := c.1.Typ, UpdatedAt := c.2 } } := by
      rw [deliver_unseen s c.1 c.2 hu, hc]
      simp only
      rw [applyWebhook_eq (markSeen s c.1.EventID) pid c.1.Typ c.2 p hp hnz hnt, hnorm]
      simp
    have hres2 : ∀ e ∈ rest, resolvePayment (deliver s c.1 c.2) e.1 = some pid := by
      intro e he
      rw [resolvePayment_of_has s _ e.1 _ (by rw [hd]; simp) (by rw [hd]; simp)]
      · exact hres e (List.mem_cons_of_mem _ he)
      · intro k
        rw [hd]
        exact GoMap.has_write_of_has _ _ _ _ hhas
    have hp2 : (deliver s c.1 c.2).byPaymentID.read pid
        = some { p with Status := c.1.Typ, UpdatedAt := c.2 } := by
      rw [hd]; simp [GoMap.read_write_same]
    simp only [deliverAll, List.foldl_cons]
    rcases htyc with hpend | hfin
    · -- a PENDING event: no posting, the payment stays open
      have hunseen2 : ∀ e ∈ rest, (deliver s c.1 c.2).seenEventIDs.has e.1.EventID = false := by
        intro e he
        rw [hd]
        simp only [postFor_seenEventIDs, markSeen_seenEventIDs, GoMap.has_write]
        have h1 : ¬ c.1.EventID = e.1.EventID := fun h => hhead e he h.symm
        simp [h1, hunseen e (List.mem_cons_of_mem _ he)]
      have hex2 : ∃ e ∈ rest, e.1.Typ = F := by
        obtain ⟨e, he, hte⟩ := hex
        rcases List.mem_cons.mp he with h | h
        · subst h; rw [hpend] at hte; exact absurd hte.symm hFne
        · exact ⟨e, h, hte⟩
      obtain ⟨i1, i2, i3⟩ := ih (deliver s c.1 c.2) _ hp2 (Or.inr hpend) hres2
        (fun e he => hty e (List.mem_cons_of_mem _ he)) hnd hunseen2 hex2
      have hv := postFor_view s (deliver s c.1 c.2)
        p { p with Status := c.1.Typ, UpdatedAt := c.2 } F 0 0
        (by rw [hd, hpend, postFor_pending]; rfl) (by rw [hd, hpend, postFor_pending]; rfl)
        (by rw [hd, hpend, postFor_pending]; rfl) rfl rfl
      simp only [deliverAll] at i1 i2 i3
      exact ⟨i1, i2.trans hv.1, i3.trans hv.2⟩
    · -- the first event of type F: one posting, the payment becomes final
      have hterm : ({ p with Status := c.1.Typ, UpdatedAt := c.2 } : Payment).Status = "CONFIRMED" ∨
          ({ p with Status := c.1.Typ, UpdatedAt := c.2 } : Payment).Status = "REJECTED" := by
        simp only [hfin]; exact hF
      obtain ⟨i1, i2, i3⟩ := deliverAll_terminal rest (deliver s c.1 c.2) pid _ hp2 hterm hres2
      have hv := postFor_view s (markSeen s c.1.EventID) p p F c.2 0 rfl rfl rfl rfl rfl
      simp only [deliverAll] at i1 i2 i3
      refine ⟨?_, ?_, ?_⟩
      · rw [i1, hp2]; simp [hfin]
      · rw [i2, hd, hfin]; exact hv.1
      · rw [i3, hd, hfin]; exact hv.2

/-- C1. Permutation convergence: the payment stored under `pid` is `CREATED` or
`PENDING`; three events addressed to it, one `PENDING`, one `F` and a duplicate `F`
(`F` being `CONFIRMED` or `REJECTED`), carry pairwise distinct unseen event ids.
Delivered through `handleWebhook` in any order `l` (with any clock readings), they leave
the payment in status `F`; and any two orders `l`, `l2` leave the same ledger entries
(timestamps aside) and the same balances. -/
theorem permutation_convergence (s : Store) (pid : String) (p : Payment) (F : String)
    (e1 e2 e3 : WebhookEvent) (l l2 : List (WebhookEvent × Time))
    (hp : s.byPaymentID.read pid = some p)
    (hst : p.Status = "CREATED" ∨ p.Status = "PENDING")
    (hF : F = "CONFIRMED" ∨ F = "REJECTED")
    (ht1 : e1.Typ = "PENDING") (ht2 : e2.Typ = F) (ht3 : e3.Typ = F)
    (hres : ∀ e ∈ [e1, e2, e3], resolvePayment s e = some pid)
    (hids : [e1.EventID, e2.EventID, e3.EventID].Nodup)
    (hunseen : ∀ e ∈ [e1, e2, e3], s.seenEventIDs.has e.EventID = false)
    (hperm : (l.map Prod.fst).Perm [e1, e2, e3])
    (hperm2 : (l2.map Prod.fst).Perm [e1, e2, e3]) :
    ((deliverAll s l).byPaymentID.read pid).map Payment.Status = some F ∧
    (deliverAll s l).ledgerEntries.map eraseTime
      = (deliverAll s l2).ledgerEntries.map eraseTime ∧
    (deliverAll s l).balances = (deliverAll s l2).balances := by
  have key : ∀ m : List (WebhookEvent × Time), (m.map Prod.fst).Perm [e1, e2, e3] →
      ((deliverAll s m).byPaymentID.read pid).map Payment.Status = some F ∧
      (deliverAll s m).ledgerEntries.map eraseTime
        = (postFor s p F 0).ledgerEntries.map eraseTime ∧
      (deliverAll s m).balances = (postFor s p F 0).balances := by
    intro m hm
    have hmem : ∀ e ∈ m, e.1 ∈ [e1, e2, e3] := fun e he =>
      hm.mem_iff.mp (List.mem_map_of_mem Prod.fst he)
    have htyall : ∀ e ∈ [e1, e2, e3], e.Typ = "PENDING" ∨ e.Typ = F := by
      intro e he
      simp only [List.mem_cons, List.mem_singleton, List.not_mem_nil, or_false] at he
      rcases he with h | h | h <;> subst h
      · exact Or.inl ht1
      · exact Or.inr ht2
      · exact Or.inr ht3
    apply deliverAll_converges F hF pid m s p hp hst
    · exact fun e he => hres e.1 (hmem e he)
    · exact fun e he => htyall e.1 (hmem e he)
    · have h1 : ((m.map Prod.fst).map WebhookEvent.EventID).Perm
          ([e1, e2, e3].map WebhookEvent.EventID) := hm.map _
      have h2 : ((m.map Prod.fst).map WebhookEvent.EventID).Nodup := h1.nodup_iff.mpr hids
      simpa [List.map_map, Function.comp] using h2
    · exact fun e he => hunseen e.1 (hmem e he)
    · have h2 : e2 ∈ m.map Prod.fst := hm.mem_iff.mpr (by simp)
      obtain ⟨c, hc, hce⟩ := List.mem_map.mp h2
      exact ⟨c, hc, by rw [hce]; exact ht2⟩
  obtain ⟨a1, a2, a3⟩ := key l hperm
  obtain ⟨_, b2, b3⟩ := key l2 hperm2
  exact ⟨a1, a2.trans b2.symm, a3.trans b3.symm⟩


/-- C1 at a concrete store: `p1` is `CREATED`; the final event first, then `PENDING`,
then the duplicate, against the order `PENDING`, final, duplicate. -/
theorem permutation_convergence_witness :
    ((deliverAll storeCreated
        [(confirmEvent, 2), (pendingEvent, 3), (confirmEventDup, 4)]).byPaymentID.read "p1").map
        Payment.Status = some "CONFIRMED" ∧
    (deliverAll storeCreated
        [(confirmEvent, 2), (pendingEvent, 3), (confirmEventDup, 4)]).ledgerEntries.map eraseTime
      = (deliverAll storeCreated
        [(pendingEvent, 5), (confirmEvent, 6), (confirmEventDup, 7)]).ledgerEntries.map eraseTime ∧
    (deliverAll storeCreated
        [(confirmEvent, 2), (pendingEvent, 3), (confirmEventDup, 4)]).balances
      = (deliverAll storeCreated
        [(pendingEvent, 5), (confirmEvent, 6), (confirmEventDup, 7)]).balances :=
  permutation_convergence storeCreated "p1" ⟨"p1", "", "k1", 1000, "CREATED", 1, 1⟩ "CONFIRMED"
    pendingEvent confirmEvent confirmEventDup
    [(confirmEvent, 2), (pendingEvent, 3), (confirmEventDup, 4)]
    [(pendingEvent, 5), (confirmEvent, 6), (confirmEventDup, 7)]
    (by decide) (Or.inl rfl) (Or.inl rfl) rfl rfl rfl (by decide) (by decide) (by decide)
    (List.Perm.swap _ _ _) (List.Perm.refl _)


/-! ## Ledger laws along runs -/

theorem balanceSum_write (m : GoMap Int) (k : String) (v : Int) :
    balanceSum (m.write k v) = balanceSum m - (m.read k).getD 0 + v := by
  induction m with
  | nil => simp [GoMap.write, GoMap.read, balanceSum]
  | cons hd tl ih =>
    obtain ⟨a, x⟩ := hd
    by_cases h : a = k
    · simp only [GoMap.write, GoMap.read, balanceSum, h, if_true, List.map_cons, List.sum_cons,
        Option.getD_some]
      ring
    · simp only [balanceSum] at ih
      simp only [GoMap.write, GoMap.read, balanceSum, h, if_false, List.map_cons, List.sum_cons, ih]
      ring

theorem wrap64_mod (x : Int) : (wrap64 x - x) % 18446744073709551616 = 0 := by
  unfold wrap64; omega

theorem wrap64_wrap64_sub (b a : Int) : wrap64 (wrap64 b - a) = wrap64 (b - a) := by
  unfold wrap64; omega

theorem wrap64_wrap64_add (b a : Int) : wrap64 (wrap64 b + a) = wrap64 (b + a) := by
  unfold wrap64; omega

theorem wrap64_of_isInt64 (x : Int) (h : isInt64 x) : wrap64 x = x := by
  unfold isInt64 at h; unfold wrap64; omega

theorem balanceSum_applyLine_debit (m : GoMap Int) (l : LedgerLine) (h : l.Direction = "DEBIT") :
    (balanceSum (applyLine m l) - (balanceSum m - l.Amount)) % 18446744073709551616 = 0 := by
  have := wrap64_mod ((m.read l.Account).getD 0 - l.Amount)
  simp only [applyLine, h, if_true, balanceSum_write]
  omega

theorem balanceSum_applyLine_credit (m : GoMap Int) (l : LedgerLine) (h : l.Direction ≠ "DEBIT") :
    (balanceSum (applyLine m l) - (balanceSum m + l.Amount)) % 18446744073709551616 = 0 := by
  have := wrap64_mod ((m.read l.Account).getD 0 + l.Amount)
  simp only [applyLine, h, if_false, balanceSum_write]
  omega

theorem read_applyLine (m : GoMap Int) (l : LedgerLine) (acct : String) (b : Int)
    (hdir : l.Direction = "DEBIT" ∨ l.Direction = "CREDIT")
    (h : (m.read acct).getD 0 = wrap64 b) :
    ((applyLine m l).read acct).getD 0 = wrap64 (replayLine acct b l) := by
  by_cases ha : l.Account = acct
  · subst ha
    rcases hdir with hd | hd
    · simp [applyLine, replayLine, hd, GoMap.read_write_same, h, wrap64_wrap64_sub]
    · simp [applyLine, replayLine, hd, GoMap.read_write_same, h, wrap64_wrap64_add]
  · simp only [replayLine, ha, if_false]
    unfold applyLine
    split <;> rw [GoMap.read_write_other _ _ _ _ ha] <;> exact h

theorem read_foldl_applyLine (ls : List LedgerLine) (acct : String)
    (hdir : ∀ l ∈ ls, l.Direction = "DEBIT" ∨ l.Direction = "CREDIT") (m : GoMap Int) (b : Int)
    (h : (m.read acct).getD 0 = wrap64 b) :
    ((ls.foldl applyLine m).read acct).getD 0 = wrap64 (ls.foldl (replayLine acct) b) := by
  induction ls generalizing m b with
  | nil => exact h
  | cons l rest ih =>
    simp only [List.foldl_cons]
    exact ih (fun x hx => hdir x (List.mem_cons_of_mem _ hx)) _ _
      (read_applyLine m l acct b (hdir l (List.mem_cons_self _ _)) h)

/-- A template entry has one DEBIT and one CREDIT line of the same amount. -/
theorem template_lines (e : LedgerEntry) (h : IsTemplate e) :
    ∃ a1 a2 amt, e.Lines = [⟨a1, "DEBIT", amt⟩, ⟨a2, "CREDIT", amt⟩] := by
  obtain ⟨pid, amt, now, h | h | h⟩ := h <;> subst h
  · exact ⟨_, _, amt, rfl⟩
  · exact ⟨_, _, amt, rfl⟩
  · exact ⟨_, _, amt, rfl⟩

theorem ledgerLaws_step (s t : Store) (hs : LedgerLaws s) (hstep : LedgerStep s t) :
    LedgerLaws t := by
  obtain ⟨l1, l2, l3⟩ := hs
  rcases hstep with ⟨h1, h2, _⟩ | ⟨e, he, _, h1, h2, _⟩
  · refine ⟨?_, ?_, ?_⟩
    · rw [h1]; exact l1
    · rw [h2]; exact l2
    · intro acct
      unfold balanceOf
      rw [h1, h2]
      exact l3 acct
  · obtain ⟨a1, a2, amt, hl⟩ := template_lines e he
    refine ⟨?_, ?_, ?_⟩
    · intro x hx
      rw [h1] at hx
      rcases List.mem_append.mp hx with hx | hx
      · exact l1 x hx
      · simp only [List.mem_singleton] at hx
        subst hx
        simp [debitSum, creditSum, hl]
    · rw [h2, hl]
      simp only [List.foldl_cons, List.foldl_nil]
      have d := balanceSum_applyLine_debit s.balances ⟨a1, "DEBIT", amt⟩ rfl
      have c := balanceSum_applyLine_credit (applyLine s.balances ⟨a1, "DEBIT", amt⟩)
        ⟨a2, "CREDIT", amt⟩ (by simp)
      simp only at d c
      omega
    · intro acct
      unfold balanceOf
      rw [h1, h2]
      simp only [replay, List.foldl_append, List.foldl_cons, List.foldl_nil]
      apply read_foldl_applyLine
      · intro l hl2
        rw [hl] at hl2
        simp only [List.mem_cons, List.mem_singleton, List.not_mem_nil, or_false] at hl2
        rcases hl2 with h | h <;> subst h <;> simp
      · exact l3 acct

theorem ledgerLaws_empty : LedgerLaws Store.empty := by
  refine ⟨?_, ?_, ?_⟩
  · intro e he; simp [Store.empty] at he
  · decide
  · intro acct; simp [balanceOf, Store.empty, GoMap.read, replay, wrap64]

theorem ledgerStep_refl (s : Store) : LedgerStep s s := Or.inl ⟨rfl, rfl, rfl⟩

theorem ledgerStep_appendEntry (s s1 : Store) (e : LedgerEntry) (he : IsTemplate e)
    (h1 : s1.ledgerEntries = s.ledgerEntries) (h2 : s1.balances = s.balances)
    (h3 : s1.ledgerByPosting = s.ledgerByPosting) : LedgerStep s (appendEntry s1 e) := by
  unfold appendEntry
  cases h : s1.ledgerByPosting.has e.PostingID with
  | true => simp only [if_true]; exact Or.inl ⟨h1, h2, h3⟩
  | false =>
    simp only [Bool.false_eq_true, if_false]
    right
    refine ⟨e, he, by rw [← h3]; exact h, ?_, ?_, ?_⟩
    · simp [h1]
    · simp [h2]
    · simp [h3]

theorem ledgerStep_postFor (s s1 : Store) (p : Payment) (ft : String) (now : Time)
    (h1 : s1.ledgerEntries = s.ledgerEntries) (h2 : s1.balances = s.balances)
    (h3 : s1.ledgerByPosting = s.ledgerByPosting) : LedgerStep s (postFor s1 p ft now) := by
  unfold postFor addLedgerSettle addLedgerRelease
  split_ifs
  · exact ledgerStep_appendEntry s s1 _ ⟨_, _, _, Or.inr (Or.inl rfl)⟩ h1 h2 h3
  · exact ledgerStep_appendEntry s s1 _ ⟨_, _, _, Or.inr (Or.inr rfl)⟩ h1 h2 h3
  · exact Or.inl ⟨h1, h2, h3⟩

theorem ledgerStep_congr (s t t2 : Store) (h : LedgerStep s t)
    (h1 : t2.ledgerEntries = t.ledgerEntries) (h2 : t2.balances = t.balances)
    (h3 : t2.ledgerByPosting = t.ledgerByPosting) : LedgerStep s t2 := by
  unfold LedgerStep at *
  rw [h1, h2, h3]
  exact h

theorem ledgerStep_handleSend (s : Store) (r : SendHttp) (newId : String) (now : Time) :
    LedgerStep s (handleSend s r newId now).store := by
  simp only [handleSend]
  split_ifs
  · exact ledgerStep_refl s
  · exact ledgerStep_refl s
  · split
    · exact ledgerStep_refl s
    · split_ifs
      · exact ledgerStep_refl s
      · split
        · split <;> exact ledgerStep_refl s
        · exact ledgerStep_appendEntry s _ _ ⟨_, _, _, Or.inl rfl⟩ rfl rfl rfl

theorem ledgerStep_callProvider (s : Store) (pid : String) (reply : ProviderReply) (now : Time) :
    LedgerStep s (callProvider s pid reply now) := by
  unfold callProvider
  split
  · exact ledgerStep_refl s
  · split
    · exact ledgerStep_refl s
    · split <;> exact Or.inl ⟨rfl, rfl, rfl⟩

theorem ledgerStep_deliver (s : Store) (ev : WebhookEvent) (now : Time) :
    LedgerStep s (deliver s ev now) := by
  rcases deliver_effect s ev now with ⟨_, h2, h3, h4⟩ | ⟨pid2, q, _, _, _, h1⟩
  · exact Or.inl ⟨h2, h3, h4⟩
  · rw [h1]
    exact ledgerStep_congr s _ _
      (ledgerStep_postFor s (markSeen s ev.EventID) q (normalizeStatus ev.Typ) now rfl rfl rfl)
      rfl rfl rfl

theorem ledgerStep_handleWebhook (s : Store) (r : WebhookHttp) (now : Time) :
    LedgerStep s (handleWebhook s r now).1 := by
  rcases handleWebhook_store s r now with h | ⟨ev, _, h⟩
  · rw [h]; exact ledgerStep_refl s
  · rw [h]; exact ledgerStep_deliver s ev now

theorem reachable_ledgerLaws (st : Store) (h : Reachable st) : LedgerLaws st := by
  induction h with
  | init => exact ledgerLaws_empty
  | send s r newId now _ _ ih => exact ledgerLaws_step _ _ ih (ledgerStep_handleSend s r newId now)
  | providerReply s pid reply now _ _ ih =>
    exact ledgerLaws_step _ _ ih (ledgerStep_callProvider s pid reply now)
  | webhook s r now _ ih => exact ledgerLaws_step _ _ ih (ledgerStep_handleWebhook s r now)

theorem storeCreated_reachable : Reachable storeCreated :=
  Reachable.send Store.empty ⟨"POST", "k1", some sampleRequest⟩ "p1" 1 Reachable.init rfl

theorem storeConfirmed_reachable : Reachable storeConfirmed :=
  Reachable.webhook storeCreated ⟨"POST", some confirmEvent⟩ 2 storeCreated_reachable

theorem storeOverflow_reachable : Reachable storeOverflow :=
  Reachable.send _ ⟨"POST", "k2", some bigRequest⟩ "p2" 2
    (Reachable.send Store.empty ⟨"POST", "k1", some bigRequest⟩ "p1" 1 Reachable.init rfl)
    (by decide)

/-! ## Exact balances when nothing overflows -/

theorem GoMap.keys_write {β : Type} (m : GoMap β) (k : String) (v : β) :
    (m.write k v).keys = if m.has k = true then m.keys else m.keys ++ [k] := by
  cases h : m.has k with
  | true => simp [GoMap.keys_write_of_has m k v h]
  | false =>
    have h2 : m.read k = none := by
      simpa [GoMap.has] using h
    simp [GoMap.write_of_read_none m k v h2, GoMap.keys]

theorem GoMap.mem_keys_of_has {β : Type} (m : GoMap β) (k : String) (h : m.has k = true) :
    k ∈ m.keys := by
  by_contra hc
  have := (GoMap.read_eq_none_iff m k).mpr hc
  simp [GoMap.has, this] at h

theorem GoMap.nodup_keys_write {β : Type} (m : GoMap β) (k : String) (v : β)
    (h : m.keys.Nodup) : (m.write k v).keys.Nodup := by
  rw [GoMap.keys_write]
  cases hk : m.has k with
  | true => simpa using h
  | false =>
    have h2 : m.read k = none := by
      simpa [GoMap.has] using hk
    have h3 := (GoMap.read_eq_none_iff m k).mp h2
    simp only [Bool.false_eq_true, if_false]
    exact List.Nodup.append h (List.nodup_singleton k) (by simpa using h3)

theorem GoMap.mem_keys_write {β : Type} (m : GoMap β) (k x : String) (v : β) :
    x ∈ (m.write k v).keys ↔ x = k ∨ x ∈ m.keys := by
  rw [GoMap.keys_write]
  cases hk : m.has k with
  | true =>
    have := GoMap.mem_keys_of_has m k hk
    simp only [if_true]
    constructor
    · exact Or.inr
    · rintro (h | h)
      · rw [h]; exact this
      · exact h
  | false => simp [or_comm]

theorem applyLine_keys_nodup (m : GoMap Int) (l : LedgerLine) (h : m.keys.Nodup) :
    (applyLine m l).keys.Nodup := by
  unfold applyLine
  split <;> exact GoMap.nodup_keys_write _ _ _ h

theorem applyLine_mem_keys (m : GoMap Int) (l : LedgerLine) (x : String) :
    x ∈ (applyLine m l).keys ↔ x = l.Account ∨ x ∈ m.keys := by
  unfold applyLine
  split <;> exact GoMap.mem_keys_write _ _ _ _

theorem balanceSum_eq_sum_keys (m : GoMap Int) (h : m.keys.Nodup) :
    balanceSum m = (m.keys.map (fun k => (m.read k).getD 0)).sum := by
  induction m with
  | nil => simp [balanceSum, GoMap.keys]
  | cons hd tl ih =>
    obtain ⟨a, x⟩ := hd
    simp only [GoMap.keys, List.map_cons, List.nodup_cons] at h
    obtain ⟨h1, h2⟩ := h
    have ih2 := ih h2
    simp only [balanceSum, GoMap.keys] at ih2 ⊢
    simp only [List.map_cons, List.sum_cons, GoMap.read, if_true, Option.getD_some, ih2]
    congr 1
    apply congrArg
    apply List.map_congr_left
    intro k hk
    have hne : ¬ a = k := by
      intro e
      subst e
      exact h1 hk
    simp [hne]

theorem sum_map_ite_eq (ks : List String) (a : String) (amt : Int) (hn : ks.Nodup)
    (ha : a ∈ ks) : (ks.map (fun k => if a = k then amt else 0)).sum = amt := by
  induction ks with
  | nil => simp at ha
  | cons k rest ih =>
    simp only [List.nodup_cons] at hn
    obtain ⟨h1, h2⟩ := hn
    by_cases hk : a = k
    · subst hk
      have hz : (rest.map (fun k => if a = k then amt else 0)).sum = 0 := by
        apply List.sum_eq_zero
        intro x hx
        obtain ⟨y, hy, rfl⟩ := List.mem_map.mp hx
        have : ¬ a = y := by
          intro e
          subst e
          exact h1 hy
        simp [this]
      simp [hz]
    · have ha2 : a ∈ rest := by
        rcases List.mem_cons.mp ha with h | h
        · exact absurd h hk
        · exact h
      simp [hk, ih h2 ha2]

theorem sum_map_sub_fun (ks : List String) (g h : String → Int) :
    (ks.map (fun k => g k - h k)).sum = (ks.map g).sum - (ks.map h).sum := by
  induction ks with
  | nil => simp
  | cons k rest ih =>
    simp only [List.map_cons, List.sum_cons, ih]
    ring

theorem sum_map_template (ks : List String) (f : String → Int) (a1 a2 : String) (amt : Int)
    (hn : ks.Nodup) (h1 : a1 ∈ ks) (h2 : a2 ∈ ks) :
    (ks.map (fun k => replayLine k (replayLine k (f k) ⟨a1, "DEBIT", amt⟩)
      ⟨a2, "CREDIT", amt⟩)).sum = (ks.map f).sum := by
  have e : ∀ k, replayLine k (replayLine k (f k) ⟨a1, "DEBIT", amt⟩) ⟨a2, "CREDIT", amt⟩
      = f k + ((if a2 = k then amt else 0) - (if a1 = k then amt else 0)) := by
    intro k
    simp only [replayLine]
    by_cases c1 : a1 = k <;> by_cases c2 : a2 = k <;> simp [c1, c2]
    ring
  simp only [e]
  rw [List.sum_map_add, sum_map_sub_fun, sum_map_ite_eq ks a1 amt hn h1,
    sum_map_ite_eq ks a2 amt hn h2]
  simp

/-- The exact replays of the accounts of a list `ks` sum to 0 when the entries are
templates and `ks` holds each of their accounts once. -/
theorem sum_replay_eq_zero (ks : List String) (hn : ks.Nodup) (es : List LedgerEntry)
    (ht : ∀ e ∈ es, IsTemplate e) (hk : ∀ e ∈ es, ∀ l ∈ e.Lines, l.Account ∈ ks) :
    (ks.map (replay es)).sum = 0 := by
  induction es using List.reverseRecOn with
  | nil =>
    apply List.sum_eq_zero
    intro x hx
    obtain ⟨k, _, rfl⟩ := List.mem_map.mp hx
    rfl
  | append_singleton es e ih =>
    have ih2 := ih (fun x hx => ht x (List.mem_append_left _ hx))
      (fun x hx => hk x (List.mem_append_left _ hx))
    obtain ⟨a1, a2, amt, hl⟩ := template_lines e (ht e (by simp))
    have hmem := hk e (by simp)
    rw [hl] at hmem
    have m1 : a1 ∈ ks := hmem ⟨a1, "DEBIT", amt⟩ (by simp)
    have m2 : a2 ∈ ks := hmem ⟨a2, "CREDIT", amt⟩ (by simp)
    have e2 : ∀ k, replay (es ++ [e]) k
        = replayLine k (replayLine k (replay es k) ⟨a1, "DEBIT", amt⟩) ⟨a2, "CREDIT", amt⟩ := by
      intro k
      simp [replay, List.foldl_append, hl]
    have e3 : ks.map (replay (es ++ [e]))
        = ks.map (fun k => replayLine k (replayLine k (replay es k) ⟨a1, "DEBIT", amt⟩)
            ⟨a2, "CREDIT", amt⟩) := List.map_congr_left (fun k _ => e2 k)
    rw [e3, sum_map_template ks (replay es) a1 a2 amt hn m1 m2]
    exact ih2

theorem ledgerShape_step (s t : Store) (hs : LedgerShape s) (hstep : LedgerStep s t) :
    LedgerShape t := by
  obtain ⟨l1, l2, l3⟩ := hs
  rcases hstep with ⟨h1, h2, _⟩ | ⟨e, he, _, h1, h2, _⟩
  · exact ⟨by rw [h1]; exact l1, by rw [h2]; exact l2, by rw [h1, h2]; exact l3⟩
  · obtain ⟨a1, a2, amt, hl⟩ := template_lines e he
    have hb : t.balances = applyLine (applyLine s.balances ⟨a1, "DEBIT", amt⟩)
        ⟨a2, "CREDIT", amt⟩ := by rw [h2, hl]; rfl
    refine ⟨?_, ?_, ?_⟩
    · intro x hx
      rw [h1] at hx
      rcases List.mem_append.mp hx with hx | hx
      · exact l1 x hx
      · simp only [List.mem_singleton] at hx
        rw [hx]; exact he
    · rw [hb]
      exact applyLine_keys_nodup _ _ (applyLine_keys_nodup _ _ l2)
    · intro x hx l hlx
      rw [hb]
      simp only [applyLine_mem_keys]
      rw [h1] at hx
      rcases List.mem_append.mp hx with hx | hx
      · exact Or.inr (Or.inr (l3 x hx l hlx))
      · simp only [List.mem_singleton] at hx
        rw [hx, hl] at hlx
        simp only [List.mem_cons, List.mem_singleton, List.not_mem_nil, or_false] at hlx
        rcases hlx with h | h <;> subst h
        · exact Or.inr (Or.inl rfl)
        · exact Or.inl rfl

theorem reachable_ledgerShape (st : Store) (h : Reachable st) : LedgerShape st := by
  induction h with
  | init => exact ⟨by simp [Store.empty], by simp [Store.empty, GoMap.keys],
      by simp [Store.empty]⟩
  | send s r newId now _ _ ih => exact ledgerShape_step _ _ ih (ledgerStep_handleSend s r newId now)
  | providerReply s pid reply now _ _ ih =>
    exact ledgerShape_step _ _ ih (ledgerStep_callProvider s pid reply now)
  | webhook s r now _ ih => exact ledgerShape_step _ _ ih (ledgerStep_handleWebhook s r now)

theorem balanceSum_exact (st : Store) (h : Reachable st)
    (hfit : ∀ acct, isInt64 (replay st.ledgerEntries acct)) : balanceSum st.balances = 0 := by
  obtain ⟨s1, s2, s3⟩ := reachable_ledgerShape st h
  have laws := (reachable_ledgerLaws st h).2.2
  rw [balanceSum_eq_sum_keys _ s2]
  have e : st.balances.keys.map (fun k => (st.balances.read k).getD 0)
      = st.balances.keys.map (replay st.ledgerEntries) := by
    apply List.map_congr_left
    intro k _
    have := laws k
    unfold balanceOf at this
    rw [this, wrap64_of_isInt64 _ (hfit k)]
  rw [e]
  exact sum_replay_eq_zero _ s2 _ s1 s3

/-- C9 fails as stated: after two accepted submissions of `2^62` each (a reachable
store, amounts within `int64`) the balance of `CUSTOMER_HELD` has wrapped to `-2^63`
and the balances sum to `-2^64`, not to 0. -/
theorem balances_sum_nonzero_after_overflow :
    Reachable storeOverflow ∧
    storeOverflow.balances
      = [("CUSTOMER_AVAILABLE", -9223372036854775808), ("CUSTOMER_HELD", -9223372036854775808)] ∧
    balanceSum storeOverflow.balances = -18446744073709551616 ∧
    balanceSum storeOverflow.balances ≠ 0 :=
  ⟨storeOverflow_reachable, (by decide), (by decide), (by decide)⟩

/-- C9, amended. Ledger balance law: in every store reachable from the empty store by
submits, provider-reply commits and webhook requests, every ledger entry has equal sums
of DEBIT and CREDIT line amounts, and the sum of the balances over all accounts is 0
modulo `2^64` (the balances are `int64` and wrap); the sum is 0 whenever the exact
replay of the entry log fits in `int64` for every account. -/
theorem ledger_balance_law_mod (st : Store) (h : Reachable st) :
    (∀ e ∈ st.ledgerEntries, debitSum e = creditSum e) ∧
    balanceSum st.balances % 18446744073709551616 = 0 ∧
    ((∀ acct, isInt64 (replay st.ledgerEntries acct)) → balanceSum st.balances = 0) :=
  ⟨(reachable_ledgerLaws st h).1, (reachable_ledgerLaws st h).2.1, balanceSum_exact st h⟩

/-- C9 amended, at the store where `p1` was confirmed. -/
theorem ledger_balance_law_mod_witness :
    (∀ e ∈ storeConfirmed.ledgerEntries, debitSum e = creditSum e) ∧
    balanceSum storeConfirmed.balances % 18446744073709551616 = 0 :=
  ⟨(ledger_balance_law_mod storeConfirmed storeConfirmed_reachable).1,
    (ledger_balance_law_mod storeConfirmed storeConfirmed_reachable).2.1⟩

/-- C10 fails as stated: after two accepted submissions of `2^62` each, the stored
balance of `CUSTOMER_HELD` is `-2^63` while the exact replay of the two HOLD entries
gives `2^63`. -/
theorem balance_differs_from_exact_replay :
    Reachable storeOverflow ∧
    balanceOf storeOverflow "CUSTOMER_HELD" = -9223372036854775808 ∧
    replay storeOverflow.ledgerEntries "CUSTOMER_HELD" = 9223372036854775808 ∧
    balanceOf storeOverflow "CUSTOMER_HELD" ≠ replay storeOverflow.ledgerEntries "CUSTOMER_HELD" :=
  ⟨storeOverflow_reachable, (by decide), (by decide), (by decide)⟩

/-- C10, amended. Balances are a fold of the entry log: in every reachable store and
for every account (absent accounts count as 0), the stored balance equals the replay of
`ledgerEntries` from zero, DEBIT subtracting and CREDIT adding the line amount, wrapped
into `int64`; it equals the exact replay whenever that value fits in `int64`. -/
theorem balances_are_wrapped_replay (st : Store) (acct : String) (h : Reachable st) :
    balanceOf st acct = wrap64 (replay st.ledgerEntries acct) ∧
    (isInt64 (replay st.ledgerEntries acct) → balanceOf st acct = replay st.ledgerEntries acct) := by
  have h1 := (reachable_ledgerLaws st h).2.2 acct
  refine ⟨h1, fun hr => ?_⟩
  rw [h1, wrap64_of_isInt64 _ hr]

/-- C10 amended, at the store where `p1` was confirmed: `PIX_CLEARING` holds the exact
replay, 1000. -/
theorem balances_are_wrapped_replay_witness :
    isInt64 (replay storeConfirmed.ledgerEntries "PIX_CLEARING") ∧
    balanceOf storeConfirmed "PIX_CLEARING" = replay storeConfirmed.ledgerEntries "PIX_CLEARING" :=
  ⟨(by decide),
    (balances_are_wrapped_replay storeConfirmed "PIX_CLEARING" storeConfirmed_reachable).2
      (by decide)⟩

/-! ## Posting uniqueness -/

theorem appendEntry_recorded (st : Store) (e : LedgerEntry)
    (h : st.ledgerByPosting.has e.PostingID = true) : appendEntry st e = st := by
  simp [appendEntry, h]

theorem postingInv_step (s t : Store) (hs : PostingInv s) (hstep : LedgerStep s t) :
    PostingInv t := by
  obtain ⟨p1, p2⟩ := hs
  rcases hstep with ⟨h1, _, h3⟩ | ⟨e, _, hnew, h1, _, h3⟩
  · exact ⟨by rw [h1, h3]; exact p1, by rw [h1]; exact p2⟩
  · refine ⟨?_, ?_⟩
    · intro x hx
      rw [h1] at hx
      rw [h3, GoMap.has_write]
      rcases List.mem_append.mp hx with hx | hx
      · simp [p1 x hx]
      · simp only [List.mem_singleton] at hx
        simp [hx]
    · rw [h1, List.map_append]
      refine List.Nodup.append p2 (by simp) ?_
      intro a ha hb
      simp only [List.map_cons, List.map_nil, List.mem_singleton] at hb
      obtain ⟨x, hx, hxa⟩ := List.mem_map.mp ha
      have := p1 x hx
      rw [hxa, hb, hnew] at this
      exact absurd this (by simp)

theorem reachable_postingInv (st : Store) (h : Reachable st) : PostingInv st := by
  induction h with
  | init => exact ⟨by simp [Store.empty], by simp [Store.empty]⟩
  | send s r newId now _ _ ih => exact postingInv_step _ _ ih (ledgerStep_handleSend s r newId now)
  | providerReply s pid reply now _ _ ih =>
    exact postingInv_step _ _ ih (ledgerStep_callProvider s pid reply now)
  | webhook s r now _ ih => exact postingInv_step _ _ ih (ledgerStep_handleWebhook s r now)

/-- A template entry of payment `pid` and kind `HOLD`, `SETTLE` or `RELEASE` has the
posting id `pid:kind`. -/
theorem template_postingID (e : LedgerEntry) (h : IsTemplate e) :
    e.PostingID = e.PaymentID ++ ":" ++ e.Kind := by
  obtain ⟨pid, amt, now, h | h | h⟩ := h <;> subst h
  · simp [holdEntry, String.append_assoc]
  · simp [settleEntry, String.append_assoc]
  · simp [releaseEntry, String.append_assoc]

theorem length_le_one_of_nodup_map {α β : Type} (f : α → β) (v : β) (l : List α)
    (hn : (l.map f).Nodup) (hv : ∀ x ∈ l, f x = v) : l.length ≤ 1 := by
  match l, hn, hv with
  | [], _, _ => simp
  | [_], _, _ => simp
  | a :: b :: rest, hn, hv =>
    have ha := hv a (by simp)
    have hb := hv b (by simp)
    simp only [List.map_cons, List.nodup_cons, List.mem_cons, not_or] at hn
    exact absurd (ha.trans hb.symm) hn.1.1

theorem entriesOf_length_le_one (st : Store) (h : Reachable st) (pid kind : String) :
    (entriesOf st pid kind).length ≤ 1 := by
  obtain ⟨_, p2⟩ := reachable_postingInv st h
  obtain ⟨s1, _, _⟩ := reachable_ledgerShape st h
  apply length_le_one_of_nodup_map LedgerEntry.PostingID (pid ++ ":" ++ kind)
  · exact (List.Nodup.sublist ((List.filter_sublist _).map _) p2)
  · intro x hx
    simp only [entriesOf, List.mem_filter, decide_eq_true_eq] at hx
    obtain ⟨hx1, hx2, hx3⟩ := hx
    rw [template_postingID x (s1 x hx1), hx2, hx3]

/-- C11. Posting uniqueness: `appendEntry` with an entry whose posting id is already
recorded returns the store unchanged (entry log and balances included); and in every
reachable store the posting ids of the entries of the log are pairwise distinct, so for
every payment id there is at most one HOLD, one SETTLE and one RELEASE entry. -/
theorem posting_uniqueness (st : Store) (e : LedgerEntry) (pid : String) :
    (st.ledgerByPosting.has e.PostingID = true → appendEntry st e = st) ∧
    (Reachable st →
      (st.ledgerEntries.map LedgerEntry.PostingID).Nodup ∧
      (entriesOf st pid "HOLD").length ≤ 1 ∧
      (entriesOf st pid "SETTLE").length ≤ 1 ∧
      (entriesOf st pid "RELEASE").length ≤ 1) :=
  ⟨appendEntry_recorded st e, fun h =>
    ⟨(reachable_postingInv st h).2, entriesOf_length_le_one st h pid "HOLD",
      entriesOf_length_le_one st h pid "SETTLE", entriesOf_length_le_one st h pid "RELEASE"⟩⟩

/-- C11 at the store where `p1` was confirmed: its SETTLE posting id is recorded, a
second SETTLE is a no-op, and the log holds one HOLD and one SETTLE of `p1`. -/
theorem posting_uniqueness_witness :
    appendEntry storeConfirmed (settleEntry "p1" 1000 9) = storeConfirmed ∧
    (storeConfirmed.ledgerEntries.map LedgerEntry.PostingID).Nodup ∧
    (entriesOf storeConfirmed "p1" "SETTLE").length ≤ 1 :=
  ⟨(posting_uniqueness storeConfirmed (settleEntry "p1" 1000 9) "p1").1 (by decide),
    ((posting_uniqueness storeConfirmed (settleEntry "p1" 1000 9) "p1").2
      storeConfirmed_reachable).1,
    ((posting_uniqueness storeConfirmed (settleEntry "p1" 1000 9) "p1").2
      storeConfirmed_reachable).2.2.1⟩

/-! ## Conservation after a late provider reply -/

theorem runRejectThenConfirm_reachable : Reachable (run Store.empty runRejectThenConfirm) :=
  Reachable.webhook _ ⟨"POST", some confirmEvent⟩ 4
    (Reachable.providerReply _ "p1" acceptedReply 3
      (Reachable.webhook _ ⟨"POST", some rejectEvent⟩ 2
        (Reachable.send Store.empty ⟨"POST", "k1", some sampleRequest⟩ "p1" 1
          Reachable.init rfl))
      (by decide))

theorem runConfirmThenReject_reachable : Reachable (run Store.empty runConfirmThenReject) :=
  Reachable.webhook _ ⟨"POST", some rejectEvent⟩ 4
    (Reachable.providerReply _ "p1" acceptedReply 3
      (Reachable.webhook _ ⟨"POST", some confirmEvent⟩ 2
        (Reachable.send Store.empty ⟨"POST", "k1", some sampleRequest⟩ "p1" 1
          Reachable.init rfl))
      (by decide))

/-- C12, the code at the failing input: one submit of amount 1000, a `REJECTED`
webhook, the single provider-reply commit of the payment, then a `CONFIRMED` webhook.
The payment ends `CONFIRMED` with entries HOLD, RELEASE, SETTLE, which net to 0 on
`CUSTOMER_AVAILABLE`, 1000 on `PIX_CLEARING` and -1000 on `CUSTOMER_HELD`. -/
theorem confirmed_payment_not_conserved :
    Reachable (run Store.empty runRejectThenConfirm) ∧
    repliesFor runRejectThenConfirm "p1" = 1 ∧
    ((run Store.empty runRejectThenConfirm).byPaymentID.read "p1").map
      (fun p => (p.Status, p.Amount)) = some ("CONFIRMED", 1000) ∧
    ((run Store.empty runRejectThenConfirm).ledgerEntries.filter
      (fun e => decide (e.PaymentID = "p1"))).map LedgerEntry.Kind
      = ["HOLD", "RELEASE", "SETTLE"] ∧
    netOf (run Store.empty runRejectThenConfirm) "p1" "CUSTOMER_AVAILABLE" = 0 ∧
    netOf (run Store.empty runRejectThenConfirm) "p1" "PIX_CLEARING" = 1000 ∧
    netOf (run Store.empty runRejectThenConfirm) "p1" "CUSTOMER_HELD" = -1000 :=
  ⟨runRejectThenConfirm_reachable, (by decide), (by decide), (by decide), (by decide),
    (by decide), (by decide)⟩

/-- C13, the code at the failing input: one submit of amount 1000, a `CONFIRMED`
webhook, the single provider-reply commit of the payment, then a `REJECTED` webhook.
The payment ends `REJECTED` with entries HOLD, SETTLE, RELEASE, which net to 1000 on
`PIX_CLEARING` and -1000 on `CUSTOMER_HELD`. -/
theorem rejected_payment_not_conserved :
    Reachable (run Store.empty runConfirmThenReject) ∧
    repliesFor runConfirmThenReject "p1" = 1 ∧
    ((run Store.empty runConfirmThenReject).byPaymentID.read "p1").map
      (fun p => (p.Status, p.Amount)) = some ("REJECTED", 1000) ∧
    ((run Store.empty runConfirmThenReject).ledgerEntries.filter
      (fun e => decide (e.PaymentID = "p1"))).map LedgerEntry.Kind
      = ["HOLD", "SETTLE", "RELEASE"] ∧
    netOf (run Store.empty runConfirmThenReject) "p1" "CUSTOMER_AVAILABLE" = 0 ∧
    netOf (run Store.empty runConfirmThenReject) "p1" "PIX_CLEARING" = 1000 ∧
    netOf (run Store.empty runConfirmThenReject) "p1" "CUSTOMER_HELD" = -1000 :=
  ⟨runConfirmThenReject_reachable, (by decide), (by decide), (by decide), (by decide),
    (by decide), (by decide)⟩

/-! ## Provider replies with an error status -/

/-- C14, the code at the failing input: `p1` is `CREATED` and the provider answers 500
with a body that carries no `provider_payment_id`. `callProvider` records no provider id
and posts no entry, but writes status `PENDING`. A transport error leaves the store as
it was. -/
theorem http_error_reply_sets_pending :
    (storeCreated.byPaymentID.read "p1").map Payment.Status = some "CREATED" ∧
    ((callProvider storeCreated "p1" http500Reply 2).byPaymentID.read "p1").map
      (fun p => (p.Status, p.ProviderPaymentID)) = some ("PENDING", "") ∧
    (callProvider storeCreated "p1" http500Reply 2).byProviderID = storeCreated.byProviderID ∧
    (callProvider storeCreated "p1" http500Reply 2).ledgerEntries = storeCreated.ledgerEntries ∧
    callProvider storeCreated "p1" ProviderReply.transportError 2 = storeCreated := by
  decide

/-! ## Posting and transition of `applyWebhook` -/

/-- C18. Webhook posting and transition on a payment `p` stored under `pid` with status
`CREATED` or `PENDING`: type `CONFIRMED` appends the SETTLE entry (posting id
`payment_id:SETTLE`, DEBIT `CUSTOMER_HELD`, CREDIT `PIX_CLEARING`, amount of `p`) unless
that posting id is recorded, and sets status `CONFIRMED`; type `REJECTED` appends the
RELEASE entry (DEBIT `CUSTOMER_HELD`, CREDIT `CUSTOMER_AVAILABLE`) unless recorded, and
sets status `REJECTED`; type `PENDING` leaves the ledger alone and leaves the status
`PENDING`; any other type leaves the store unchanged. -/
theorem webhook_posting_and_transition (st : Store) (pid : String) (p : Payment) (now : Time)
    (ty : String) (hp : st.byPaymentID.read pid = some p)
    (hst : p.Status = "CREATED" ∨ p.Status = "PENDING") :
    ((applyWebhook st pid "CONFIRMED" now).ledgerEntries =
        (if st.ledgerByPosting.has (p.PaymentID ++ ":SETTLE") then st.ledgerEntries
         else st.ledgerEntries ++ [⟨p.PaymentID ++ ":SETTLE", p.PaymentID, now, "SETTLE",
           [⟨"CUSTOMER_HELD", "DEBIT", p.Amount⟩, ⟨"PIX_CLEARING", "CREDIT", p.Amount⟩]⟩]) ∧
      (applyWebhook st pid "CONFIRMED" now).byPaymentID.read pid
        = some { p with Status := "CONFIRMED", UpdatedAt := now }) ∧
    ((applyWebhook st pid "REJECTED" now).ledgerEntries =
        (if st.ledgerByPosting.has (p.PaymentID ++ ":RELEASE") then st.ledgerEntries
         else st.ledgerEntries ++ [⟨p.PaymentID ++ ":RELEASE", p.PaymentID, now, "RELEASE",
           [⟨"CUSTOMER_HELD", "DEBIT", p.Amount⟩, ⟨"CUSTOMER_AVAILABLE", "CREDIT", p.Amount⟩]⟩]) ∧
      (applyWebhook st pid "REJECTED" now).byPaymentID.read pid
        = some { p with Status := "REJECTED", UpdatedAt := now }) ∧
    ((applyWebhook st pid "PENDING" now).ledgerEntries = st.ledgerEntries ∧
      (applyWebhook st pid "PENDING" now).ledgerByPosting = st.ledgerByPosting ∧
      (applyWebhook st pid "PENDING" now).balances = st.balances ∧
      (applyWebhook st pid "PENDING" now).byPaymentID.read pid
        = some { p with Status := "PENDING", UpdatedAt := now }) ∧
    (ty ≠ "PENDING" ∧ ty ≠ "CONFIRMED" ∧ ty ≠ "REJECTED" → applyWebhook st pid ty now = st) := by
  have hc : ¬ (p.Status = "CONFIRMED" ∨ p.Status = "REJECTED") := by
    rcases hst with h | h <;> simp [h]
  refine ⟨⟨?_, ?_⟩, ⟨?_, ?_⟩, ⟨?_, ?_, ?_, ?_⟩, ?_⟩
  · rw [applyWebhook_eq st pid "CONFIRMED" now p hp (by decide) hc]
    simp [normalizeStatus, postFor, addLedgerSettle, appendEntry_ledgerEntries, settleEntry]
  · rw [applyWebhook_eq st pid "CONFIRMED" now p hp (by decide) hc]
    simp [normalizeStatus, GoMap.read_write_same]
  · rw [applyWebhook_eq st pid "REJECTED" now p hp (by decide) hc]
    simp [normalizeStatus, postFor, addLedgerRelease, appendEntry_ledgerEntries, releaseEntry]
  · rw [applyWebhook_eq st pid "REJECTED" now p hp (by decide) hc]
    simp [normalizeStatus, GoMap.read_write_same]
  · rw [applyWebhook_eq st pid "PENDING" now p hp (by decide) hc]
    simp [normalizeStatus, postFor]
  · rw [applyWebhook_eq st pid "PENDING" now p hp (by decide) hc]
    simp [normalizeStatus, postFor]
  · rw [applyWebhook_eq st pid "PENDING" now p hp (by decide) hc]
    simp [normalizeStatus, postFor]
  · rw [applyWebhook_eq st pid "PENDING" now p hp (by decide) hc]
    simp [normalizeStatus, GoMap.read_write_same]
  · rintro ⟨h1, h2, h3⟩
    exact applyWebhook_unknown st pid ty now (by simp [normalizeStatus, h1, h2, h3])

/-- C18 at the store where `p1` is `CREATED`: a `CONFIRMED` webhook appends the SETTLE
entry of amount 1000 after the HOLD. -/
theorem webhook_posting_and_transition_witness :
    (applyWebhook storeCreated "p1" "CONFIRMED" 5).ledgerEntries =
      (if storeCreated.ledgerByPosting.has ("p1" ++ ":SETTLE") then storeCreated.ledgerEntries
       else storeCreated.ledgerEntries ++ [⟨"p1" ++ ":SETTLE", "p1", 5, "SETTLE",
         [⟨"CUSTOMER_HELD", "DEBIT", 1000⟩, ⟨"PIX_CLEARING", "CREDIT", 1000⟩]⟩]) :=
  (webhook_posting_and_transition storeCreated "p1" ⟨"p1", "", "k1", 1000, "CREATED", 1, 1⟩ 5
    "PENDING" (by decide) (Or.inl rfl)).1.1

/-! ## Dual-key payment resolution -/

theorem lookupPayment_eq_read (st : Store) (index : GoMap String) (key : String)
    (h0 : index.read "" = none) (hv : ∀ kv ∈ index, st.byPaymentID.has kv.2 = true) :
    lookupPayment st index key = index.read key := by
  unfold lookupPayment
  by_cases hk : key = ""
  · subst hk; simp [h0]
  · simp only [ne_eq, hk, not_false_eq_true, if_true]
    cases hr : index.read key with
    | none => rfl
    | some pid =>
      have := hv (key, pid) (GoMap.mem_of_read _ _ _ hr)
      simp only at this
      simp [this]

/-- C19. Dual-key payment resolution: in a store whose webhook indexes resolve, an event
with an unseen id is applied by `handleWebhook` to the payment indexed under its
`provider_payment_id` when `byProviderID` has that key; otherwise to the payment indexed
under its `correlation_id` when `byCorrelationID` has that key; and when neither index has
the key, payments, ledger entries and balances stay as they were. -/
theorem dual_key_resolution (s : Store) (ev : WebhookEvent) (now : Time)
    (hidx : IndexesResolve s) (hunseen : s.seenEventIDs.has ev.EventID = false) :
    match s.byProviderID.read ev.ProviderPaymentID with
    | some pid =>
      (handleWebhook s ⟨"POST", some ev⟩ now).1
        = applyWebhook (markSeen s ev.EventID) pid ev.Typ now
    | none =>
      match s.byCorrelationID.read ev.CorrelationID with
      | some pid =>
        (handleWebhook s ⟨"POST", some ev⟩ now).1
          = applyWebhook (markSeen s ev.EventID) pid ev.Typ now
      | none =>
        (handleWebhook s ⟨"POST", some ev⟩ now).1.byPaymentID = s.byPaymentID ∧
        (handleWebhook s ⟨"POST", some ev⟩ now).1.ledgerEntries = s.ledgerEntries ∧
        (handleWebhook s ⟨"POST", some ev⟩ now).1.balances = s.balances := by
  obtain ⟨h1, h2, h3, h4⟩ := hidx
  have hd := deliver_unseen s ev now hunseen
  unfold deliver at hd
  have hres : resolvePayment s ev =
      match s.byProviderID.read ev.ProviderPaymentID with
      | some pid => some pid
      | none => s.byCorrelationID.read ev.CorrelationID := by
    unfold resolvePayment
    rw [lookupPayment_eq_read s _ _ h1 h3, lookupPayment_eq_read s _ _ h2 h4]
  rw [hd, hres]
  cases s.byProviderID.read ev.ProviderPaymentID with
  | some pid => rfl
  | none =>
    cases s.byCorrelationID.read ev.CorrelationID with
    | some pid => rfl
    | none => exact ⟨rfl, rfl, rfl⟩

/-- C19 at the store where the provider reply of `p1` was committed: an event carrying
`pp1` and an unknown correlation id is applied to `p1`. -/
theorem dual_key_resolution_witness :
    (handleWebhook storePending ⟨"POST", some confirmEventByProvider⟩ 5).1
      = applyWebhook (markSeen storePending "e7") "p1" "CONFIRMED" 5 :=
  dual_key_resolution storePending confirmEventByProvider 5 (by decide) (by decide)

/-! ## Webhook handlers under interleaving -/

@[simp] theorem step_done (st : Store) (now : Time) :
    WebhookThread.step st ⟨.done, now⟩ = (st, ⟨.done, now⟩) := rfl

/-- A goroutine that runs alone does what the atomic `handleWebhook` does. -/
theorem runAlone_eq_deliver (st : Store) (ev : WebhookEvent) (now : Time) :
    WebhookThread.runAlone st ⟨.start ev, now⟩ = deliver st ev now := by
  cases hs : st.seenEventIDs.has ev.EventID with
  | true =>
    rw [deliver_seen st ev now hs]
    simp [WebhookThread.runAlone, WebhookThread.step, hs]
  | false =>
    rw [deliver_unseen st ev now hs]
    have hr : resolvePayment (markSeen st ev.EventID) ev = resolvePayment st ev :=
      resolvePayment_congr _ _ _ rfl rfl rfl
    cases hres : resolvePayment st ev with
    | none => simp [WebhookThread.runAlone, WebhookThread.step, hs, hr, hres]
    | some pid =>
      simp only
      cases hp : st.byPaymentID.read pid with
      | none =>
        rw [applyWebhook_missing _ _ _ _ (by simpa using hp)]
        simp [WebhookThread.runAlone, WebhookThread.step, hs, hr, hres, hp]
      | some p =>
        by_cases hty : normalizeStatus ev.Typ = ""
        · rw [applyWebhook_unknown _ _ _ _ hty]
          simp [WebhookThread.runAlone, WebhookThread.step, hs, hr, hres, hp, hty]
        · by_cases hc : p.Status = "CONFIRMED" ∨ p.Status = "REJECTED"
          · rw [applyWebhook_terminal (markSeen st ev.EventID) pid _ _ p (by simpa using hp) hc]
            simp [WebhookThread.runAlone, WebhookThread.step, hs, hr, hres, hp, hty, hc]
          · rw [applyWebhook_eq (markSeen st ev.EventID) pid _ _ p (by simpa using hp) hty hc]
            simp [WebhookThread.runAlone, WebhookThread.step, writeStatus, hs, hr, hres, hp, hty,
              hc]

/-- C21, the code at the failing interleaving: `p1` is `PENDING`; two goroutines serve
a `CONFIRMED` and a `REJECTED` webhook for it and alternate at the critical sections.
Both read status `PENDING` before either writes, so both post: the log ends HOLD,
SETTLE, RELEASE with status `REJECTED`. Run one after the other (in either order) the
same two requests leave HOLD, SETTLE with `CONFIRMED`, or HOLD, RELEASE with
`REJECTED`. -/
theorem interleaved_webhooks_post_settle_and_release :
    ((runSchedule storePending racingThreads alternating).2.map WebhookThread.pc
      = [WebhookPC.done, WebhookPC.done]) ∧
    (((runSchedule storePending racingThreads alternating).1.byPaymentID.read "p1").map
      Payment.Status = some "REJECTED") ∧
    ((runSchedule storePending racingThreads alternating).1.ledgerEntries.map LedgerEntry.Kind
      = ["HOLD", "SETTLE", "RELEASE"]) ∧
    ((runSchedule storePending racingThreads [0, 0, 0, 0, 1, 1, 1, 1]).1
      = deliver (deliver storePending confirmEvent 5) rejectEvent 6) ∧
    ((runSchedule storePending racingThreads [1, 1, 1, 1, 0, 0, 0, 0]).1
      = deliver (deliver storePending rejectEvent 6) confirmEvent 5) ∧
    ((deliver (deliver storePending confirmEvent 5) rejectEvent 6).ledgerEntries.map
      LedgerEntry.Kind = ["HOLD", "SETTLE"]) ∧
    ((deliver (deliver storePending rejectEvent 6) confirmEvent 5).ledgerEntries.map
      LedgerEntry.Kind = ["HOLD", "RELEASE"]) := by
  decide

/-! ## Index consistency along runs -/

theorem GoMap.mem_write {β : Type} (m : GoMap β) (k : String) (v : β) (x : String × β)
    (h : x ∈ m.write k v) : x = (k, v) ∨ x ∈ m := by
  induction m with
  | nil => simpa [GoMap.write] using h
  | cons hd tl ih =>
    obtain ⟨a, y⟩ := hd
    by_cases hk : a = k
    · simp only [GoMap.write, hk, if_true, List.mem_cons] at h
      rcases h with h | h
      · exact Or.inl h
      · exact Or.inr (List.mem_cons_of_mem _ h)
    · simp only [GoMap.write, hk, if_false, List.mem_cons] at h
      rcases h with h | h
      · exact Or.inr (by rw [h]; exact List.mem_cons_self _ _)
      · rcases ih h with h2 | h2
        · exact Or.inl h2
        · exact Or.inr (List.mem_cons_of_mem _ h2)

theorem GoMap.has_write_mono {β : Type} (m : GoMap β) (k k2 : String) (v : β)
    (h : m.has k2 = true) : (m.write k v).has k2 = true := by
  rw [GoMap.has_write, h, Bool.or_true]

/-- Rewriting the payment stored under `pid` without touching its `PaymentID` and
`IdempotencyKey`, and indexing at most `pid` itself under a new provider id, keeps the
store consistent. -/
theorem consistent_update (s t : Store) (pid : String) (p p2 : Payment)
    (hs : KeysConsistent s ∧ IndexConsistent s)
    (hp : s.byPaymentID.read pid = some p)
    (h1 : t.byPaymentID = s.byPaymentID.write pid p2)
    (h2 : p2.PaymentID = p.PaymentID) (h3 : p2.IdempotencyKey = p.IdempotencyKey)
    (h4 : t.byIdempotencyKey = s.byIdempotencyKey)
    (h5 : t.byCorrelationID = s.byCorrelationID)
    (h6 : ∀ kv ∈ t.byProviderID, kv ∈ s.byProviderID ∨ kv.2 = pid) :
    KeysConsistent t ∧ IndexConsistent t := by
  obtain ⟨hk, i1, i2, i3, i4, i5⟩ := hs
  have hmem := GoMap.mem_of_read _ _ _ hp
  have hpid : p.PaymentID = pid := hk (pid, p) hmem
  have hhas : ∀ k, s.byPaymentID.has k = true → t.byPaymentID.has k = true := by
    intro k h
    rw [h1]
    exact GoMap.has_write_mono _ _ _ _ h
  have hhaspid : s.byPaymentID.has pid = true := by simp [GoMap.has, hp]
  refine ⟨?_, ?_, ?_, ?_, ?_, ?_⟩
  · intro kv hkv
    rw [h1] at hkv
    rcases GoMap.mem_write _ _ _ _ hkv with h | h
    · rw [h]; exact h2.trans hpid
    · exact hk kv h
  · intro kv hkv
    rw [h4] at hkv
    exact hhas _ (i1 kv hkv)
  · intro kv hkv
    rcases h6 kv hkv with h | h
    · exact hhas _ (i2 kv h)
    · rw [h]; exact hhas _ hhaspid
  · intro kv hkv
    rw [h5] at hkv
    exact hhas _ (i3 kv hkv)
  · intro kv hkv
    rw [h1] at hkv
    rw [h5]
    rcases GoMap.mem_write _ _ _ _ hkv with h | h
    · rw [h]; exact i4 (pid, p) hmem
    · exact i4 kv h
  · intro kv hkv
    rw [h1] at hkv
    rw [h4]
    rcases GoMap.mem_write _ _ _ _ hkv with h | h
    · rw [h]
      simp only
      rw [h2, h3]
      exact i5 (pid, p) hmem
    · exact i5 kv h

theorem consistent_congr (s t : Store) (hs : KeysConsistent s ∧ IndexConsistent s)
    (h1 : t.byPaymentID = s.byPaymentID) (h2 : t.byIdempotencyKey = s.byIdempotencyKey)
    (h3 : t.byProviderID = s.byProviderID) (h4 : t.byCorrelationID = s.byCorrelationID) :
    KeysConsistent t ∧ IndexConsistent t := by
  unfold KeysConsistent IndexConsistent at *
  rw [h1, h2, h3, h4]
  exact hs

theorem consistent_handleSend (s : Store) (r : SendHttp) (newId : String) (now : Time)
    (hs : KeysConsistent s ∧ IndexConsistent s) :
    KeysConsistent (handleSend s r newId now).store ∧
      IndexConsistent (handleSend s r newId now).store := by
  obtain ⟨m, idem, body⟩ := r
  by_cases hm : m = "POST"
  swap
  · simpa [handleSend, hm] using hs
  subst hm
  by_cases hk : idem = ""
  · simpa [handleSend, hk] using hs
  cases body with
  | none => simpa [handleSend, hk] using hs
  | some req =>
    by_cases hv : validBody req
    swap
    · rw [handleSend_invalid s idem req newId now hk hv]; exact hs
    cases hi : s.byIdempotencyKey.read idem with
    | some pid =>
      cases hp : s.byPaymentID.read pid with
      | some p => rw [handleSend_replay s idem req newId now pid p hk hv hi hp]; exact hs
      | none =>
        have : (handleSend s ⟨"POST", idem, some req⟩ newId now).store = s := by
          unfold validBody at hv
          simp [handleSend, hk, hv, hi, hp]
        rw [this]; exact hs
    | none =>
      rw [handleSend_create s idem req newId now hk hv hi]
      obtain ⟨hkc, i1, i2, i3, i4, i5⟩ := hs
      simp only [addLedgerHold]
      refine ⟨?_, ?_, ?_, ?_, ?_, ?_⟩
      · intro kv hkv
        simp only [appendEntry_byPaymentID] at hkv
        rcases GoMap.mem_write _ _ _ _ hkv with h | h
        · rw [h]
        · exact hkc kv h
      · intro kv hkv
        simp only [appendEntry_byIdempotencyKey, appendEntry_byPaymentID] at hkv ⊢
        rcases GoMap.mem_write _ _ _ _ hkv with h | h
        · rw [h]; exact GoMap.has_write_same _ _ _
        · exact GoMap.has_write_mono _ _ _ _ (i1 kv h)
      · intro kv hkv
        simp only [appendEntry_byProviderID, appendEntry_byPaymentID] at hkv ⊢
        exact GoMap.has_write_mono _ _ _ _ (i2 kv hkv)
      · intro kv hkv
        simp only [appendEntry_byCorrelationID, appendEntry_byPaymentID] at hkv ⊢
        rcases GoMap.mem_write _ _ _ _ hkv with h | h
        · rw [h]; exact GoMap.has_write_same _ _ _
        · exact GoMap.has_write_mono _ _ _ _ (i3 kv h)
      · intro kv hkv
        simp only [appendEntry_byCorrelationID, appendEntry_byPaymentID] at hkv ⊢
        rw [GoMap.read_write]
        rcases GoMap.mem_write _ _ _ _ hkv with h | h
        · rw [h]; simp
        · by_cases hn : newId = kv.1
          · simp [hn]
          · simp only [hn, if_false]; exact i4 kv h
      · intro kv hkv
        simp only [appendEntry_byIdempotencyKey, appendEntry_byPaymentID] at hkv ⊢
        rw [GoMap.read_write]
        rcases GoMap.mem_write _ _ _ _ hkv with h | h
        · rw [h]; simp
        · have hold := i5 kv h
          by_cases hn : idem = kv.2.IdempotencyKey
          · rw [← hn, hi] at hold
            exact absurd hold (by simp)
          · simp only [hn, if_false]; exact hold

theorem consistent_callProvider (s : Store) (pid : String) (reply : ProviderReply) (now : Time)
    (hs : KeysConsistent s ∧ IndexConsistent s) :
    KeysConsistent (callProvider s pid reply now) ∧
      IndexConsistent (callProvider s pid reply now) := by
  cases reply with
  | transportError => exact hs
  | response code body =>
    cases hp : s.byPaymentID.read pid with
    | none => simpa [callProvider, hp] using hs
    | some p =>
      have hpid : p.PaymentID = pid := hs.1 (pid, p) (GoMap.mem_of_read _ _ _ hp)
      by_cases hb : body.ProviderPaymentID = ""
      · apply consistent_update s _ pid p { p with Status := "PENDING", UpdatedAt := now } hs hp
        · simp [callProvider, hp, hb]
        · rfl
        · rfl
        · simp
        · simp [callProvider, hp, hb]
        · intro kv hkv
          left
          simpa [callProvider, hp, hb] using hkv
      · apply consistent_update s _ pid p
          { p with ProviderPaymentID := body.ProviderPaymentID, Status := "PENDING",
                   UpdatedAt := now } hs hp
        · simp [callProvider, hp, hb]
        · rfl
        · rfl
        · simp
        · simp [callProvider, hp, hb]
        · intro kv hkv
          have hkv2 : kv ∈ s.byProviderID.write body.ProviderPaymentID p.PaymentID := by
            simpa [callProvider, hp, hb] using hkv
          rcases GoMap.mem_write _ _ _ _ hkv2 with h | h
          · right; rw [h]; exact hpid
          · left; exact h

theorem deliver_byProviderID (s : Store) (ev : WebhookEvent) (now : Time) :
    (deliver s ev now).byProviderID = s.byProviderID := by
  cases h : s.seenEventIDs.has ev.EventID with
  | true => rw [deliver_seen s ev now h]
  | false =>
    rw [deliver_unseen s ev now h]
    cases resolvePayment s ev <;> simp

theorem deliver_byCorrelationID (s : Store) (ev : WebhookEvent) (now : Time) :
    (deliver s ev now).byCorrelationID = s.byCorrelationID := by
  cases h : s.seenEventIDs.has ev.EventID with
  | true => rw [deliver_seen s ev now h]
  | false =>
    rw [deliver_unseen s ev now h]
    cases resolvePayment s ev <;> simp

theorem consistent_handleWebhook (s : Store) (r : WebhookHttp) (now : Time)
    (hs : KeysConsistent s ∧ IndexConsistent s) :
    KeysConsistent (handleWebhook s r now).1 ∧ IndexConsistent (handleWebhook s r now).1 := by
  rcases handleWebhook_store s r now with h | ⟨ev, _, h⟩
  · rw [h]; exact hs
  · rw [h]
    rcases deliver_effect s ev now with ⟨h1, _⟩ | ⟨pid2, q, hq, _, _, h1⟩
    · exact consistent_congr s _ hs h1 (deliver_byIdempotencyKey s ev now)
        (deliver_byProviderID s ev now) (deliver_byCorrelationID s ev now)
    · apply consistent_update s _ pid2 q
        { q with Status := normalizeStatus ev.Typ, UpdatedAt := now } hs hq
      · rw [h1]
      · rfl
      · rfl
      · exact deliver_byIdempotencyKey s ev now
      · exact deliver_byCorrelationID s ev now
      · intro kv hkv
        left
        rw [deliver_byProviderID] at hkv
        exact hkv

theorem reachable_consistent (st : Store) (h : Reachable st) :
    KeysConsistent st ∧ IndexConsistent st := by
  induction h with
  | init =>
    refine ⟨?_, ?_, ?_, ?_, ?_, ?_⟩ <;> intro kv hkv <;> simp [Store.empty] at hkv
  | send s r newId now _ _ ih => exact consistent_handleSend s r newId now ih
  | providerReply s pid reply now _ _ ih => exact consistent_callProvider s pid reply now ih
  | webhook s r now _ ih => exact consistent_handleWebhook s r now ih

theorem handleSend_no_nilDeref (s : Store) (r : SendHttp) (newId : String) (now : Time)
    (hs : IndexConsistent s) : (handleSend s r newId now).response ≠ SendResponse.nilDeref := by
  obtain ⟨m, idem, body⟩ := r
  by_cases hm : m = "POST"
  swap
  · simp [handleSend, hm]
  subst hm
  by_cases hk : idem = ""
  · simp [handleSend, hk]
  cases body with
  | none => simp [handleSend, hk]
  | some req =>
    by_cases hv : validBody req
    swap
    · rw [handleSend_invalid s idem req newId now hk hv]; simp
    cases hi : s.byIdempotencyKey.read idem with
    | some pid =>
      obtain ⟨p, hp⟩ := read_of_idemIndexed s idem pid hs.1 hi
      rw [handleSend_replay s idem req newId now pid p hk hv hi hp]; simp
    | none => rw [handleSend_create s idem req newId now hk hv hi]; simp

/-- C22. Index consistency: in every store reachable from the empty store by submits,
provider-reply commits and webhook requests, every payment id held as a value by
`byIdempotencyKey`, `byProviderID` or `byCorrelationID` is a key of `byPaymentID`; hence
the replay branch of `handleSend` never dereferences a nil payment, and an index hit of
`handleWebhook` always finds its payment; `byCorrelationID` maps every payment id to
itself and `byIdempotencyKey` maps each payment's `IdempotencyKey` to its `PaymentID`. -/
theorem index_consistency (st : Store) (h : Reachable st) :
    (∀ kv ∈ st.byIdempotencyKey, st.byPaymentID.has kv.2 = true) ∧
    (∀ kv ∈ st.byProviderID, st.byPaymentID.has kv.2 = true) ∧
    (∀ kv ∈ st.byCorrelationID, st.byPaymentID.has kv.2 = true) ∧
    (∀ r newId now, (handleSend st r newId now).response ≠ SendResponse.nilDeref) ∧
    (∀ key pid, st.byProviderID.read key = some pid ∨ st.byCorrelationID.read key = some pid →
      ∃ p, st.byPaymentID.read pid = some p) ∧
    (∀ kv ∈ st.byPaymentID, st.byCorrelationID.read kv.1 = some kv.1) ∧
    (∀ kv ∈ st.byPaymentID,
      st.byIdempotencyKey.read kv.2.IdempotencyKey = some kv.2.PaymentID) := by
  obtain ⟨_, hi⟩ := reachable_consistent st h
  obtain ⟨i1, i2, i3, i4, i5⟩ := hi
  refine ⟨i1, i2, i3, fun r newId now => handleSend_no_nilDeref st r newId now ⟨i1, i2, i3, i4, i5⟩,
    ?_, i4, i5⟩
  intro key pid hk
  have hhas : st.byPaymentID.has pid = true := by
    rcases hk with hk | hk
    · exact i2 (key, pid) (GoMap.mem_of_read _ _ _ hk)
    · exact i3 (key, pid) (GoMap.mem_of_read _ _ _ hk)
  simp only [GoMap.has] at hhas
  exact Option.isSome_iff_exists.mp hhas

/-- C22 at the store where the provider reply of `p1` was committed: the provider id
`pp1` is indexed to a payment that exists. -/
theorem index_consistency_witness : ∃ p, storePending.byPaymentID.read "p1" = some p :=
  (index_consistency storePending
    (Reachable.providerReply storeCreated "p1" acceptedReply 2 storeCreated_reachable
      (by decide))).2.2.2.2.1 "pp1" "p1" (Or.inl (by decide))

/-! ## Events that consume their id without effect -/

/-- C23. Unresolved or ignored events still consume their `event_id`: for every store
and event with an unseen id, `handleWebhook` adds the id to the seen set, and when the
event resolves to no payment or has an unknown type that is all it does. Hence there are
a store and an event such that a first delivery resolves to no payment, the payment
becomes resolvable afterwards (the provider reply is committed), and a second delivery
of the same event leaves the store unchanged with the payment `PENDING`, while a single
delivery at that later point confirms the payment. -/
theorem unresolved_event_consumes_id (s : Store) (ev : WebhookEvent) (now : Time)
    (hunseen : s.seenEventIDs.has ev.EventID = false) :
    (handleWebhook s ⟨"POST", some ev⟩ now).1.seenEventIDs.has ev.EventID = true ∧
    (resolvePayment s ev = none ∨ normalizeStatus ev.Typ = "" →
      (handleWebhook s ⟨"POST", some ev⟩ now).1 = markSeen s ev.EventID) ∧
    ∃ (s0 : Store) (e : WebhookEvent) (pid : String) (reply : ProviderReply) (t1 t2 t3 : Time),
      s0.seenEventIDs.has e.EventID = false ∧
      resolvePayment s0 e = none ∧
      resolvePayment (callProvider (deliver s0 e t1) pid reply t2) e = some pid ∧
      deliver (callProvider (deliver s0 e t1) pid reply t2) e t3
        = callProvider (deliver s0 e t1) pid reply t2 ∧
      ((callProvider (deliver s0 e t1) pid reply t2).byPaymentID.read pid).map Payment.Status
        = some "PENDING" ∧
      ((deliver (callProvider s0 pid reply t2) e t3).byPaymentID.read pid).map Payment.Status
        = some "CONFIRMED" := by
  refine ⟨deliver_seenEventIDs s ev now, ?_, ?_⟩
  · intro h
    have hd := deliver_unseen s ev now hunseen
    unfold deliver at hd
    rw [hd]
    rcases h with h | h
    · rw [h]
    · cases resolvePayment s ev with
      | none => rfl
      | some pid => exact applyWebhook_unknown _ _ _ _ h
  · exact ⟨storeCreated, providerOnlyEvent, "p1", acceptedReply, 2, 3, 4,
      (by decide), (by decide), (by decide), (by decide), (by decide), (by decide)⟩

/-- C23 at the store where `p1` is `CREATED` and its provider id is not indexed yet: the
event that names `pp1` only resolves to no payment and is marked seen. -/
theorem unresolved_event_consumes_id_witness :
    (handleWebhook storeCreated ⟨"POST", some providerOnlyEvent⟩ 2).1
      = markSeen storeCreated "e9" :=
  (unresolved_event_consumes_id storeCreated providerOnlyEvent 2 (by decide)).2.1
    (Or.inl (by decide))

end Participant

namespace Provider

/-! ## Order intake -/

theorem handleSend_known (cfg : Config) (st : Store) (r : SendHttp) (d : SendDraws)
    (req : SendRequest) (pid : String) (p : Payment) (hm : r.Method = "POST")
    (hb : r.Body = some req) (hk : req.IdempotencyKey ≠ "")
    (hi : st.byIdemKey.read req.IdempotencyKey = some pid) (hp : st.byID.read pid = some p) :
    handleSend cfg st r d = ⟨st, .json 200 ⟨p.ProviderPaymentID, p.Status⟩, none⟩ := by
  simp [handleSend, hm, hb, hk, hi, hp]

theorem handleSend_new (cfg : Config) (st : Store) (r : SendHttp) (d : SendDraws)
    (req : SendRequest) (hm : r.Method = "POST") (hb : r.Body = some req)
    (hk : req.IdempotencyKey ≠ "") (hi : st.byIdemKey.read req.IdempotencyKey = none) :
    handleSend cfg st r d =
      ⟨{ byID := st.byID.write d.newProviderID
            ⟨d.newProviderID, req.IdempotencyKey, req.TxID, req.Amount, req.ReceiverKey,
              req.Description, req.ClientRef, "PENDING", d.now, d.now⟩
         byIdemKey := st.byIdemKey.write req.IdempotencyKey d.newProviderID },
        (answerFor (scenarioFor cfg r d) d.newProviderID
          (if r.CorrelationID = "" then d.newCorrelationID else r.CorrelationID)).1,
        (answerFor (scenarioFor cfg r d) d.newProviderID
          (if r.CorrelationID = "" then d.newCorrelationID else r.CorrelationID)).2⟩ := by
  simp [handleSend, hm, hb, hk, hi]

/-- C15. Provider-side idempotency: when the request's `idempotency_key` is mapped to an
existing provider payment, `handleSend` answers 200 with that payment's
`provider_payment_id` and current status, whatever the scenario header and the draws
are; it returns the store unchanged and starts no `finalizeLater`. -/
theorem provider_replay_is_noop (cfg : Config) (st : Store) (r : SendHttp) (d : SendDraws)
    (req : SendRequest) (pid : String) (p : Payment) (hm : r.Method = "POST")
    (hb : r.Body = some req) (hk : req.IdempotencyKey ≠ "")
    (hi : st.byIdemKey.read req.IdempotencyKey = some pid) (hp : st.byID.read pid = some p) :
    handleSend cfg st r d = ⟨st, .json 200 ⟨p.ProviderPaymentID, p.Status⟩, none⟩ :=
  handleSend_known cfg st r d req pid p hm hb hk hi hp

/-- C15 at a concrete store: key `k1` is mapped to `pp1`; a replay under scenario
header `http500` answers 200 with `pp1`. -/
theorem provider_replay_is_noop_witness :
    handleSend defaultConfig storeOne ⟨"POST", "c1", "http500", some orderK1⟩ sampleDraws
      = ⟨storeOne, .json 200 ⟨"pp1", "PENDING"⟩, none⟩ :=
  provider_replay_is_noop defaultConfig storeOne ⟨"POST", "c1", "http500", some orderK1⟩
    sampleDraws orderK1 "pp1" ⟨"pp1", "k1", "tx1", 1000, "key@bank", "", "", "PENDING", 1, 1⟩
    rfl rfl (by decide) (by decide) (by decide)

/-- C16. Provider scenario table: for a `POST` with a new `idempotency_key` the provider
stores the payment as `PENDING` under the new id and maps the key to it; with `c` the
correlation id and `s` the scenario used, it answers and schedules: `success` and
`accept_then_confirm`, 202 `PENDING` and finalization `CONFIRMED`; `accept_then_reject`,
202 `PENDING` and `REJECTED`; `timeout_then_confirm`, 504 and `CONFIRMED`;
`timeout_then_reject`, 504 and `REJECTED`; `http500`, 500 and no finalization. The
scenario used is the `X-Mock-Scenario` header whenever that is non-empty. -/
theorem provider_scenario_table (cfg : Config) (st : Store) (r : SendHttp) (d : SendDraws)
    (req : SendRequest) (c s : String) (hm : r.Method = "POST") (hb : r.Body = some req)
    (hk : req.IdempotencyKey ≠ "") (hi : st.byIdemKey.read req.IdempotencyKey = none)
    (hc : c = if r.CorrelationID = "" then d.newCorrelationID else r.CorrelationID)
    (hs : s = scenarioFor cfg r d) :
    ((handleSend cfg st r d).store.byID.read d.newProviderID).map Payment.Status
      = some "PENDING" ∧
    (handleSend cfg st r d).store.byIdemKey.read req.IdempotencyKey = some d.newProviderID ∧
    (s = "success" ∨ s = "accept_then_confirm" →
      (handleSend cfg st r d).response = .json 202 ⟨d.newProviderID, "PENDING"⟩ ∧
      (handleSend cfg st r d).finalize = some ⟨d.newProviderID, c, "CONFIRMED"⟩) ∧
    (s = "accept_then_reject" →
      (handleSend cfg st r d).response = .json 202 ⟨d.newProviderID, "PENDING"⟩ ∧
      (handleSend cfg st r d).finalize = some ⟨d.newProviderID, c, "REJECTED"⟩) ∧
    (s = "timeout_then_confirm" →
      (handleSend cfg st r d).response = .error 504 "gateway timeout" ∧
      (handleSend cfg st r d).finalize = some ⟨d.newProviderID, c, "CONFIRMED"⟩) ∧
    (s = "timeout_then_reject" →
      (handleSend cfg st r d).response = .error 504 "gateway timeout" ∧
      (handleSend cfg st r d).finalize = some ⟨d.newProviderID, c, "REJECTED"⟩) ∧
    (s = "http500" →
      (handleSend cfg st r d).response = .error 500 "temporary provider error" ∧
      (handleSend cfg st r d).finalize = none) ∧
    (r.Scenario ≠ "" → s = r.Scenario) := by
  rw [handleSend_new cfg st r d req hm hb hk hi, ← hc, ← hs]
  refine ⟨by simp [Participant.GoMap.read_write_same],
    by simp [Participant.GoMap.read_write_same], ?_, ?_, ?_, ?_, ?_, ?_⟩
  · rintro (h | h) <;> subst h <;> simp [answerFor]
  · intro h; subst h; simp [answerFor]
  · intro h; subst h; simp [answerFor]
  · intro h; subst h; simp [answerFor]
  · intro h; subst h; simp [answerFor]
  · intro h; rw [hs]; simp [scenarioFor, h]

/-- C16 at a concrete request: a new key under header `accept_then_reject`. -/
theorem provider_scenario_table_witness :
    (handleSend defaultConfig storeOne
        ⟨"POST", "c1", "accept_then_reject", some { orderK1 with IdempotencyKey := "k2" }⟩
        sampleDraws).response = .json 202 ⟨"pp2", "PENDING"⟩ ∧
    (handleSend defaultConfig storeOne
        ⟨"POST", "c1", "accept_then_reject", some { orderK1 with IdempotencyKey := "k2" }⟩
        sampleDraws).finalize = some ⟨"pp2", "c1", "REJECTED"⟩ :=
  (provider_scenario_table defaultConfig storeOne
    ⟨"POST", "c1", "accept_then_reject", some { orderK1 with IdempotencyKey := "k2" }⟩
    sampleDraws { orderK1 with IdempotencyKey := "k2" } "c1" "accept_then_reject"
    rfl rfl (by decide) (by decide) (by decide) (by decide)).2.2.2.1 rfl

/-! ## Asynchronous finalization -/

/-- C20. Finalization event sequence: for a provider payment stored under `providerID`,
`finalizeLater` sets its status to `finalType` and hands to `sendWebhook`, in this order,
the pending event then the final event when the order draw is not below
`POutOfOrderEvent`, the final event then the pending event when it is, followed by one
more event exactly when the duplicate draw is below `PDuplicateEvent`; every event
carries `providerID` and `correlationID`, and the extra event is the final event with
the newly drawn id `dupID` in place of its `event_id`. -/
theorem finalization_event_sequence (cfg : Config) (st : Store)
    (providerID correlationID finalType : String) (d : FinalizeDraws) (p : Payment)
    (hp : st.byID.read providerID = some p) :
    ((finalizeLater cfg st providerID correlationID finalType d).1.byID.read providerID).map
        Payment.Status = some finalType ∧
    (finalizeLater cfg st providerID correlationID finalType d).2 =
      (if d.orderDraw < cfg.POutOfOrderEvent then
          [⟨d.finalID, providerID, finalType, d.now, correlationID⟩,
           ⟨d.pendingID, providerID, "PENDING", d.now, correlationID⟩]
        else
          [⟨d.pendingID, providerID, "PENDING", d.now, correlationID⟩,
           ⟨d.finalID, providerID, finalType, d.now, correlationID⟩]) ++
      (if d.dupDraw < cfg.PDuplicateEvent then
          [⟨d.dupID, providerID, finalType, d.now, correlationID⟩]
        else []) ∧
    (∀ e ∈ (finalizeLater cfg st providerID correlationID finalType d).2,
      e.ProviderPaymentID = providerID ∧ e.CorrelationID = correlationID) ∧
    (finalizeLater cfg st providerID correlationID finalType d).2.length =
      2 + (if d.dupDraw < cfg.PDuplicateEvent then 1 else 0) := by
  have h2 : (finalizeLater cfg st providerID correlationID finalType d).2 =
      (if d.orderDraw < cfg.POutOfOrderEvent then
          [⟨d.finalID, providerID, finalType, d.now, correlationID⟩,
           ⟨d.pendingID, providerID, "PENDING", d.now, correlationID⟩]
        else
          [⟨d.pendingID, providerID, "PENDING", d.now, correlationID⟩,
           ⟨d.finalID, providerID, finalType, d.now, correlationID⟩]) ++
      (if d.dupDraw < cfg.PDuplicateEvent then
          [⟨d.dupID, providerID, finalType, d.now, correlationID⟩]
        else []) := by
    simp only [finalizeLater, hp, decide_eq_true_eq]
  refine ⟨?_, h2, ?_, ?_⟩
  · simp [finalizeLater, hp, Participant.GoMap.read_write_same]
  · rw [h2]
    intro e he
    simp only [List.mem_append] at he
    rcases he with he | he
    · split_ifs at he <;> simp only [List.mem_cons, List.mem_singleton, List.not_mem_nil,
        or_false] at he <;> rcases he with h | h <;> subst h <;> exact ⟨rfl, rfl⟩
    · split_ifs at he
      · simp only [List.mem_singleton] at he
        subst he
        exact ⟨rfl, rfl⟩
      · simp at he
  · rw [h2]
    split_ifs <;> rfl

/-- C20 at a concrete payment: `pp1` finalized `CONFIRMED` with both fault draws below
the default probabilities: final event, pending event, duplicate of the final event. -/
theorem finalization_event_sequence_witness :
    (finalizeLater defaultConfig storeOne "pp1" "c1" "CONFIRMED" sampleFinalizeDraws).2.length =
      2 + (if sampleFinalizeDraws.dupDraw < defaultConfig.PDuplicateEvent then 1 else 0) :=
  (finalization_event_sequence defaultConfig storeOne "pp1" "c1" "CONFIRMED" sampleFinalizeDraws
    ⟨"pp1", "k1", "tx1", 1000, "key@bank", "", "", "PENDING", 1, 1⟩ (by decide)).2.2.2

/-! ## Rounding to `float64` -/

theorem roundHalfEven_le (y : ℚ) (N : ℤ) (h : y ≤ N) : roundHalfEven y ≤ N := by
  have hf : ⌊y⌋ ≤ N := by
    have := Int.floor_le y
    exact_mod_cast this.trans h
  have hlt : ¬ (y - ⌊y⌋ < 1 / 2) → ⌊y⌋ + 1 ≤ N := by
    intro hn
    by_contra hc
    have heq : ⌊y⌋ = N := by omega
    have h1 : y - ⌊y⌋ ≤ 0 := by rw [heq]; linarith
    exact hn (by linarith)
  unfold roundHalfEven
  split_ifs with h1 h2 h3
  · exact hf
  · exact hlt h1
  · exact hf
  · exact hlt h1

theorem le_roundHalfEven (y : ℚ) (N : ℤ) (h : (N : ℚ) ≤ y) : N ≤ roundHalfEven y := by
  have hf : N ≤ ⌊y⌋ := Int.le_floor.mpr h
  unfold roundHalfEven
  split_ifs <;> omega

theorem two_zpow_log_le (x : ℚ) (hx : 0 < x) : (2 : ℚ) ^ Int.log 2 x ≤ x := by
  have := Int.zpow_log_le_self (b := 2) (r := x) (by norm_num) hx
  simpa using this

theorem lt_two_zpow_log_succ (x : ℚ) : x < (2 : ℚ) ^ (Int.log 2 x + 1) := by
  have := Int.lt_zpow_succ_log_self (b := 2) (by norm_num) x
  simpa using this

theorem log_lt_of_lt_two_zpow (x : ℚ) (hx : 0 < x) (z : ℤ) (h : x < (2 : ℚ) ^ z) :
    Int.log 2 x < z := by
  have := (Int.lt_zpow_iff_log_lt (b := 2) (by norm_num) (x := z) hx).mp (by simpa using h)
  exact this

theorem le_log_of_two_zpow_le (x : ℚ) (hx : 0 < x) (z : ℤ) (h : (2 : ℚ) ^ z ≤ x) :
    z ≤ Int.log 2 x := by
  have := (Int.zpow_le_iff_le_log (b := 2) (by norm_num) (x := z) hx).mp (by simpa using h)
  exact this

/-- A power of two with a non-negative exponent is an integer. -/
theorem two_zpow_eq_intCast (z : ℤ) (hz : 0 ≤ z) : ∃ N : ℤ, 0 < N ∧ (2 : ℚ) ^ z = (N : ℚ) := by
  obtain ⟨n, rfl⟩ := Int.eq_ofNat_of_zero_le hz
  refine ⟨2 ^ n, by positivity, ?_⟩
  simp

/-- A positive `float64` value is a whole number of units in the last place of its own
magnitude, and of every smaller unit. -/
theorem isF64_div_zpow (p : ℚ) (hp : IsF64 p) (hpos : 0 < p) (u : ℤ) (hu : u ≤ ulpExp p) :
    ∃ N : ℤ, p = (N : ℚ) * (2 : ℚ) ^ u := by
  obtain ⟨m, e, hm, he, _, hpe⟩ := hp
  have h2 : (0 : ℚ) < (2 : ℚ) ^ e := by positivity
  have hmlt : (m : ℚ) < 2 ^ 53 := by
    have : m < 2 ^ 53 := lt_of_le_of_lt (le_abs_self m) hm
    exact_mod_cast this
  have hlt : p < (2 : ℚ) ^ (53 + e) := by
    have e53 : (2 : ℚ) ^ (53 : ℤ) = 2 ^ (53 : ℕ) := by norm_num
    rw [hpe, zpow_add₀ (by norm_num : (2 : ℚ) ≠ 0), e53]
    exact mul_lt_mul_of_pos_right hmlt h2
  have hlog : Int.log 2 p < 53 + e := log_lt_of_lt_two_zpow p hpos _ hlt
  have hue : u ≤ e := by
    unfold ulpExp at hu
    rw [abs_of_pos hpos] at hu
    have : max (Int.log 2 p) (-1022) - 52 ≤ e := by
      have := max_le (a := Int.log 2 p) (b := -1022) (c := e + 52) (by omega) (by omega)
      omega
    omega
  obtain ⟨K, _, hK⟩ := two_zpow_eq_intCast (e - u) (by omega)
  refine ⟨m * K, ?_⟩
  have : (2 : ℚ) ^ e = (2 : ℚ) ^ (e - u) * (2 : ℚ) ^ u := by
    rw [← zpow_add₀ (by norm_num : (2 : ℚ) ≠ 0)]
    congr 1
    omega
  rw [hpe, this, hK]
  push_cast
  ring

theorem roundF64_zero : roundF64 0 = 0 := by
  simp [roundF64, roundHalfEven]

/-- Rounding does not cross a `float64` value from below. -/
theorem roundF64_le (x p : ℚ) (hx : 0 ≤ x) (hxp : x ≤ p) (hp : IsF64 p) : roundF64 x ≤ p := by
  rcases eq_or_lt_of_le hx with h0 | hpos
  · rw [← h0, roundF64_zero]; exact h0 ▸ hxp
  have hppos : 0 < p := lt_of_lt_of_le hpos hxp
  have hq : (0 : ℚ) < (2 : ℚ) ^ ulpExp x := by positivity
  have hu : ulpExp x ≤ ulpExp p := by
    unfold ulpExp
    rw [abs_of_pos hpos, abs_of_pos hppos]
    have := Int.log_mono_right (b := 2) hpos hxp
    have := max_le_max this (le_refl (-1022 : ℤ))
    omega
  obtain ⟨N, hN⟩ := isF64_div_zpow p hp hppos (ulpExp x) hu
  have hy : x / (2 : ℚ) ^ ulpExp x ≤ (N : ℚ) := by
    rw [div_le_iff₀ hq, ← hN]
    exact hxp
  have := roundHalfEven_le _ N hy
  unfold roundF64
  rw [hN]
  exact mul_le_mul_of_nonneg_right (by exact_mod_cast this) hq.le

/-- Rounding does not cross a `float64` value from above. -/
theorem le_roundF64 (x p : ℚ) (hp0 : 0 ≤ p) (hpx : p ≤ x) (hp : IsF64 p) : p ≤ roundF64 x := by
  have hq : (0 : ℚ) < (2 : ℚ) ^ ulpExp x := by positivity
  rcases eq_or_lt_of_le hp0 with h0 | hppos
  · have h1 : ((0 : ℤ) : ℚ) ≤ x / (2 : ℚ) ^ ulpExp x := by
      have : 0 ≤ x := hp0.trans hpx
      simpa using div_nonneg this hq.le
    have := le_roundHalfEven _ 0 h1
    rw [← h0]
    unfold roundF64
    exact mul_nonneg (by exact_mod_cast this) hq.le
  have hxpos : 0 < x := lt_of_lt_of_le hppos hpx
  have hmono := Int.log_mono_right (b := 2) hppos hpx
  rcases eq_or_lt_of_le hmono with heq | hlt
  · have hu : ulpExp x ≤ ulpExp p := by
      unfold ulpExp
      rw [abs_of_pos hxpos, abs_of_pos hppos, heq]
    obtain ⟨N, hN⟩ := isF64_div_zpow p hp hppos (ulpExp x) hu
    have hy : (N : ℚ) ≤ x / (2 : ℚ) ^ ulpExp x := by
      rw [le_div_iff₀ hq, ← hN]
      exact hpx
    have := le_roundHalfEven _ N hy
    unfold roundF64
    rw [hN]
    exact mul_le_mul_of_nonneg_right (by exact_mod_cast this) hq.le
  · have hplog : (-1074 : ℤ) ≤ Int.log 2 p := by
      obtain ⟨m, e, _, he, _, hpe⟩ := hp
      have h2 : (0 : ℚ) < (2 : ℚ) ^ e := by positivity
      have hm : 0 < m := by
        by_contra hc
        have hm0 : (m : ℚ) ≤ 0 := by exact_mod_cast not_lt.mp hc
        have : p ≤ 0 := by rw [hpe]; exact mul_nonpos_of_nonpos_of_nonneg hm0 h2.le
        exact absurd hppos (not_lt.mpr this)
      have hm1 : (1 : ℚ) ≤ m := by exact_mod_cast hm
      have hle : (2 : ℚ) ^ e ≤ p := by
        rw [hpe]
        calc (2 : ℚ) ^ e = 1 * (2 : ℚ) ^ e := (one_mul _).symm
          _ ≤ (m : ℚ) * (2 : ℚ) ^ e := mul_le_mul_of_nonneg_right hm1 h2.le
      have := le_log_of_two_zpow_le p hppos e hle
      omega
    have hdiff : 0 ≤ Int.log 2 x - ulpExp x := by
      unfold ulpExp
      rw [abs_of_pos hxpos]
      rcases le_total (Int.log 2 x) (-1022) with h | h
      · rw [max_eq_right h]; omega
      · rw [max_eq_left h]; omega
    obtain ⟨K, _, hK⟩ := two_zpow_eq_intCast _ hdiff
    have hsplit : (2 : ℚ) ^ Int.log 2 x = (K : ℚ) * (2 : ℚ) ^ ulpExp x := by
      rw [← hK, ← zpow_add₀ (by norm_num : (2 : ℚ) ≠ 0)]
      congr 1
      omega
    have hy : (K : ℚ) ≤ x / (2 : ℚ) ^ ulpExp x := by
      rw [le_div_iff₀ hq, ← hsplit]
      exact two_zpow_log_le x hxpos
    have hr := le_roundHalfEven _ K hy
    have hp2 : p < (2 : ℚ) ^ Int.log 2 x := by
      have h1 := lt_two_zpow_log_succ p
      have h2 : (2 : ℚ) ^ (Int.log 2 p + 1) ≤ (2 : ℚ) ^ Int.log 2 x :=
        zpow_le_zpow_right₀ (by norm_num) (by omega)
      exact lt_of_lt_of_le h1 h2
    have h3 : (2 : ℚ) ^ Int.log 2 x ≤ roundF64 x := by
      unfold roundF64
      rw [hsplit]
      exact mul_le_mul_of_nonneg_right (by exact_mod_cast hr) hq.le
    exact (hp2.trans_le h3).le

/-- A non-negative `float64` value rounds to itself. -/
theorem roundF64_eq_self (p : ℚ) (hp0 : 0 ≤ p) (hp : IsF64 p) : roundF64 p = p :=
  le_antisymm (roundF64_le p p hp0 (le_refl p) hp) (le_roundF64 p p hp0 (le_refl p) hp)

/-- The rounding of a positive rational in the normal range whose binade is known. -/
theorem roundF64_of_binade (x : ℚ) (e n : ℤ) (h1 : (2 : ℚ) ^ e ≤ x) (h2 : x < (2 : ℚ) ^ (e + 1))
    (he : -1022 ≤ e) (hn : roundHalfEven (x / (2 : ℚ) ^ (e - 52)) = n) :
    roundF64 x = (n : ℚ) * (2 : ℚ) ^ (e - 52) := by
  have hx : 0 < x := lt_of_lt_of_le (by positivity) h1
  have hlog : Int.log 2 x = e := by
    have a := le_log_of_two_zpow_le x hx e h1
    have b := log_lt_of_lt_two_zpow x hx (e + 1) h2
    omega
  have hu : ulpExp x = e - 52 := by
    unfold ulpExp
    rw [abs_of_pos hx, hlog, max_eq_left he]
  unfold roundF64
  rw [hu, hn]

/-- Rounding to the nearest integer when the fraction is above one half. -/
theorem roundHalfEven_up (y : ℚ) (f : ℤ) (h1 : (f : ℚ) + 1 / 2 < y) (h2 : y < (f : ℚ) + 1) :
    roundHalfEven y = f + 1 := by
  have hf : ⌊y⌋ = f := by
    rw [Int.floor_eq_iff]
    exact ⟨by linarith, h2⟩
  unfold roundHalfEven
  rw [hf]
  have a : ¬ (y - (f : ℚ) < 1 / 2) := by linarith
  have b : 1 / 2 < y - (f : ℚ) := by linarith
  rw [if_neg a, if_pos b]

/-! ## Scenario drawing -/

theorem pickScenario_off (cfg : Config) (r : ℚ) (coin : Nat) (h : cfg.FailureMode = "off") :
    pickScenario cfg r coin = "success" := by
  simp [pickScenario, h]

theorem pickScenario_http500 (cfg : Config) (r : ℚ) (coin : Nat) (h : cfg.FailureMode ≠ "off") :
    pickScenario cfg r coin = "http500" ↔ r < cfg.PHTTP500 := by
  unfold pickScenario
  simp only [h, if_false]
  split_ifs with h1 h2 h3
  · simp [h1]
  · simp [h1]
  · simp [h1]
  · simp [h1]

theorem pickScenario_timeout_confirm (cfg : Config) (r : ℚ) (coin : Nat)
    (h : cfg.FailureMode ≠ "off") :
    pickScenario cfg r coin = "timeout_then_confirm" ↔
      cfg.PHTTP500 ≤ r ∧ f64Sub r cfg.PHTTP500 < cfg.PTimeout ∧ coin = 0 := by
  unfold pickScenario
  simp only [h, if_false]
  split_ifs with h1 h2 h3
  · simp only [String.reduceEq, false_iff, not_and]
    intro h4; exact absurd h1 (not_lt.mpr h4)
  · simp only [true_iff]
    exact ⟨not_lt.mp h1, h2, h3⟩
  · simp only [String.reduceEq, false_iff, not_and]
    intro _ _; exact h3
  · simp only [String.reduceEq, false_iff, not_and]
    intro _ h5; exact absurd h5 h2

theorem pickScenario_timeout_reject (cfg : Config) (r : ℚ) (coin : Nat)
    (h : cfg.FailureMode ≠ "off") (hcoin : coin < 2) :
    pickScenario cfg r coin = "timeout_then_reject" ↔
      cfg.PHTTP500 ≤ r ∧ f64Sub r cfg.PHTTP500 < cfg.PTimeout ∧ coin = 1 := by
  unfold pickScenario
  simp only [h, if_false]
  split_ifs with h1 h2 h3
  · simp only [String.reduceEq, false_iff, not_and]
    intro h4; exact absurd h1 (not_lt.mpr h4)
  · simp only [String.reduceEq, false_iff, not_and]
    intro _ _; omega
  · simp only [true_iff]
    exact ⟨not_lt.mp h1, h2, by omega⟩
  · simp only [String.reduceEq, false_iff, not_and]
    intro _ h5; exact absurd h5 h2

theorem pickScenario_accept (cfg : Config) (r : ℚ) (coin : Nat) (h : cfg.FailureMode ≠ "off") :
    pickScenario cfg r coin = "accept_then_confirm" ↔
      cfg.PHTTP500 ≤ r ∧ cfg.PTimeout ≤ f64Sub r cfg.PHTTP500 := by
  unfold pickScenario
  simp only [h, if_false]
  split_ifs with h1 h2 h3
  · simp only [String.reduceEq, false_iff, not_and]
    intro h4; exact absurd h1 (not_lt.mpr h4)
  · simp only [String.reduceEq, false_iff, not_and, not_le]
    intro _; exact h2
  · simp only [String.reduceEq, false_iff, not_and, not_le]
    intro _; exact h2
  · simp only [true_iff]
    exact ⟨not_lt.mp h1, not_lt.mp h2⟩

/-- A draw at or above `PHTTP500 + PTimeout` is not in the timeout window: the rounded
difference cannot fall below the `float64` value `PTimeout`. -/
theorem le_f64Sub_of_sum_le (cfg : Config) (r : ℚ) (hT : 0 ≤ cfg.PTimeout)
    (hTf : IsF64 cfg.PTimeout) (h : cfg.PHTTP500 + cfg.PTimeout ≤ r) :
    cfg.PHTTP500 ≤ r ∧ cfg.PTimeout ≤ f64Sub r cfg.PHTTP500 :=
  ⟨by linarith, le_roundF64 _ _ hT (by linarith) hTf⟩

theorem uniformProb_prefix (p : ℚ) (h0 : 0 ≤ p) (h1 : p ≤ 1) : uniformProb 0 p = p := by
  unfold uniformProb
  rw [min_eq_left h1, max_eq_left (le_refl 0), sub_zero, max_eq_right h0]

theorem uniformProb_window (p t : ℚ) (h0 : 0 ≤ p) (h1 : p ≤ 1) (ht : 0 ≤ t) :
    uniformProb p (p + t) = min t (1 - p) := by
  unfold uniformProb
  rw [max_eq_left h0]
  by_cases h : p + t ≤ 1
  · rw [min_eq_left h, min_eq_left (by linarith), max_eq_right (by linarith)]
    ring
  · have h2 : 1 ≤ p + t := le_of_lt (not_le.mp h)
    rw [min_eq_right h2, min_eq_right (by linarith), max_eq_right (by linarith)]

/-- With `PHTTP500 = PTimeout = 1/2`, every draw of `mrand.Float64()` at or above `1/2`
is in the timeout window. -/
theorem halfHalf_window (r : ℚ) (hr : IsDraw r) (h : (1 : ℚ) / 2 ≤ r) :
    f64Sub r (1 / 2) < 1 / 2 := by
  obtain ⟨k, hk, rfl⟩ := hr
  have hk2 : (k : ℚ) ≤ 2 ^ 53 - 1 := by
    have : k + 1 ≤ 2 ^ 53 := hk
    have : ((k + 1 : ℕ) : ℚ) ≤ ((2 ^ 53 : ℕ) : ℚ) := by exact_mod_cast this
    push_cast at this
    linarith
  have hp : IsF64 ((2 ^ 52 - 1) / 2 ^ 53) :=
    ⟨2 ^ 52 - 1, -53, by norm_num, by norm_num, by norm_num, by norm_num⟩
  have hle : (k : ℚ) / 2 ^ 53 - 1 / 2 ≤ (2 ^ 52 - 1) / 2 ^ 53 := by
    rw [div_sub' _ _ _ (by norm_num : (2 : ℚ) ^ 53 ≠ 0), div_le_div_iff_of_pos_right (by norm_num)]
    linarith
  have := roundF64_le _ _ (by linarith) hle hp
  unfold f64Sub
  exact lt_of_le_of_lt this (by norm_num)

/-- C17 fails as stated: with `PHTTP500 = 1/2` and `PTimeout = 1/2` every draw of
`mrand.Float64()` that does not pick `http500` picks a timeout scenario, so given that
`http500` was not picked a timeout is picked with probability 1, not `PTimeout`; the
draw `3/4` is one of them. -/
theorem timeout_probability_not_conditional :
    halfHalfConfig.PTimeout = 1 / 2 ∧
    pickScenario halfHalfConfig (3 / 4) 0 = "timeout_then_confirm" ∧
    uniformProb halfHalfConfig.PHTTP500 (halfHalfConfig.PHTTP500 + halfHalfConfig.PTimeout)
      / (1 - uniformProb 0 halfHalfConfig.PHTTP500) = 1 ∧
    ¬ (∃ (r : ℚ) (coin : Nat), IsDraw r ∧
        pickScenario halfHalfConfig r coin = "accept_then_confirm") := by
  have e1 : halfHalfConfig.PHTTP500 = 1 / 2 := rfl
  have e2 : halfHalfConfig.PTimeout = 1 / 2 := rfl
  have e3 : halfHalfConfig.FailureMode ≠ "off" := by decide
  refine ⟨e2, ?_, ?_, ?_⟩
  · rw [pickScenario_timeout_confirm halfHalfConfig _ _ e3, e1, e2]
    refine ⟨by norm_num, ?_, rfl⟩
    exact halfHalf_window _ ⟨6755399441055744, by norm_num, by norm_num⟩ (by norm_num)
  · rw [e1, e2, uniformProb_window _ _ (by norm_num) (by norm_num) (by norm_num),
      uniformProb_prefix _ (by norm_num) (by norm_num)]
    norm_num
  · rintro ⟨r, coin, hr, h2⟩
    obtain ⟨h3, h4⟩ := (pickScenario_accept halfHalfConfig r coin e3).mp h2
    rw [e1] at h3
    rw [e1, e2] at h4
    exact absurd (halfHalf_window r hr h3) (not_lt.mpr h4)

/-- At `PHTTP500 = 0.1`, `PTimeout = 0.5046602879796196` and the draw
`0.6046602879796196`, the exact difference is below `PTimeout` but rounds to it. -/
theorem f64Sub_rounds_up_to_PTimeout :
    roundingDraw - roundingConfig.PHTTP500 < roundingConfig.PTimeout ∧
    f64Sub roundingDraw roundingConfig.PHTTP500 = roundingConfig.PTimeout := by
  have e1 : roundingConfig.PHTTP500 = 3602879701896397 / 36028797018963968 := rfl
  have e2 : roundingConfig.PTimeout = 1136393942446851 / 2251799813685248 := rfl
  rw [e1, e2]
  refine ⟨by norm_num [roundingDraw], ?_⟩
  unfold f64Sub roundingDraw
  rw [roundF64_of_binade _ (-1) 4545575769787404 (by norm_num) (by norm_num) (by norm_num)]
  · norm_num
  · have := roundHalfEven_up
      ((5446295695261503 / 9007199254740992 - 3602879701896397 / 36028797018963968)
        / (2 : ℚ) ^ ((-1 : ℤ) - 52)) 4545575769787403 (by norm_num) (by norm_num)
    rw [this]; norm_num

/-- C17, amended. Scenario drawing: with `FailureMode = off`, `pickScenario` returns
`success` for every draw. Otherwise, for `float64` probabilities `PHTTP500` and
`PTimeout` in `[0, 1]`, every draw `r` and a coin in `{0, 1}`: `http500` is picked
exactly when `r < PHTTP500`, a window of probability `PHTTP500`; a timeout scenario is
picked exactly when `PHTTP500 <= r` and the `float64` difference `r - PHTTP500` is below
`PTimeout`, which lies inside `PHTTP500 <= r < PHTTP500 + PTimeout`, a window of
probability `min PTimeout (1 - PHTTP500)` that is not conditioned on `http500` being
missed, and the coin chooses `timeout_then_confirm` (0) or `timeout_then_reject` (1);
`accept_then_confirm` is picked otherwise, in particular whenever
`PHTTP500 + PTimeout <= r`, and exactly then when the difference is exact. -/
theorem scenario_drawing (cfg : Config) (r : ℚ) (coin : Nat)
    (h500 : 0 ≤ cfg.PHTTP500 ∧ cfg.PHTTP500 ≤ 1) (hT : 0 ≤ cfg.PTimeout ∧ cfg.PTimeout ≤ 1)
    (hTf : IsF64 cfg.PTimeout) (hcoin : coin < 2) :
    (cfg.FailureMode = "off" → pickScenario cfg r coin = "success") ∧
    (cfg.FailureMode ≠ "off" →
      (pickScenario cfg r coin = "http500" ↔ r < cfg.PHTTP500) ∧
      (pickScenario cfg r coin = "timeout_then_confirm" ↔
        cfg.PHTTP500 ≤ r ∧ f64Sub r cfg.PHTTP500 < cfg.PTimeout ∧ coin = 0) ∧
      (pickScenario cfg r coin = "timeout_then_reject" ↔
        cfg.PHTTP500 ≤ r ∧ f64Sub r cfg.PHTTP500 < cfg.PTimeout ∧ coin = 1) ∧
      (pickScenario cfg r coin = "accept_then_confirm" ↔
        cfg.PHTTP500 ≤ r ∧ cfg.PTimeout ≤ f64Sub r cfg.PHTTP500) ∧
      (pickScenario cfg r coin = "timeout_then_confirm" ∨
          pickScenario cfg r coin = "timeout_then_reject" →
        cfg.PHTTP500 ≤ r ∧ r < cfg.PHTTP500 + cfg.PTimeout) ∧
      (cfg.PHTTP500 + cfg.PTimeout ≤ r → pickScenario cfg r coin = "accept_then_confirm") ∧
      (f64Sub r cfg.PHTTP500 = r - cfg.PHTTP500 →
        (pickScenario cfg r coin = "accept_then_confirm" ↔ cfg.PHTTP500 + cfg.PTimeout ≤ r))) ∧
    uniformProb 0 cfg.PHTTP500 = cfg.PHTTP500 ∧
    uniformProb cfg.PHTTP500 (cfg.PHTTP500 + cfg.PTimeout) = min cfg.PTimeout (1 - cfg.PHTTP500) := by
  refine ⟨pickScenario_off cfg r coin, fun h => ?_, uniformProb_prefix _ h500.1 h500.2,
    uniformProb_window _ _ h500.1 h500.2 hT.1⟩
  have hsum : cfg.PHTTP500 + cfg.PTimeout ≤ r → pickScenario cfg r coin = "accept_then_confirm" :=
    fun hs => (pickScenario_accept cfg r coin h).mpr (le_f64Sub_of_sum_le cfg r hT.1 hTf hs)
  refine ⟨pickScenario_http500 cfg r coin h, pickScenario_timeout_confirm cfg r coin h,
    pickScenario_timeout_reject cfg r coin h hcoin, pickScenario_accept cfg r coin h, ?_, hsum, ?_⟩
  · intro ht
    have hlt : f64Sub r cfg.PHTTP500 < cfg.PTimeout ∧ cfg.PHTTP500 ≤ r := by
      rcases ht with ht | ht
      · have := (pickScenario_timeout_confirm cfg r coin h).mp ht
        exact ⟨this.2.1, this.1⟩
      · have := (pickScenario_timeout_reject cfg r coin h hcoin).mp ht
        exact ⟨this.2.1, this.1⟩
    refine ⟨hlt.2, ?_⟩
    by_contra hc
    have := (le_f64Sub_of_sum_le cfg r hT.1 hTf (not_lt.mp hc)).2
    exact absurd hlt.1 (not_lt.mpr this)
  · intro hex
    rw [pickScenario_accept cfg r coin h, hex]
    constructor
    · rintro ⟨_, h2⟩; linarith
    · intro hs; exact ⟨by linarith [hT.1], by linarith⟩

/-- C17 amended, at `PHTTP500 = 0.1`, `PTimeout = 0.5046602879796196` and the draw
`0.6046602879796196`: the draw is below `PHTTP500 + PTimeout`, its `float64` difference
from `PHTTP500` rounds up to `PTimeout`, and `accept_then_confirm` is picked. -/
theorem scenario_drawing_witness :
    roundingDraw < roundingConfig.PHTTP500 + roundingConfig.PTimeout ∧
    pickScenario roundingConfig roundingDraw 1 = "accept_then_confirm" :=
  ⟨by linarith [f64Sub_rounds_up_to_PTimeout.1],
    ((scenario_drawing roundingConfig roundingDraw 1
      ⟨by norm_num [roundingConfig], by norm_num [roundingConfig]⟩
      ⟨by norm_num [roundingConfig], by norm_num [roundingConfig]⟩
      ⟨1136393942446851, -51, by norm_num, by norm_num, by norm_num,
        by norm_num [roundingConfig]⟩
      (by decide)).2.1 (by decide)).2.2.2.1.mpr
      ⟨by norm_num [roundingConfig, roundingDraw], le_of_eq f64Sub_rounds_up_to_PTimeout.2.symm⟩⟩

end Provider
